import Mathlib

/-!
# Heap Defence: the simulation core of `applications/heap-defence-game/heap_defence.c`

A shallow embedding of the game's grid, physics pass, box generator, row clearing,
character state machine and event dispatch, followed by theorems about them.

Conventions of the embedding.

* `uint8_t` values are `Nat` reduced modulo 256 where the code computes them
  (`u8`), `int8_t` values are `Int` wrapped into -128..127 (`i8`).
* The field is the single block of `X_FIELD_SIZE * Y_FIELD_SIZE` cells that
  `allocGameState` allocates; `field[y]` points at cell `y * X_FIELD_SIZE` of it,
  so `field[y][x]` is cell `y * X_FIELD_SIZE + x` of the block, also when `x`
  is outside `0..X_LAST` (pointer arithmetic inside one allocated block).
* An access whose row index is outside the row-pointer table, or whose cell is
  outside the block, is a memory fault: the operation returns `Fault.out_of_bounds`.
  Computing `&field[r][c]` loads the row pointer `field[r]` from the table, so it
  faults when `r` is outside the table, also when the cell is never read
  (`get_lower_box` in `ground_box_check`); adding a column to a row pointer does not
  fault, reading or writing the cell outside the block does.
* `rand()` is a stream `rand : Nat → Nat` of non-negative results together with the
  number of calls made so far; loops without a static bound take fuel.
-/

namespace HeapDefence

/-! ## Constants -/

abbrev Y_FIELD_SIZE : Nat := 6
abbrev Y_LAST : Nat := Y_FIELD_SIZE - 1
abbrev X_FIELD_SIZE : Nat := 12
abbrev X_LAST : Nat := X_FIELD_SIZE - 1
abbrev BOX_HEIGHT : Nat := 10
abbrev BOX_GENERATION_RATE : Nat := 15

/-! ## Machine integers -/

/-- Conversion of an `int` result to `uint8_t`. -/
def u8 (i : Int) : Nat := (i % 256).toNat

/-- Conversion of an `int` result to `int8_t` (two's complement wrap). -/
def i8 (i : Int) : Int := (i + 128) % 256 - 128

/-! ## Data model -/

/-- The bit-packed cell `Box`: `offset` (4 bits), `box_id` (3 bits), `exists` (1 bit). -/
structure Box where
  offset : Nat
  box_id : Nat
  exists_ : Bool
  deriving DecidableEq

/-- The all-zero cell, `(Box){0}`. -/
def Box.zero : Box := ⟨0, 0, false⟩

/-- The block of cells behind `field[0]`, in row-major order. -/
structure Field where
  cells : List Box
  size_eq : cells.length = X_FIELD_SIZE * Y_FIELD_SIZE
  deriving DecidableEq

/-- Cell number `i` of the block. -/
def Field.get (f : Field) (i : Nat) : Box := f.cells.getD i Box.zero

/-- The block with cell number `i` overwritten. -/
def Field.set (f : Field) (i : Nat) (b : Box) : Field :=
  ⟨f.cells.set i b, by rw [List.length_set]; exact f.size_eq⟩

/-- Read of `field[y][x]` for indices that the code keeps inside the grid statically. -/
def Field.cell (f : Field) (y x : Nat) : Box := f.get (y * X_FIELD_SIZE + x)

/-- Write of `field[y][x]` for indices that the code keeps inside the grid statically. -/
def Field.put (f : Field) (y x : Nat) (b : Box) : Field := f.set (y * X_FIELD_SIZE + x) b

/-- The zeroed block, as `bzero` leaves it. -/
def Field.zero : Field := ⟨List.replicate (X_FIELD_SIZE * Y_FIELD_SIZE) Box.zero, by simp⟩

structure Position where
  x : Nat
  y : Nat
  deriving DecidableEq

structure Person where
  p : Position
  x_direction : Int
  j_tick : Int
  h_tick : Int
  right_frame : Bool
  deriving DecidableEq

inductive Animations where
  | AnimationGameOver
  | AnimationPause
  | AnimationLeft
  | AnimationRight
  deriving DecidableEq

inductive GameStatuses where
  | GameStatusOver
  | GameStatusPause
  | GameStatusInProgress
  | GameStatusExit
  deriving DecidableEq

/-- The world: `GameState` of the source together with the two pieces of state that
live outside it, the function-static `tick_count` of `generate_box` and the number of
`rand()` calls made so far. -/
structure GameState where
  field : Field
  person : Person
  animation : Animations
  game_status : GameStatuses
  tick_count : Nat
  rand_pos : Nat
  deriving DecidableEq

inductive EventType where
  | EventGameTick
  | EventKeyPress
  deriving DecidableEq

/-- Modelled from the spec: the keys of the external input source (the header that
declares `InputKey` is not part of the sources); the spec names Up, Down, Left, Right,
Ok and Back. -/
inductive InputKey where
  | InputKeyUp
  | InputKeyDown
  | InputKeyRight
  | InputKeyLeft
  | InputKeyOk
  | InputKeyBack
  deriving DecidableEq

structure GameEvent where
  type : EventType
  key : InputKey
  deriving DecidableEq

/-! ## Memory faults -/

inductive Fault where
  | out_of_bounds
  | out_of_fuel
  deriving DecidableEq

instance instDecidableEqExcept {ε α : Type} [DecidableEq ε] [DecidableEq α] :
    DecidableEq (Except ε α) := fun a b =>
  match a, b with
  | .ok x, .ok y => if h : x = y then isTrue (by rw [h]) else isFalse (fun e => h (by cases e; rfl))
  | .error x, .error y =>
    if h : x = y then isTrue (by rw [h]) else isFalse (fun e => h (by cases e; rfl))
  | .ok _, .error _ => isFalse (fun e => by cases e)
  | .error _, .ok _ => isFalse (fun e => by cases e)

/-- The cell number that `&field[r][c]` denotes: `field[r]` is read from the table of
`Y_FIELD_SIZE` row pointers and points at cell `r * X_FIELD_SIZE` of the block. -/
def cell_addr (r c : Int) : Option Nat :=
  if 0 ≤ r ∧ r < Y_FIELD_SIZE ∧ 0 ≤ r * X_FIELD_SIZE + c ∧
      r * X_FIELD_SIZE + c < X_FIELD_SIZE * Y_FIELD_SIZE then
    some (r * X_FIELD_SIZE + c).toNat
  else none

/-- The row pointer `field[r]` as the number of the first cell of row `r`; the load from
the table of `Y_FIELD_SIZE` row pointers faults outside the table. -/
def row_ptr (r : Int) : Except Fault Int :=
  if 0 ≤ r ∧ r < Y_FIELD_SIZE then .ok (r * X_FIELD_SIZE) else .error .out_of_bounds

/-- Dereference of a pointer into the block for reading. -/
def load_at (f : Field) (a : Int) : Except Fault Box :=
  if 0 ≤ a ∧ a < X_FIELD_SIZE * Y_FIELD_SIZE then .ok (f.get a.toNat)
  else .error .out_of_bounds

/-- Dereference for reading. -/
def load (f : Field) (r c : Int) : Except Fault Box :=
  match cell_addr r c with
  | some i => .ok (f.get i)
  | none => .error .out_of_bounds

/-- Dereference for writing. -/
def store (f : Field) (r c : Int) (b : Box) : Except Fault Field :=
  match cell_addr r c with
  | some i => .ok (f.set i b)
  | none => .error .out_of_bounds

/-! ## Construct -/

def Person.reset : Person := ⟨⟨X_FIELD_SIZE / 2, Y_LAST⟩, 0, 0, 0, false⟩

def game_reset_field_and_player (game : GameState) : GameState :=
  { game with field := Field.zero, person := Person.reset }

/-- The freshly allocated game. The overlay selector is not assigned by
`allocGameState`; its start value is a parameter. -/
def allocGameState (a : Animations) : GameState :=
  { game_reset_field_and_player
      ⟨Field.zero, Person.reset, a, .GameStatusInProgress, 0, 0⟩ with
    game_status := .GameStatusInProgress }

/-! ## Box utils -/

def is_empty (box : Box) : Bool := !box.exists_

def has_dropped (box : Box) : Bool := box.offset == 0

def decrement_y_offset_to_zero (n : Box) : Box :=
  if n.offset ≠ 0 then { n with offset := n.offset - 1 } else n

/-! ## Box logic -/

/-- The retry loop of `generate_box`: draws `rand() % X_FIELD_SIZE` until the drawn
column of row 0 is empty. Returns the column and the number of `rand()` calls made. -/
def pick_column (rand : Nat → Nat) (f : Field) : Nat → Nat → Except Fault (Nat × Nat)
  | 0, _ => .error .out_of_fuel
  | fuel + 1, pos =>
    let x_offset := rand pos % X_FIELD_SIZE
    if (f.cell 0 x_offset).exists_ then pick_column rand f fuel (pos + 1)
    else .ok (x_offset, pos + 1)

def generate_box (fuel : Nat) (rand : Nat → Nat) (game : GameState) :
    Except Fault GameState :=
  let old := game.tick_count
  let game := { game with tick_count := (old + 1) % 256 }
  if old ≠ BOX_GENERATION_RATE then .ok game
  else
    let game := { game with tick_count := 0 }
    match pick_column rand game.field fuel game.rand_pos with
    | .error e => .error e
    | .ok (x_offset, pos) =>
      let f := game.field
      let f := f.put 0 x_offset { f.cell 0 x_offset with exists_ := true }
      let f := f.put 0 x_offset { f.cell 0 x_offset with offset := BOX_HEIGHT }
      let f := f.put 0 x_offset { f.cell 0 x_offset with box_id := rand pos % 5 }
      .ok { game with field := f, rand_pos := pos + 1 }

/-- The body of the inner loop of `drop_box` at row `y`, column `x`. -/
def drop_cell (y x : Nat) (f : Field) : Field :=
  let f := if y = Y_LAST then f.put y x (decrement_y_offset_to_zero (f.cell y x)) else f
  let f := f.put (y - 1) x (decrement_y_offset_to_zero (f.cell (y - 1) x))
  if is_empty (f.cell y x) && !is_empty (f.cell (y - 1) x) && has_dropped (f.cell (y - 1) x) then
    let f := f.put (y - 1) x { f.cell (y - 1) x with offset := BOX_HEIGHT }
    let temp := f.cell y x
    let f := f.put y x (f.cell (y - 1) x)
    f.put (y - 1) x temp
  else f

/-- The inner loop `for (x = 0; x < X_FIELD_SIZE; x++)` at row `y`. -/
def drop_row (y : Nat) (f : Field) : Field :=
  (List.range X_FIELD_SIZE).foldl (fun g x => drop_cell y x g) f

/-- The outer loop `for (y = ...; y > 0; y--)` started at row `y`. -/
def drop_rows : Nat → Field → Field
  | 0, f => f
  | y + 1, f => drop_rows y (drop_row (y + 1) f)

def drop_box (f : Field) : Field := drop_rows Y_LAST f

/-- The scan of `clear_rows`: some floor cell is empty or has not landed. -/
def floor_incomplete (f : Field) : Bool :=
  (List.range X_FIELD_SIZE).any
    (fun x => is_empty (f.cell Y_LAST x) || !has_dropped (f.cell Y_LAST x))

/-- The `memset(field[Y_LAST], 0, sizeof(Box) * X_FIELD_SIZE)` of `clear_rows`. -/
def clear_floor (f : Field) : Field :=
  (List.range X_FIELD_SIZE).foldl (fun g x => g.put Y_LAST x Box.zero) f

/-- The recursion of `clear_rows`; the fuel bounds the recursion depth. -/
def clear_rows : Nat → Field → Except Fault Field
  | 0, _ => .error .out_of_fuel
  | fuel + 1, f =>
    if floor_incomplete f then .ok f else clear_rows fuel (clear_floor f)

/-! ## Input handling -/

def handle_key_presses (key : InputKey) (game : GameState) : GameState :=
  let person := game.person
  match key with
  | .InputKeyUp =>
    if person.j_tick = 0 then { game with person := { person with j_tick := 1 } } else game
  | .InputKeyLeft =>
    let person := { person with right_frame := false }
    if person.h_tick = 0 then
      { game with person := { person with h_tick := 1, x_direction := -1 } }
    else { game with person := person }
  | .InputKeyRight =>
    let person := { person with right_frame := true }
    if person.h_tick = 0 then
      { game with person := { person with h_tick := 1, x_direction := 1 } }
    else { game with person := person }
  | .InputKeyBack => { game with game_status := .GameStatusExit }
  | _ => { game with game_status := .GameStatusPause, animation := .AnimationPause }

/-! ## Person logic -/

/-- The pointer `&field[current.y + 1][current.x]` as a cell number: the row pointer
`field[current.y + 1]` is loaded from the table of `Y_FIELD_SIZE` row pointers, the cell
is not read. The table is the one `allocGameState` has filled, so the pointer depends on
the position alone. -/
def get_lower_box (current : Position) : Except Fault Int :=
  match row_ptr (current.y + 1) with
  | .error e => .error e
  | .ok row => .ok (row + current.x)

def ground_box_check (field : Field) (new_position : Position) : Except Fault Bool :=
  match get_lower_box new_position with
  | .error e => .error e
  | .ok lower_box =>
    if new_position.y = Y_LAST then .ok true
    else
      match load_at field lower_box with
      | .error e => .error e
      | .ok lower => .ok (is_empty lower || has_dropped lower)

def is_movable (field : Field) (box_pos : Position) (x_direction : Int) :
    Except Fault Bool :=
  let top : Except Fault Bool :=
    if box_pos.y < 2 then .ok true
    else
      match load field (box_pos.y - 1) box_pos.x with
      | .error e => .error e
      | .ok upper_box => .ok upper_box.exists_
  match top with
  | .error e => .error e
  | .ok box_on_top =>
    match load field box_pos.y (box_pos.x + x_direction) with
    | .error e => .error e
    | .ok next_box => .ok (!box_on_top && !next_box.exists_)

def horizontal_move (person : Person) (field : Field) :
    Except Fault (Bool × Person × Field) :=
  if person.x_direction = 0 then .ok (false, person, field)
  else
    let new_position : Position := { person.p with x := u8 (person.p.x + person.x_direction) }
    if (new_position.x : Int) < 0 ∨ new_position.x > X_LAST then .ok (false, person, field)
    else
      match load field new_position.y new_position.x with
      | .error e => .error e
      | .ok target =>
        if is_empty target then
          match ground_box_check field new_position with
          | .error e => .error e
          | .ok ground_box_dropped =>
            if ground_box_dropped then .ok (true, { person with p := new_position }, field)
            else .ok (false, person, field)
        else
          match is_movable field new_position person.x_direction with
          | .error e => .error e
          | .ok movable =>
            if movable then
              match store field new_position.y (new_position.x + person.x_direction) target with
              | .error e => .error e
              | .ok field1 =>
                match load field1 new_position.y new_position.x with
                | .error e => .error e
                | .ok vacated =>
                  match store field1 new_position.y new_position.x
                      { vacated with exists_ := false } with
                  | .error e => .error e
                  | .ok field2 => .ok (true, { person with p := new_position }, field2)
            else .ok (false, person, field)

def on_ground (person : Person) (field : Field) : Except Fault Bool :=
  if person.p.y = Y_LAST then .ok true
  else
    match load field (person.p.y + 1) person.p.x with
    | .error e => .error e
    | .ok lower => .ok lower.exists_

/-- The first `switch` of `person_move`, on `h_tick`. -/
def person_move_horizontal (person : Person) (field : Field) :
    Except Fault (Person × Field) :=
  if person.h_tick = 0 then .ok (person, field)
  else if person.h_tick = 1 then
    let person := { person with h_tick := i8 (person.h_tick + 1) }
    match horizontal_move person field with
    | .error e => .error e
    | .ok (moved, person, field) =>
      if !moved then .ok ({ person with h_tick := 0, x_direction := 0 }, field)
      else .ok (person, field)
  else if person.h_tick = 5 then .ok ({ person with h_tick := 0, x_direction := 0 }, field)
  else .ok ({ person with h_tick := i8 (person.h_tick + 1) }, field)

/-- The second `switch` of `person_move`, on `j_tick`. -/
def person_move_vertical (person : Person) (field : Field) : Except Fault Person :=
  if person.j_tick = 0 then
    match on_ground person field with
    | .error e => .error e
    | .ok grounded =>
      if !grounded then
        .ok { person with p := { person.p with y := u8 (person.p.y + 1) },
                          j_tick := i8 (person.j_tick - 1) }
      else .ok person
  else if person.j_tick = 1 then
    match on_ground person field with
    | .error e => .error e
    | .ok grounded =>
      if grounded then
        .ok { person with p := { person.p with y := u8 (person.p.y - 1) },
                          j_tick := i8 (person.j_tick + 1) }
      else .ok person
  else if person.j_tick = 6 then .ok { person with j_tick := 0 }
  else if person.j_tick = -6 then .ok { person with j_tick := 0 }
  else .ok { person with j_tick := i8 (person.j_tick + (if person.j_tick > 0 then 1 else -1)) }

/-- The closing `if (person->j_tick > 0)` of `person_move`: the mid-jump clear. -/
def person_move_clear (person : Person) (field : Field) : Except Fault Field :=
  if person.j_tick > 0 then
    match store field person.p.y person.p.x Box.zero with
    | .error e => .error e
    | .ok field1 => store field1 (person.p.y - 1) person.p.x Box.zero
  else .ok field

def person_move (person : Person) (field : Field) : Except Fault (Person × Field) :=
  match person_move_horizontal person field with
  | .error e => .error e
  | .ok (person1, field1) =>
    match person_move_vertical person1 field1 with
    | .error e => .error e
    | .ok person2 =>
      match person_move_clear person2 field1 with
      | .error e => .error e
      | .ok field2 => .ok (person2, field2)

def is_person_dead (person : Person) (field : Field) : Except Fault Bool :=
  match load field (person.p.y - 1) person.p.x with
  | .error e => .error e
  | .ok upper => .ok upper.exists_

/-! ## Event dispatch -/

/-- The tick branch of the consumer loop of `heap_defence_app`. -/
def game_tick (fuel : Nat) (rand : Nat → Nat) (game : GameState) : Except Fault GameState :=
  match is_person_dead game.person game.field with
  | .error e => .error e
  | .ok dead =>
    if dead then
      .ok (game_reset_field_and_player
        { game with game_status := .GameStatusOver, animation := .AnimationGameOver })
    else
      let game := { game with field := drop_box game.field }
      match generate_box fuel rand game with
      | .error e => .error e
      | .ok game =>
        match clear_rows fuel game.field with
        | .error e => .error e
        | .ok field =>
          match person_move game.person field with
          | .error e => .error e
          | .ok (person, field) => .ok { game with person := person, field := field }

/-- One iteration of the consumer loop of `heap_defence_app` on a received event. -/
def process_event (fuel : Nat) (rand : Nat → Nat) (event : GameEvent) (game : GameState) :
    Except Fault GameState :=
  if game.game_status ≠ .GameStatusInProgress then
    if event.type = .EventKeyPress ∧ event.key = .InputKeyOk then
      .ok { game with game_status := .GameStatusInProgress }
    else .ok game
  else if event.type = .EventGameTick then game_tick fuel rand game
  else if event.type = .EventKeyPress then .ok (handle_key_presses event.key game)
  else .ok game

/-- The events of a list processed in order, as the consumer loop does. -/
def process_events (fuel : Nat) (rand : Nat → Nat) :
    List GameEvent → GameState → Except Fault GameState
  | [], game => .ok game
  | e :: es, game =>
    match process_event fuel rand e game with
    | .error err => .error err
    | .ok game1 => process_events fuel rand es game1

/-! ## Auxiliary definitions for the gravity pass -/

/-- What the body of the inner loop of `drop_box` does to the pair
(current cell, upper cell). -/
def drop_pair (last : Bool) (cur up : Box) : Box × Box :=
  let cur1 := if last then decrement_y_offset_to_zero cur else cur
  let up1 := decrement_y_offset_to_zero up
  if is_empty cur1 && !is_empty up1 && has_dropped up1 then
    ({ up1 with offset := BOX_HEIGHT }, cur1)
  else (cur1, up1)

/-- One loop body seen from a single column `c` (a function from rows to cells). -/
def col_step (y : Nat) (c : Nat → Box) : Nat → Box := fun r =>
  if r = y then (drop_pair (decide (y = Y_LAST)) (c y) (c (y - 1))).1
  else if r = y - 1 then (drop_pair (decide (y = Y_LAST)) (c y) (c (y - 1))).2
  else c r

/-- The outer loop seen from a single column. -/
def col_rows : Nat → (Nat → Box) → Nat → Box
  | 0, c => c
  | y + 1, c => col_rows y (col_step (y + 1) c)

/-- The grid whose only box is `⟨off, id, true⟩` at row `row`, column `col`. -/
def lone_box (col row off id : Nat) : Field := Field.zero.put row col ⟨off, id, true⟩

/-- Row and fall offset of a lone box after one pass of `drop_box`. -/
def lone_next (s : Nat × Nat) : Nat × Nat :=
  if s.1 < Y_LAST then (if s.2 ≤ 1 then (s.1 + 1, BOX_HEIGHT) else (s.1, s.2 - 1))
  else (s.1, s.2 - 1)

/-- The idle world: empty grid, character at its start cell, spawn counter `c`. -/
def idle_world (a : Animations) (c : Nat) : GameState :=
  { allocGameState a with tick_count := c }

/-- A timer event; the key it carries is not looked at. -/
def tick_event (k : InputKey) : GameEvent := ⟨.EventGameTick, k⟩

/-- The cell predicate of the data model: the fall offset is at most `BOX_HEIGHT`, and an
empty cell has fall offset 0. -/
def cell_ok (b : Box) : Prop := b.offset ≤ BOX_HEIGHT ∧ (b.exists_ = false → b.offset = 0)

instance (b : Box) : Decidable (cell_ok b) := by unfold cell_ok; infer_instance

/-- Every cell of the grid satisfies `cell_ok`. -/
def grid_ok (f : Field) : Prop := ∀ i, i < X_FIELD_SIZE * Y_FIELD_SIZE → cell_ok (f.get i)

instance (f : Field) : Decidable (grid_ok f) := by unfold grid_ok; infer_instance

/-- The range half of the cell predicate: every fall offset is at most `BOX_HEIGHT`. -/
def offset_ok (f : Field) : Prop :=
  ∀ i, i < X_FIELD_SIZE * Y_FIELD_SIZE → (f.get i).offset ≤ BOX_HEIGHT

instance (f : Field) : Decidable (offset_ok f) := by unfold offset_ok; infer_instance

/-- The cell `horizontal_move` aims at: the character's row, column `x + x_direction`
as a `uint8_t`. -/
def target_position (person : Person) : Position :=
  { person.p with x := u8 (person.p.x + person.x_direction) }

/-- The number of occupied cells of the grid. -/
def occupied (f : Field) : Nat := f.cells.countP (fun b => b.exists_)

/-- The position lies inside the grid. -/
def in_grid (p : Position) : Prop := p.x ≤ X_LAST ∧ p.y ≤ Y_LAST

instance (p : Position) : Decidable (in_grid p) := by unfold in_grid; infer_instance

/-- The test of the inner loop body of `drop_box` at row `y`, column `x`, evaluated as the
body evaluates it (after its decrements): whether the body moves the box of the upper
cell `(y - 1, x)` down into `(y, x)`. -/
def drop_cell_moves (y x : Nat) (f : Field) : Bool :=
  let f := if y = Y_LAST then f.put y x (decrement_y_offset_to_zero (f.cell y x)) else f
  let f := f.put (y - 1) x (decrement_y_offset_to_zero (f.cell (y - 1) x))
  is_empty (f.cell y x) && !is_empty (f.cell (y - 1) x) && has_dropped (f.cell (y - 1) x)

/-- The inner loop of `drop_box` with a log: `(y, x)` is appended when the body at row
`y`, column `x` moves a box from row `y - 1` to row `y`. -/
def drop_row_log (y : Nat) (s : Field × List (Nat × Nat)) : Field × List (Nat × Nat) :=
  (List.range X_FIELD_SIZE).foldl
    (fun t x => (drop_cell y x t.1, if drop_cell_moves y x t.1 then t.2 ++ [(y, x)] else t.2)) s

/-- The outer loop of `drop_box` with the log of moves. -/
def drop_rows_log : Nat → Field × List (Nat × Nat) → Field × List (Nat × Nat)
  | 0, s => s
  | y + 1, s => drop_rows_log y (drop_row_log (y + 1) s)

/-- One pass of `drop_box` together with the moves it made, in the order it made them. -/
def drop_box_log (f : Field) : Field × List (Nat × Nat) := drop_rows_log Y_LAST (f, [])

/-- The grid with landed boxes at rows 2 and 3 of column 0 and nothing below them. -/
def stacked_pair : Field := (lone_box 0 3 0 1).put 2 0 ⟨0, 2, true⟩

/-- Order of the loop bodies of one pass: `a` runs before `b` when `b` is in a higher row
(smaller index), or in the same row further right. -/
def runs_before (a b : Nat × Nat) : Prop := b.1 < a.1 ∨ (b.1 = a.1 ∧ a.2 < b.2)

/-- Invariant of the log while row `y` is being processed and columns below `k` are done. -/
def log_inv (y k : Nat) (log : List (Nat × Nat)) : Prop :=
  log.Pairwise runs_before ∧ ∀ e ∈ log, y < e.1 ∨ (e.1 = y ∧ e.2 < k)

/-- The consumer loop of `heap_defence_app` on the events it receives, in order: the
`while (event.input.key != InputKeyBack)` test is made on the event just processed, so the
loop ends with the first event whose key field is Back. -/
def consumer_loop (fuel : Nat) (rand : Nat → Nat) :
    List GameEvent → GameState → Except Fault GameState
  | [], game => .ok game
  | e :: es, game =>
    match process_event fuel rand e game with
    | .error err => .error err
    | .ok game1 =>
      if e.key = .InputKeyBack then .ok game1 else consumer_loop fuel rand es game1

/-- The event of a press of key `k`. -/
def key_event (k : InputKey) : GameEvent := ⟨.EventKeyPress, k⟩

/-- The counter predicate of the character: `h_tick` in 0..5, `x_direction` in
{-1, 0, 1}, `j_tick` in -6..6, and `h_tick = 0` exactly when `x_direction = 0`. -/
def counters_ok (p : Person) : Prop :=
  (0 ≤ p.h_tick ∧ p.h_tick ≤ 5) ∧
  (p.x_direction = -1 ∨ p.x_direction = 0 ∨ p.x_direction = 1) ∧
  (-6 ≤ p.j_tick ∧ p.j_tick ≤ 6) ∧
  (p.h_tick = 0 ↔ p.x_direction = 0)

instance (p : Person) : Decidable (counters_ok p) := by unfold counters_ok; infer_instance

/-- The ground condition of a walk into `pos`, the expression whose value
`ground_box_check` returns: `pos` is on the floor row, or the cell below it is empty, or
the box in the cell below it has landed. -/
def grounded (f : Field) (pos : Position) : Prop :=
  pos.y = Y_LAST ∨ (f.cell (pos.y + 1) pos.x).exists_ = false ∨
    (f.cell (pos.y + 1) pos.x).offset = 0

instance (f : Field) (pos : Position) : Decidable (grounded f pos) := by
  unfold grounded; infer_instance

/-- The test of `drop_pair`: the upper box is moved down. -/
def drop_pair_moves (last : Bool) (cur up : Box) : Bool :=
  is_empty (if last then decrement_y_offset_to_zero cur else cur) &&
    !is_empty (decrement_y_offset_to_zero up) && has_dropped (decrement_y_offset_to_zero up)

/-- Every logged move has left a box with a fresh fall offset in the cell it is logged
for. -/
def log_cells (t : Field × List (Nat × Nat)) : Prop :=
  ∀ e ∈ t.2, e.2 < X_FIELD_SIZE ∧ (t.1.cell e.1 e.2).exists_ = true ∧
    (t.1.cell e.1 e.2).offset = BOX_HEIGHT

/-- Whether, in the pass over the rows `n, n - 1, ..., 1` of a column, the loop body of
row `y` moves a box from row `y - 1` into row `y`: the test of that body on the column as
the body finds it, after the bodies of the rows below have run. -/
def col_moves : Nat → (Nat → Box) → Nat → Bool
  | 0, _, _ => false
  | n + 1, c, y =>
    if y = n + 1 then drop_pair_moves (decide (n + 1 = Y_LAST)) (c (n + 1)) (c n)
    else col_moves n (col_step (n + 1) c) y

/-! ## The block as a finite map -/

theorem Field.get_set_eq (f : Field) (i : Nat) (b : Box)
    (h : i < X_FIELD_SIZE * Y_FIELD_SIZE) : (f.set i b).get i = b := by
  have hl : i < f.cells.length := by rw [f.size_eq]; exact h
  simp [Field.get, Field.set, List.getD_eq_getElem?_getD, hl]

theorem Field.get_set_ne (f : Field) (i j : Nat) (b : Box) (h : i ≠ j) :
    (f.set i b).get j = f.get j := by
  simp [Field.get, Field.set, List.getD_eq_getElem?_getD, List.getElem?_set_ne h]

theorem Field.get_zero (i : Nat) : Field.zero.get i = Box.zero := by
  simp only [Field.get, Field.zero, List.getD_eq_getElem?_getD]
  by_cases h : i < X_FIELD_SIZE * Y_FIELD_SIZE
  · rw [List.getElem?_eq_getElem (by simpa using h)]; simp
  · rw [List.getElem?_eq_none (by simpa using h)]; rfl

theorem Field.ext_get (f g : Field)
    (h : ∀ i, i < X_FIELD_SIZE * Y_FIELD_SIZE → f.get i = g.get i) : f = g := by
  cases f with
  | mk fc fs =>
    cases g with
    | mk gc gs =>
      have : fc = gc := by
        apply List.ext_getElem (by rw [fs, gs])
        intro i h1 h2
        have hi := h i (by rw [← fs]; exact h1)
        simpa [Field.get, List.getD_eq_getElem?_getD, List.getElem?_eq_getElem h1,
          List.getElem?_eq_getElem h2] using hi
      subst this
      rfl

theorem Field.cell_put (f : Field) (y x y1 x1 : Nat) (b : Box)
    (hy : y < Y_FIELD_SIZE) (hx : x < X_FIELD_SIZE) (hx1 : x1 < X_FIELD_SIZE) :
    (f.put y x b).cell y1 x1 = if y1 = y ∧ x1 = x then b else f.cell y1 x1 := by
  unfold Field.cell Field.put
  by_cases h : y1 = y ∧ x1 = x
  · obtain ⟨rfl, rfl⟩ := h
    simp only [and_self, if_true]
    exact Field.get_set_eq f _ b (by simp only [X_FIELD_SIZE, Y_FIELD_SIZE] at *; omega)
  · rw [if_neg h]
    apply Field.get_set_ne
    simp only [X_FIELD_SIZE, Y_FIELD_SIZE] at *
    omega

theorem Field.cell_zero (y x : Nat) : Field.zero.cell y x = Box.zero := Field.get_zero _

theorem Field.ext_cell (f g : Field)
    (h : ∀ y x, y < Y_FIELD_SIZE → x < X_FIELD_SIZE → f.cell y x = g.cell y x) : f = g := by
  apply Field.ext_get
  intro i hi
  have := h (i / X_FIELD_SIZE) (i % X_FIELD_SIZE)
    (by simp only [X_FIELD_SIZE, Y_FIELD_SIZE] at *; omega)
    (by simp only [X_FIELD_SIZE, Y_FIELD_SIZE] at *; omega)
  simpa [Field.cell, Nat.div_add_mod'] using this

/-! ## One gravity pass, column by column -/

theorem Field.cell_put_same (f : Field) (y x : Nat) (b : Box)
    (hy : y < Y_FIELD_SIZE) (hx : x < X_FIELD_SIZE) : (f.put y x b).cell y x = b := by
  rw [Field.cell_put f y x y x b hy hx hx]; simp

theorem Field.cell_put_row (f : Field) (y x y1 : Nat) (b : Box)
    (hy : y < Y_FIELD_SIZE) (hx : x < X_FIELD_SIZE) (h : y1 ≠ y) :
    (f.put y x b).cell y1 x = f.cell y1 x := by
  rw [Field.cell_put f y x y1 x b hy hx hx]; simp [h]

theorem Field.cell_put_col (f : Field) (y x y1 x1 : Nat) (b : Box)
    (hy : y < Y_FIELD_SIZE) (hx : x < X_FIELD_SIZE) (hx1 : x1 < X_FIELD_SIZE) (h : x1 ≠ x) :
    (f.put y x b).cell y1 x1 = f.cell y1 x1 := by
  rw [Field.cell_put f y x y1 x1 b hy hx hx1]; simp [h]

theorem drop_cell_other_col (f : Field) (y x y1 x1 : Nat) (hy0 : 0 < y)
    (hy : y < Y_FIELD_SIZE) (hx : x < X_FIELD_SIZE) (hx1 : x1 < X_FIELD_SIZE) (h : x1 ≠ x) :
    (drop_cell y x f).cell y1 x1 = f.cell y1 x1 := by
  have hy1 : y - 1 < Y_FIELD_SIZE := by omega
  have key : ∀ (g : Field) (r : Nat) (b : Box), r < Y_FIELD_SIZE →
      (g.put r x b).cell y1 x1 = g.cell y1 x1 :=
    fun g r b hr => Field.cell_put_col g r x y1 x1 b hr hx hx1 h
  unfold drop_cell
  by_cases hl : y = Y_LAST
  · simp only [hl, if_true]
    rw [hl] at hy hy1
    split <;> simp only [key _ _ _ hy, key _ _ _ hy1]
  · simp only [hl, if_false]
    split <;> simp only [key _ _ _ hy, key _ _ _ hy1]

theorem drop_cell_same_col (f : Field) (y x y1 : Nat) (hy0 : 0 < y)
    (hy : y < Y_FIELD_SIZE) (hx : x < X_FIELD_SIZE) :
    (drop_cell y x f).cell y1 x = col_step y (fun r => f.cell r x) y1 := by
  have hy1 : y - 1 < Y_FIELD_SIZE := by omega
  have hne : y - 1 ≠ y := by omega
  have hne2 : y ≠ y - 1 := by omega
  have same : ∀ (g : Field) (r : Nat) (b : Box), r < Y_FIELD_SIZE →
      (g.put r x b).cell r x = b := fun g r b hr => Field.cell_put_same g r x b hr hx
  have other : ∀ (g : Field) (r r1 : Nat) (b : Box), r < Y_FIELD_SIZE → r1 ≠ r →
      (g.put r x b).cell r1 x = g.cell r1 x :=
    fun g r r1 b hr hn => Field.cell_put_row g r x r1 b hr hx hn
  unfold drop_cell col_step drop_pair
  by_cases hl : y = Y_LAST
  · simp only [hl, if_true, decide_True]
    rw [hl] at hy hy1 hne hne2
    simp only [same _ _ _ hy, same _ _ _ hy1, other _ _ _ _ hy hne, other _ _ _ _ hy1 hne2]
    split
    · rename_i hc
      by_cases h1 : y1 = Y_LAST
      · simp only [h1, if_true, same _ _ _ hy, other _ _ _ _ hy1 hne2]
      · by_cases h2 : y1 = Y_LAST - 1
        · simp only [h2, hne, if_true, if_false, same _ _ _ hy1]
        · simp only [h1, h2, if_false, other _ _ _ _ hy h1, other _ _ _ _ hy1 h2]
    · by_cases h1 : y1 = Y_LAST
      · simp only [h1, if_true, same _ _ _ hy, other _ _ _ _ hy1 hne2]
      · by_cases h2 : y1 = Y_LAST - 1
        · simp only [h2, hne, if_true, if_false, same _ _ _ hy1]
        · simp only [h1, h2, if_false, other _ _ _ _ hy h1, other _ _ _ _ hy1 h2]
  · simp only [hl, if_false, decide_False, Bool.false_eq_true]
    simp only [same _ _ _ hy, same _ _ _ hy1, other _ _ _ _ hy hne, other _ _ _ _ hy1 hne2]
    split
    · rename_i hc
      by_cases h1 : y1 = y
      · simp only [h1, if_true, same _ _ _ hy, other _ _ _ _ hy1 hne2]
      · by_cases h2 : y1 = y - 1
        · simp only [h2, hne, if_true, if_false, same _ _ _ hy1]
        · simp only [h1, h2, if_false, other _ _ _ _ hy h1, other _ _ _ _ hy1 h2]
    · rename_i hc
      by_cases h1 : y1 = y
      · simp only [h1, if_true, same _ _ _ hy, other _ _ _ _ hy1 hne2]
      · by_cases h2 : y1 = y - 1
        · simp only [h2, hne, if_true, if_false, same _ _ _ hy1]
        · simp only [h1, h2, if_false, other _ _ _ _ hy h1, other _ _ _ _ hy1 h2]

theorem drop_cell_cell (f : Field) (y x y1 x1 : Nat) (hy0 : 0 < y) (hy : y < Y_FIELD_SIZE)
    (hx : x < X_FIELD_SIZE) (hx1 : x1 < X_FIELD_SIZE) :
    (drop_cell y x f).cell y1 x1 =
      if x1 = x then col_step y (fun r => f.cell r x1) y1 else f.cell y1 x1 := by
  by_cases h : x1 = x
  · subst h
    rw [if_pos rfl]
    exact drop_cell_same_col f y x1 y1 hy0 hy hx
  · rw [if_neg h]
    exact drop_cell_other_col f y x y1 x1 hy0 hy hx hx1 h

theorem drop_row_prefix_cell (f : Field) (y : Nat) (hy0 : 0 < y) (hy : y < Y_FIELD_SIZE)
    (k : Nat) (hk : k ≤ X_FIELD_SIZE) :
    ∀ y1 x1, x1 < X_FIELD_SIZE →
      ((List.range k).foldl (fun g x => drop_cell y x g) f).cell y1 x1 =
        if x1 < k then col_step y (fun r => f.cell r x1) y1 else f.cell y1 x1 := by
  induction k with
  | zero => intro y1 x1 _; simp
  | succ k ih =>
    intro y1 x1 hx1
    have ih1 := ih (by omega)
    rw [List.range_succ, List.foldl_append]
    simp only [List.foldl_cons, List.foldl_nil]
    rw [drop_cell_cell _ y k y1 x1 hy0 hy (by omega) hx1]
    by_cases h : x1 = k
    · subst h
      have hcol : (fun r => ((List.range x1).foldl (fun g x => drop_cell y x g) f).cell r x1) =
          fun r => f.cell r x1 := by
        funext r
        rw [ih1 r x1 hx1]
        simp
      rw [if_pos rfl, hcol, if_pos (by omega)]
    · rw [if_neg h, ih1 y1 x1 hx1]
      by_cases h2 : x1 < k
      · rw [if_pos h2, if_pos (by omega)]
      · rw [if_neg h2, if_neg (by omega)]

theorem drop_row_cell (f : Field) (y y1 x1 : Nat) (hy0 : 0 < y) (hy : y < Y_FIELD_SIZE)
    (hx1 : x1 < X_FIELD_SIZE) :
    (drop_row y f).cell y1 x1 = col_step y (fun r => f.cell r x1) y1 := by
  unfold drop_row
  rw [drop_row_prefix_cell f y hy0 hy X_FIELD_SIZE (le_refl _) y1 x1 hx1, if_pos hx1]

theorem drop_rows_cell (n : Nat) (hn : n < Y_FIELD_SIZE) :
    ∀ (f : Field) (y1 x1 : Nat), x1 < X_FIELD_SIZE →
      (drop_rows n f).cell y1 x1 = col_rows n (fun r => f.cell r x1) y1 := by
  induction n with
  | zero => intro f y1 x1 _; rfl
  | succ n ih =>
    intro f y1 x1 hx1
    simp only [drop_rows, col_rows]
    rw [ih (by omega) _ y1 x1 hx1]
    congr 1
    funext r
    exact drop_row_cell f (n + 1) r x1 (by omega) hn hx1

/-- One pass of `drop_box` acts on every column separately, as `col_rows Y_LAST`. -/
theorem drop_box_cell (f : Field) (y1 x1 : Nat) (hx1 : x1 < X_FIELD_SIZE) :
    (drop_box f).cell y1 x1 = col_rows Y_LAST (fun r => f.cell r x1) y1 :=
  drop_rows_cell Y_LAST (by decide) f y1 x1 hx1

/-! ## A lone box falling -/

theorem col_step_zero (y : Nat) : col_step y (fun _ => Box.zero) = fun _ => Box.zero := by
  funext r
  simp [col_step, drop_pair, decrement_y_offset_to_zero, Box.zero, is_empty, has_dropped]

theorem col_rows_zero (n : Nat) : col_rows n (fun _ => Box.zero) = fun _ => Box.zero := by
  induction n with
  | zero => rfl
  | succ n ih => simp only [col_rows, col_step_zero, ih]

theorem lone_box_cell (col row off id y1 x1 : Nat) (hr : row < Y_FIELD_SIZE)
    (hc : col < X_FIELD_SIZE) (hx1 : x1 < X_FIELD_SIZE) :
    (lone_box col row off id).cell y1 x1 =
      if y1 = row ∧ x1 = col then ⟨off, id, true⟩ else Box.zero := by
  unfold lone_box
  rw [Field.cell_put _ _ _ _ _ _ hr hc hx1, Field.cell_zero]

theorem lone_col (r off id : Nat) (hr : r < Y_FIELD_SIZE) (y1 : Nat) (hy1 : y1 < Y_FIELD_SIZE) :
    col_rows Y_LAST (fun q => if q = r then (⟨off, id, true⟩ : Box) else Box.zero) y1 =
      if y1 = (lone_next (r, off)).1 then ⟨(lone_next (r, off)).2, id, true⟩ else Box.zero := by
  rcases Nat.lt_or_ge off 2 with h | h
  · interval_cases off <;> interval_cases r <;> interval_cases y1 <;>
      simp [col_rows, col_step, drop_pair, decrement_y_offset_to_zero, Box.zero, is_empty,
        has_dropped, lone_next]
  · obtain ⟨k, rfl⟩ : ∃ k, off = k + 2 := ⟨off - 2, by omega⟩
    interval_cases r <;> interval_cases y1 <;>
      simp [col_rows, col_step, drop_pair, decrement_y_offset_to_zero, Box.zero, is_empty,
        has_dropped, lone_next]

theorem lone_next_row (s : Nat × Nat) (h : s.1 < Y_FIELD_SIZE) :
    (lone_next s).1 < Y_FIELD_SIZE := by
  unfold lone_next
  split
  · split <;> simp only [Y_LAST, Y_FIELD_SIZE] at * <;> omega
  · exact h

theorem drop_box_lone (col r off id : Nat) (hr : r < Y_FIELD_SIZE) (hc : col < X_FIELD_SIZE) :
    drop_box (lone_box col r off id) =
      lone_box col (lone_next (r, off)).1 (lone_next (r, off)).2 id := by
  apply Field.ext_cell
  intro y1 x1 hy1 hx1
  rw [drop_box_cell _ _ _ hx1, lone_box_cell _ _ _ _ _ _ (lone_next_row (r, off) hr) hc hx1]
  by_cases hx : x1 = col
  · subst hx
    have hcol : (fun q => (lone_box x1 r off id).cell q x1) =
        fun q => if q = r then (⟨off, id, true⟩ : Box) else Box.zero := by
      funext q
      rw [lone_box_cell _ _ _ _ _ _ hr hc hx1]
      simp
    rw [hcol, lone_col r off id hr y1 hy1]
    simp
  · have hcol : (fun q => (lone_box col r off id).cell q x1) = fun _ => Box.zero := by
      funext q
      rw [lone_box_cell _ _ _ _ _ _ hr hc hx1]
      simp [hx]
    rw [hcol, col_rows_zero]
    simp [hx]

theorem drop_box_lone_iterate (col id : Nat) (hc : col < X_FIELD_SIZE) (n : Nat) :
    ∀ s : Nat × Nat, s.1 < Y_FIELD_SIZE →
      drop_box^[n] (lone_box col s.1 s.2 id) =
        lone_box col (lone_next^[n] s).1 (lone_next^[n] s).2 id := by
  induction n with
  | zero => intro s _; rfl
  | succ n ih =>
    intro s hs
    rw [Function.iterate_succ_apply, Function.iterate_succ_apply,
      drop_box_lone col s.1 s.2 id hs hc]
    exact ih (lone_next (s.1, s.2)) (lone_next_row _ hs)

set_option maxRecDepth 8000 in
theorem lone_next_full : lone_next^[BOX_HEIGHT * Y_FIELD_SIZE] (0, BOX_HEIGHT) = (Y_LAST, 0) := by
  rfl

theorem lone_next_ten : lone_next^[BOX_HEIGHT] (0, BOX_HEIGHT) = (1, BOX_HEIGHT) := by rfl

/-! ## Ticks of an idle world -/

theorem drop_box_zero : drop_box Field.zero = Field.zero := by
  apply Field.ext_cell
  intro y x _ hx
  rw [drop_box_cell _ _ _ hx]
  have hcol : (fun r => Field.zero.cell r x) = fun _ => Box.zero := by
    funext r
    exact Field.cell_zero r x
  rw [hcol, col_rows_zero, Field.cell_zero]

theorem floor_incomplete_iff (f : Field) :
    floor_incomplete f = true ↔
      ∃ x, x < X_FIELD_SIZE ∧ ((f.cell Y_LAST x).exists_ = false ∨ (f.cell Y_LAST x).offset ≠ 0) := by
  simp [floor_incomplete, List.any_eq_true, is_empty, has_dropped]

theorem clear_rows_incomplete (fuel : Nat) (f : Field) (h : floor_incomplete f = true) :
    clear_rows (fuel + 1) f = .ok f := by
  simp [clear_rows, h]

theorem person_move_reset (f : Field) : person_move Person.reset f = .ok (Person.reset, f) := by
  simp [person_move, person_move_horizontal, person_move_vertical, person_move_clear, on_ground,
    Person.reset]

theorem cell_addr_grid (y x : Nat) (hy : y < Y_FIELD_SIZE) (hx : x < X_FIELD_SIZE) :
    cell_addr y x = some (y * X_FIELD_SIZE + x) := by
  unfold cell_addr
  rw [if_pos]
  · congr 1
  · simp only [X_FIELD_SIZE, Y_FIELD_SIZE] at *
    omega

theorem load_grid (f : Field) (y x : Nat) (hy : y < Y_FIELD_SIZE) (hx : x < X_FIELD_SIZE) :
    load f y x = .ok (f.cell y x) := by
  simp only [load, cell_addr_grid y x hy hx, Field.cell]

theorem store_grid (f : Field) (y x : Nat) (b : Box) (hy : y < Y_FIELD_SIZE)
    (hx : x < X_FIELD_SIZE) : store f y x b = .ok (f.put y x b) := by
  simp only [store, cell_addr_grid y x hy hx, Field.put]


theorem is_person_dead_reset_zero : is_person_dead Person.reset Field.zero = .ok false := by
  decide

theorem floor_incomplete_zero : floor_incomplete Field.zero = true := by decide

theorem game_tick_idle (fuel : Nat) (rand : Nat → Nat) (a : Animations) (c : Nat)
    (hc : c < BOX_GENERATION_RATE) :
    game_tick (fuel + 1) rand (idle_world a c) = .ok (idle_world a (c + 1)) := by
  have h1 : c ≠ BOX_GENERATION_RATE := by omega
  have h2 : (c + 1) % 256 = c + 1 := by simp only [BOX_GENERATION_RATE] at hc; omega
  simp [game_tick, idle_world, allocGameState, game_reset_field_and_player,
    is_person_dead_reset_zero, drop_box_zero, generate_box, h1, h2,
    clear_rows_incomplete _ _ floor_incomplete_zero, person_move_reset]

theorem process_events_idle (fuel : Nat) (rand : Nat → Nat) (a : Animations) (k : InputKey)
    (n : Nat) : ∀ c, c + n ≤ BOX_GENERATION_RATE →
    process_events (fuel + 1) rand (List.replicate n (tick_event k)) (idle_world a c) =
      .ok (idle_world a (c + n)) := by
  induction n with
  | zero => intro c _; rfl
  | succ n ih =>
    intro c hc
    have hstep : process_event (fuel + 1) rand (tick_event k) (idle_world a c) =
        .ok (idle_world a (c + 1)) := by
      rw [← game_tick_idle fuel rand a c (by omega)]
      simp [process_event, tick_event, idle_world, allocGameState, game_reset_field_and_player]
    simp only [List.replicate_succ, process_events, hstep]
    rw [ih (c + 1) (by omega)]
    congr 2
    omega

theorem Field.put_put (f : Field) (y x : Nat) (b c : Box) :
    (f.put y x b).put y x c = f.put y x c := by
  simp [Field.put, Field.set, List.set_set]

theorem process_events_append (fuel : Nat) (rand : Nat → Nat) (es1 es2 : List GameEvent) :
    ∀ (g g1 : GameState), process_events fuel rand es1 g = .ok g1 →
      process_events fuel rand (es1 ++ es2) g = process_events fuel rand es2 g1 := by
  induction es1 with
  | nil => intro g g1 h; simp only [process_events, Except.ok.injEq] at h; subst h; rfl
  | cons e es ih =>
    intro g g1 h
    simp only [process_events, List.cons_append] at h ⊢
    cases hstep : process_event fuel rand e g with
    | error err => rw [hstep] at h; cases h
    | ok g2 =>
      rw [hstep] at h
      simp only at h ⊢
      exact ih g2 g1 h

theorem game_tick_spawn (fuel : Nat) (rand : Nat → Nat) (a : Animations) :
    game_tick (fuel + 1) rand (idle_world a BOX_GENERATION_RATE) =
      .ok { idle_world a 0 with
        field := Field.zero.put 0 (rand 0 % X_FIELD_SIZE) ⟨BOX_HEIGHT, rand 1 % 5, true⟩,
        rand_pos := 2 } := by
  have hx : rand 0 % X_FIELD_SIZE < X_FIELD_SIZE := Nat.mod_lt _ (by decide)
  have hfl : floor_incomplete
      (Field.zero.put 0 (rand 0 % X_FIELD_SIZE) ⟨BOX_HEIGHT, rand 1 % 5, true⟩) = true := by
    rw [floor_incomplete_iff]
    refine ⟨0, by decide, Or.inl ?_⟩
    rw [Field.cell_put _ _ _ _ _ _ (by decide) hx (by decide)]
    simp [Field.cell_zero, Box.zero]
  simp [game_tick, idle_world, allocGameState, game_reset_field_and_player,
    is_person_dead_reset_zero, drop_box_zero, generate_box, pick_column, Field.cell_zero, Box.zero,
    Field.put_put, Field.cell_put_same _ _ _ _ (by decide : 0 < Y_FIELD_SIZE) hx,
    clear_rows_incomplete _ _ hfl, person_move_reset]

/-! ## The cell predicate -/

theorem Field.get_of_ge (f : Field) (i : Nat) (h : X_FIELD_SIZE * Y_FIELD_SIZE ≤ i) :
    f.get i = Box.zero := by
  simp only [Field.get, List.getD_eq_getElem?_getD]
  rw [List.getElem?_eq_none (by rw [f.size_eq]; exact h)]
  rfl

theorem cell_ok_zero : cell_ok Box.zero := by decide

theorem grid_ok_all (f : Field) (h : grid_ok f) (i : Nat) : cell_ok (f.get i) := by
  by_cases hi : i < X_FIELD_SIZE * Y_FIELD_SIZE
  · exact h i hi
  · rw [Field.get_of_ge f i (by omega)]
    exact cell_ok_zero

theorem grid_ok_of_cells (f : Field)
    (h : ∀ y x, y < Y_FIELD_SIZE → x < X_FIELD_SIZE → cell_ok (f.cell y x)) : grid_ok f := by
  intro i hi
  have := h (i / X_FIELD_SIZE) (i % X_FIELD_SIZE)
    (by simp only [X_FIELD_SIZE, Y_FIELD_SIZE] at *; omega)
    (by simp only [X_FIELD_SIZE, Y_FIELD_SIZE] at *; omega)
  simpa [Field.cell, Nat.div_add_mod'] using this

theorem grid_ok_set (f : Field) (i : Nat) (b : Box) (h : grid_ok f) (hb : cell_ok b) :
    grid_ok (f.set i b) := by
  intro j hj
  by_cases hij : i = j
  · subst hij
    rw [Field.get_set_eq f i b hj]
    exact hb
  · rw [Field.get_set_ne f i j b hij]
    exact h j hj

theorem offset_ok_of_grid_ok (f : Field) (h : grid_ok f) : offset_ok f :=
  fun i hi => (h i hi).1

theorem offset_ok_all (f : Field) (h : offset_ok f) (i : Nat) : (f.get i).offset ≤ BOX_HEIGHT := by
  by_cases hi : i < X_FIELD_SIZE * Y_FIELD_SIZE
  · exact h i hi
  · rw [Field.get_of_ge f i (by omega)]
    decide

theorem offset_ok_set (f : Field) (i : Nat) (b : Box) (h : offset_ok f)
    (hb : b.offset ≤ BOX_HEIGHT) : offset_ok (f.set i b) := by
  intro j hj
  by_cases hij : i = j
  · subst hij
    rw [Field.get_set_eq f i b hj]
    exact hb
  · rw [Field.get_set_ne f i j b hij]
    exact h j hj

theorem decrement_exists (b : Box) : (decrement_y_offset_to_zero b).exists_ = b.exists_ := by
  unfold decrement_y_offset_to_zero
  split <;> rfl

theorem decrement_box_id (b : Box) : (decrement_y_offset_to_zero b).box_id = b.box_id := by
  unfold decrement_y_offset_to_zero
  split <;> rfl

theorem decrement_offset (b : Box) : (decrement_y_offset_to_zero b).offset = b.offset - 1 := by
  unfold decrement_y_offset_to_zero
  split
  · rfl
  · rename_i h
    simp only [ne_eq, not_not] at h
    rw [h]

theorem decrement_ok (b : Box) (h : cell_ok b) : cell_ok (decrement_y_offset_to_zero b) := by
  unfold cell_ok at *
  rw [decrement_exists, decrement_offset]
  refine ⟨by omega, fun he => ?_⟩
  have := h.2 he
  omega

theorem swap_ok (cur1 up1 : Box) (hc1 : cell_ok cur1) (hu1 : cell_ok up1) :
    cell_ok (if is_empty cur1 && !is_empty up1 && has_dropped up1 then
        (({ up1 with offset := BOX_HEIGHT } : Box), cur1) else (cur1, up1)).1 ∧
    cell_ok (if is_empty cur1 && !is_empty up1 && has_dropped up1 then
        (({ up1 with offset := BOX_HEIGHT } : Box), cur1) else (cur1, up1)).2 := by
  by_cases hcond : (is_empty cur1 && !is_empty up1 && has_dropped up1) = true
  · rw [if_pos hcond]
    simp only [Bool.and_eq_true, Bool.not_eq_true', is_empty, Bool.not_eq_false'] at hcond
    refine ⟨⟨le_refl _, fun he => ?_⟩, hc1⟩
    simp only at he
    rw [hcond.1.2] at he
    cases he
  · rw [if_neg hcond]
    exact ⟨hc1, hu1⟩

theorem drop_pair_ok (l : Bool) (cur up : Box) (hc : cell_ok cur) (hu : cell_ok up) :
    cell_ok (drop_pair l cur up).1 ∧ cell_ok (drop_pair l cur up).2 := by
  cases l
  · exact swap_ok cur (decrement_y_offset_to_zero up) hc (decrement_ok up hu)
  · exact swap_ok (decrement_y_offset_to_zero cur) (decrement_y_offset_to_zero up)
      (decrement_ok cur hc) (decrement_ok up hu)

theorem col_step_ok (y : Nat) (c : Nat → Box) (h : ∀ r, cell_ok (c r)) :
    ∀ r, cell_ok (col_step y c r) := by
  intro r
  unfold col_step
  have hp := drop_pair_ok (decide (y = Y_LAST)) (c y) (c (y - 1)) (h y) (h (y - 1))
  by_cases h1 : r = y
  · rw [if_pos h1]; exact hp.1
  · rw [if_neg h1]
    by_cases h2 : r = y - 1
    · rw [if_pos h2]; exact hp.2
    · rw [if_neg h2]; exact h r

theorem col_rows_ok (n : Nat) : ∀ (c : Nat → Box), (∀ r, cell_ok (c r)) →
    ∀ r, cell_ok (col_rows n c r) := by
  induction n with
  | zero => intro c h; exact h
  | succ n ih => intro c h; exact ih _ (col_step_ok (n + 1) c h)

theorem drop_box_grid_ok (f : Field) (h : grid_ok f) : grid_ok (drop_box f) := by
  apply grid_ok_of_cells
  intro y x _ hx
  rw [drop_box_cell f y x hx]
  exact col_rows_ok Y_LAST _ (fun r => grid_ok_all f h _) y

/-! ## Dereferences and the horizontal move -/

theorem cell_addr_some (r c : Int) (i : Nat) (h : cell_addr r c = some i) :
    i < X_FIELD_SIZE * Y_FIELD_SIZE ∧ (i : Int) = r * X_FIELD_SIZE + c ∧ 0 ≤ r ∧
      r < Y_FIELD_SIZE := by
  unfold cell_addr at h
  split at h
  · rename_i hc
    simp only [Option.some.injEq] at h
    subst h
    simp only [X_FIELD_SIZE, Y_FIELD_SIZE] at *
    omega
  · cases h

theorem load_ok (f : Field) (r c : Int) (b : Box) (h : load f r c = .ok b) :
    ∃ i, cell_addr r c = some i ∧ b = f.get i := by
  unfold load at h
  cases hc : cell_addr r c with
  | none => rw [hc] at h; cases h
  | some i =>
    rw [hc] at h
    simp only [Except.ok.injEq] at h
    exact ⟨i, rfl, h.symm⟩

theorem store_ok (f : Field) (r c : Int) (b : Box) (g : Field) (h : store f r c b = .ok g) :
    ∃ i, cell_addr r c = some i ∧ g = f.set i b := by
  unfold store at h
  cases hc : cell_addr r c with
  | none => rw [hc] at h; cases h
  | some i =>
    rw [hc] at h
    simp only [Except.ok.injEq] at h
    exact ⟨i, rfl, h.symm⟩

/-- The three ways `horizontal_move` returns: rejected (nothing changes), walk (only the
position changes), push (the target cell is copied to the next cell and its `exists`
flag is cleared). -/
theorem horizontal_move_cases (p : Person) (f : Field) (b : Bool) (p1 : Person) (f1 : Field)
    (h : horizontal_move p f = .ok (b, p1, f1)) :
    (b = false ∧ p1 = p ∧ f1 = f) ∨
    (b = true ∧ p1 = { p with p := target_position p } ∧ f1 = f ∧
      p.x_direction ≠ 0 ∧ (target_position p).x ≤ X_LAST ∧
      ∃ it, cell_addr p.p.y (target_position p).x = some it ∧ (f.get it).exists_ = false ∧
        ground_box_check f (target_position p) = .ok true) ∨
    (b = true ∧ p1 = { p with p := target_position p } ∧
      p.x_direction ≠ 0 ∧ (target_position p).x ≤ X_LAST ∧
      ∃ it nx, cell_addr p.p.y (target_position p).x = some it ∧
        cell_addr p.p.y ((target_position p).x + p.x_direction) = some nx ∧ it ≠ nx ∧
        (f.get it).exists_ = true ∧
        is_movable f (target_position p) p.x_direction = .ok true ∧
        f1 = (f.set nx (f.get it)).set it { f.get it with exists_ := false }) := by
  unfold horizontal_move at h
  by_cases hd : p.x_direction = 0
  · rw [if_pos hd] at h
    simp only [Except.ok.injEq, Prod.mk.injEq] at h
    exact Or.inl ⟨h.1.symm, h.2.1.symm, h.2.2.symm⟩
  · rw [if_neg hd] at h
    simp only at h
    by_cases he : ((u8 (p.p.x + p.x_direction) : Nat) : Int) < 0 ∨ u8 (p.p.x + p.x_direction) > X_LAST
    · rw [if_pos he] at h
      simp only [Except.ok.injEq, Prod.mk.injEq] at h
      exact Or.inl ⟨h.1.symm, h.2.1.symm, h.2.2.symm⟩
    · rw [if_neg he] at h
      have hle : (target_position p).x ≤ X_LAST := by
        simp only [target_position]
        omega
      cases hl : load f p.p.y (u8 (p.p.x + p.x_direction)) with
      | error e => rw [hl] at h; cases h
      | ok target =>
        rw [hl] at h
        simp only at h
        obtain ⟨it, hit, htg⟩ := load_ok f _ _ _ hl
        by_cases hemp : is_empty target = true
        · rw [if_pos hemp] at h
          cases hg : ground_box_check f { x := u8 (p.p.x + p.x_direction), y := p.p.y } with
          | error e => rw [hg] at h; cases h
          | ok g =>
            rw [hg] at h
            simp only at h
            cases g with
            | false =>
              simp only [Bool.false_eq_true, if_false, Except.ok.injEq, Prod.mk.injEq] at h
              exact Or.inl ⟨h.1.symm, h.2.1.symm, h.2.2.symm⟩
            | true =>
              simp only [if_true, Except.ok.injEq, Prod.mk.injEq] at h
              refine Or.inr (Or.inl ⟨h.1.symm, h.2.1.symm, h.2.2.symm, hd, hle, it, hit, ?_, hg⟩)
              rw [← htg]
              simpa [is_empty] using hemp
        · rw [if_neg hemp] at h
          cases hm : is_movable f { x := u8 (p.p.x + p.x_direction), y := p.p.y } p.x_direction with
          | error e => rw [hm] at h; cases h
          | ok m =>
            rw [hm] at h
            simp only at h
            cases m with
            | false =>
              simp only [Bool.false_eq_true, if_false, Except.ok.injEq, Prod.mk.injEq] at h
              exact Or.inl ⟨h.1.symm, h.2.1.symm, h.2.2.symm⟩
            | true =>
              simp only [if_true] at h
              cases hs : store f p.p.y (↑(u8 (p.p.x + p.x_direction)) + p.x_direction) target with
              | error e => rw [hs] at h; cases h
              | ok field1 =>
                rw [hs] at h
                simp only at h
                obtain ⟨nx, hnx, hf1⟩ := store_ok f _ _ _ _ hs
                have hne : it ≠ nx := by
                  have h1 := (cell_addr_some _ _ _ hit).2.1
                  have h2 := (cell_addr_some _ _ _ hnx).2.1
                  intro heq
                  rw [heq] at h1
                  omega
                simp only [load, store, hit] at h
                simp only [Except.ok.injEq, Prod.mk.injEq] at h
                refine Or.inr (Or.inr ⟨h.1.symm, h.2.1.symm, hd, hle, it, nx, hit, hnx, hne, ?_, hm,
                  ?_⟩)
                · rw [← htg]
                  simpa [is_empty] using hemp
                · rw [← h.2.2, hf1, Field.get_set_ne _ _ _ _ (Ne.symm hne), htg]

/-! ## The box generator and the row clearing -/

theorem pick_column_spec (rand : Nat → Nat) (f : Field) (fuel : Nat) :
    ∀ (pos x pos1 : Nat), pick_column rand f fuel pos = .ok (x, pos1) →
      x < X_FIELD_SIZE ∧ (f.cell 0 x).exists_ = false ∧ pos < pos1 ∧
        x = rand (pos1 - 1) % X_FIELD_SIZE := by
  induction fuel with
  | zero => intro pos x pos1 h; simp [pick_column] at h
  | succ n ih =>
    intro pos x pos1 h
    simp only [pick_column] at h
    by_cases he : (f.cell 0 (rand pos % X_FIELD_SIZE)).exists_ = true
    · rw [if_pos he] at h
      obtain ⟨h1, h2, h3, h4⟩ := ih (pos + 1) x pos1 h
      exact ⟨h1, h2, by omega, h4⟩
    · rw [if_neg he] at h
      simp only [Except.ok.injEq, Prod.mk.injEq] at h
      obtain ⟨rfl, rfl⟩ := h
      refine ⟨Nat.mod_lt _ (by decide), by simpa using he, by omega, by simp⟩

/-- What a returning call of `generate_box` did: either the counter was not at the
threshold and only the counter moved, or it was and one empty cell of row 0 was filled. -/
theorem generate_box_spec (fuel : Nat) (rand : Nat → Nat) (g g1 : GameState)
    (h : generate_box fuel rand g = .ok g1) :
    (g.tick_count ≠ BOX_GENERATION_RATE ∧
      g1 = { g with tick_count := (g.tick_count + 1) % 256 }) ∨
    (g.tick_count = BOX_GENERATION_RATE ∧
      ∃ x pos, pick_column rand g.field fuel g.rand_pos = .ok (x, pos) ∧
        x < X_FIELD_SIZE ∧ (g.field.cell 0 x).exists_ = false ∧
        g1 = { g with tick_count := 0, rand_pos := pos + 1,
                      field := g.field.put 0 x ⟨BOX_HEIGHT, rand pos % 5, true⟩ }) := by
  unfold generate_box at h
  by_cases hc : g.tick_count = BOX_GENERATION_RATE
  · right
    simp only [hc, ne_eq, not_true_eq_false, if_false] at h
    cases hp : pick_column rand g.field fuel g.rand_pos with
    | error e => rw [hp] at h; cases h
    | ok r =>
      obtain ⟨x, pos⟩ := r
      rw [hp] at h
      obtain ⟨hx, hemp, _, _⟩ := pick_column_spec rand g.field fuel _ _ _ hp
      simp only [Except.ok.injEq] at h
      refine ⟨hc, x, pos, rfl, hx, hemp, ?_⟩
      rw [← h]
      simp [Field.put_put, Field.cell_put_same _ _ _ _ (by decide : 0 < Y_FIELD_SIZE) hx]
  · left
    simp only [ne_eq, hc, not_false_eq_true, if_true, Except.ok.injEq] at h
    exact ⟨hc, h.symm⟩

theorem clear_floor_prefix_cell (f : Field) (k : Nat) (hk : k ≤ X_FIELD_SIZE) :
    ∀ y x, x < X_FIELD_SIZE →
      ((List.range k).foldl (fun g x => g.put Y_LAST x Box.zero) f).cell y x =
        if y = Y_LAST ∧ x < k then Box.zero else f.cell y x := by
  induction k with
  | zero => intro y x _; simp
  | succ k ih =>
    intro y x hx
    rw [List.range_succ, List.foldl_append]
    simp only [List.foldl_cons, List.foldl_nil]
    rw [Field.cell_put _ _ _ _ _ _ (by decide) (by omega) hx, ih (by omega) y x hx]
    by_cases h1 : y = Y_LAST
    · by_cases h2 : x = k
      · simp [h1, h2]
      · by_cases h3 : x < k
        · simp [h1, h2, h3, Nat.lt_succ_of_lt h3]
        · have : ¬ x < k + 1 := by omega
          simp [h1, h2, h3, this]
    · have h5 : ¬ y = 5 := h1
      simp [h5]

theorem clear_floor_cell (f : Field) (y x : Nat) (hx : x < X_FIELD_SIZE) :
    (clear_floor f).cell y x = if y = Y_LAST then Box.zero else f.cell y x := by
  unfold clear_floor
  rw [clear_floor_prefix_cell f X_FIELD_SIZE (le_refl _) y x hx]
  simp [hx]

theorem floor_incomplete_clear_floor (f : Field) : floor_incomplete (clear_floor f) = true := by
  rw [floor_incomplete_iff]
  refine ⟨0, by decide, Or.inl ?_⟩
  rw [clear_floor_cell f Y_LAST 0 (by decide)]
  simp [Box.zero]

/-- With fuel for two calls `clear_rows` returns: the grid itself when the floor row is
not full and landed, the grid with the floor row zeroed otherwise. -/
theorem clear_rows_eq (fuel : Nat) (f : Field) :
    clear_rows (fuel + 2) f = .ok (if floor_incomplete f then f else clear_floor f) := by
  by_cases h : floor_incomplete f = true
  · simp [clear_rows, h]
  · simp only [clear_rows, h, Bool.false_eq_true, if_false, floor_incomplete_clear_floor, if_true]

theorem clear_rows_ok (fuel : Nat) (f f1 : Field) (h : clear_rows fuel f = .ok f1) :
    f1 = if floor_incomplete f then f else clear_floor f := by
  match fuel with
  | 0 => simp [clear_rows] at h
  | 1 =>
    by_cases hi : floor_incomplete f = true
    · simp only [clear_rows, hi, if_true, Except.ok.injEq] at h
      rw [if_pos hi]
      exact h.symm
    · simp [clear_rows, hi] at h
  | n + 2 =>
    rw [clear_rows_eq] at h
    simp only [Except.ok.injEq] at h
    exact h.symm

/-! ## The steps of `person_move` -/

theorem person_move_ok (p : Person) (f : Field) (p2 : Person) (f2 : Field)
    (h : person_move p f = .ok (p2, f2)) :
    ∃ p1 f1, person_move_horizontal p f = .ok (p1, f1) ∧
      person_move_vertical p1 f1 = .ok p2 ∧ person_move_clear p2 f1 = .ok f2 := by
  unfold person_move at h
  cases h1 : person_move_horizontal p f with
  | error e => rw [h1] at h; cases h
  | ok r1 =>
    obtain ⟨p1, f1⟩ := r1
    rw [h1] at h
    simp only at h
    cases h2 : person_move_vertical p1 f1 with
    | error e => rw [h2] at h; cases h
    | ok pv =>
      rw [h2] at h
      simp only at h
      cases h3 : person_move_clear pv f1 with
      | error e => rw [h3] at h; cases h
      | ok fc =>
        rw [h3] at h
        simp only [Except.ok.injEq, Prod.mk.injEq] at h
        obtain ⟨rfl, rfl⟩ := h
        exact ⟨p1, f1, rfl, h2, h3⟩

/-- The horizontal switch either leaves the grid alone or is one call of
`horizontal_move` made at `h_tick = 1`. -/
theorem person_move_horizontal_ok (p : Person) (f : Field) (p1 : Person) (f1 : Field)
    (h : person_move_horizontal p f = .ok (p1, f1)) :
    f1 = f ∨ (p.h_tick = 1 ∧ ∃ b pm,
      horizontal_move { p with h_tick := i8 (p.h_tick + 1) } f = .ok (b, pm, f1)) := by
  unfold person_move_horizontal at h
  by_cases h0 : p.h_tick = 0
  · rw [if_pos h0] at h
    simp only [Except.ok.injEq, Prod.mk.injEq] at h
    exact Or.inl h.2.symm
  · rw [if_neg h0] at h
    by_cases h1 : p.h_tick = 1
    · rw [if_pos h1] at h
      simp only at h
      cases hm : horizontal_move { p with h_tick := i8 (p.h_tick + 1) } f with
      | error e => rw [hm] at h; cases h
      | ok r =>
        obtain ⟨b, pm, fm⟩ := r
        rw [hm] at h
        simp only at h
        right
        refine ⟨h1, b, pm, ?_⟩
        cases b <;> simp at h <;> rw [h.2]
    · rw [if_neg h1] at h
      by_cases h5 : p.h_tick = 5
      · rw [if_pos h5] at h
        simp only [Except.ok.injEq, Prod.mk.injEq] at h
        exact Or.inl h.2.symm
      · rw [if_neg h5] at h
        simp only [Except.ok.injEq, Prod.mk.injEq] at h
        exact Or.inl h.2.symm

theorem person_move_clear_ok (p : Person) (f f1 : Field) (h : person_move_clear p f = .ok f1) :
    (¬ 0 < p.j_tick ∧ f1 = f) ∨
    (0 < p.j_tick ∧ ∃ i j, cell_addr p.p.y p.p.x = some i ∧
      cell_addr (p.p.y - 1) p.p.x = some j ∧ f1 = (f.set i Box.zero).set j Box.zero) := by
  unfold person_move_clear at h
  by_cases hj : p.j_tick > 0
  · rw [if_pos hj] at h
    right
    cases hs : store f p.p.y p.p.x Box.zero with
    | error e => rw [hs] at h; cases h
    | ok fa =>
      rw [hs] at h
      simp only at h
      obtain ⟨i, hi, rfl⟩ := store_ok _ _ _ _ _ hs
      obtain ⟨j, hj2, rfl⟩ := store_ok _ _ _ _ _ h
      exact ⟨hj, i, j, hi, hj2, rfl⟩
  · rw [if_neg hj] at h
    simp only [Except.ok.injEq] at h
    exact Or.inl ⟨hj, h.symm⟩

theorem horizontal_move_offset_ok (p : Person) (f : Field) (b : Bool) (p1 : Person)
    (f1 : Field) (h : horizontal_move p f = .ok (b, p1, f1)) (hf : offset_ok f) :
    offset_ok f1 := by
  rcases horizontal_move_cases p f b p1 f1 h with h1 | h1 | h1
  · rw [h1.2.2]; exact hf
  · rw [h1.2.2.1]; exact hf
  · obtain ⟨_, _, _, _, it, nx, _, _, _, _, _, rfl⟩ := h1
    exact offset_ok_set _ _ _ (offset_ok_set _ _ _ hf (offset_ok_all f hf it))
      (offset_ok_all f hf it)

theorem horizontal_move_grid_ok (p : Person) (f : Field) (b : Bool) (p1 : Person)
    (f1 : Field) (h : horizontal_move p f = .ok (b, p1, f1)) (hf : grid_ok f)
    (hl : (f.cell p.p.y (target_position p).x).offset = 0) : grid_ok f1 := by
  rcases horizontal_move_cases p f b p1 f1 h with h1 | h1 | h1
  · rw [h1.2.2]; exact hf
  · rw [h1.2.2.1]; exact hf
  · obtain ⟨_, _, _, _, it, nx, hit, _, _, _, _, rfl⟩ := h1
    have hidx : it = p.p.y * X_FIELD_SIZE + (target_position p).x := by
      have := (cell_addr_some _ _ _ hit).2.1
      simp only [X_FIELD_SIZE] at this ⊢
      omega
    have hoff : (f.get it).offset = 0 := by rw [hidx]; exact hl
    refine grid_ok_set _ _ _ (grid_ok_set _ _ _ hf (grid_ok_all f hf it)) ?_
    exact ⟨by simp only [hoff]; omega, fun _ => hoff⟩

theorem person_move_clear_grid_ok (p : Person) (f f1 : Field)
    (h : person_move_clear p f = .ok f1) (hf : grid_ok f) : grid_ok f1 := by
  rcases person_move_clear_ok p f f1 h with h1 | h1
  · rw [h1.2]; exact hf
  · obtain ⟨_, i, j, _, _, rfl⟩ := h1
    exact grid_ok_set _ _ _ (grid_ok_set _ _ _ hf cell_ok_zero) cell_ok_zero

theorem person_move_clear_offset_ok (p : Person) (f f1 : Field)
    (h : person_move_clear p f = .ok f1) (hf : offset_ok f) : offset_ok f1 := by
  rcases person_move_clear_ok p f f1 h with h1 | h1
  · rw [h1.2]; exact hf
  · obtain ⟨_, i, j, _, _, rfl⟩ := h1
    exact offset_ok_set _ _ _ (offset_ok_set _ _ _ hf (by decide)) (by decide)

theorem person_move_offset_ok (p : Person) (f : Field) (p2 : Person) (f2 : Field)
    (h : person_move p f = .ok (p2, f2)) (hf : offset_ok f) : offset_ok f2 := by
  obtain ⟨p1, f1, h1, _, h3⟩ := person_move_ok p f p2 f2 h
  apply person_move_clear_offset_ok p2 f1 f2 h3
  rcases person_move_horizontal_ok p f p1 f1 h1 with rfl | ⟨_, b, pm, hm⟩
  · exact hf
  · exact horizontal_move_offset_ok _ f b pm f1 hm hf

theorem person_move_grid_ok (p : Person) (f : Field) (p2 : Person) (f2 : Field)
    (h : person_move p f = .ok (p2, f2)) (hf : grid_ok f)
    (hl : p.h_tick = 1 → (f.cell p.p.y (target_position p).x).offset = 0) : grid_ok f2 := by
  obtain ⟨p1, f1, h1, _, h3⟩ := person_move_ok p f p2 f2 h
  apply person_move_clear_grid_ok p2 f1 f2 h3
  rcases person_move_horizontal_ok p f p1 f1 h1 with rfl | ⟨ht, b, pm, hm⟩
  · exact hf
  · exact horizontal_move_grid_ok _ f b pm f1 hm hf (hl ht)

theorem generate_box_grid_ok (fuel : Nat) (rand : Nat → Nat) (g g1 : GameState)
    (h : generate_box fuel rand g = .ok g1) (hf : grid_ok g.field) : grid_ok g1.field := by
  rcases generate_box_spec fuel rand g g1 h with ⟨_, rfl⟩ | ⟨_, x, pos, _, _, _, rfl⟩
  · exact hf
  · exact grid_ok_set _ _ _ hf ⟨le_refl _, fun he => by cases he⟩

theorem clear_floor_grid_ok (f : Field) (hf : grid_ok f) : grid_ok (clear_floor f) := by
  apply grid_ok_of_cells
  intro y x _ hx
  rw [clear_floor_cell f y x hx]
  split
  · exact cell_ok_zero
  · exact grid_ok_all f hf _

theorem clear_rows_grid_ok (fuel : Nat) (f f1 : Field) (h : clear_rows fuel f = .ok f1)
    (hf : grid_ok f) : grid_ok f1 := by
  rw [clear_rows_ok fuel f f1 h]
  split
  · exact hf
  · exact clear_floor_grid_ok f hf

/-! ## The range half of the cell predicate -/

theorem drop_pair_offset (l : Bool) (cur up : Box) (hc : cur.offset ≤ BOX_HEIGHT)
    (hu : up.offset ≤ BOX_HEIGHT) :
    (drop_pair l cur up).1.offset ≤ BOX_HEIGHT ∧ (drop_pair l cur up).2.offset ≤ BOX_HEIGHT := by
  have hc1 : (if l = true then decrement_y_offset_to_zero cur else cur).offset ≤ BOX_HEIGHT := by
    cases l
    · exact hc
    · simp only [if_true, decrement_offset]; omega
  have hu1 : (decrement_y_offset_to_zero up).offset ≤ BOX_HEIGHT := by
    rw [decrement_offset]; omega
  unfold drop_pair
  simp only
  by_cases hcond : (is_empty (if l = true then decrement_y_offset_to_zero cur else cur) &&
      !is_empty (decrement_y_offset_to_zero up) &&
      has_dropped (decrement_y_offset_to_zero up)) = true
  · rw [if_pos hcond]
    exact ⟨le_refl _, hc1⟩
  · rw [if_neg hcond]
    exact ⟨hc1, hu1⟩

theorem col_step_offset (y : Nat) (c : Nat → Box) (h : ∀ r, (c r).offset ≤ BOX_HEIGHT) :
    ∀ r, (col_step y c r).offset ≤ BOX_HEIGHT := by
  intro r
  unfold col_step
  have hp := drop_pair_offset (decide (y = Y_LAST)) (c y) (c (y - 1)) (h y) (h (y - 1))
  by_cases h1 : r = y
  · rw [if_pos h1]; exact hp.1
  · rw [if_neg h1]
    by_cases h2 : r = y - 1
    · rw [if_pos h2]; exact hp.2
    · rw [if_neg h2]; exact h r

theorem col_rows_offset (n : Nat) : ∀ (c : Nat → Box), (∀ r, (c r).offset ≤ BOX_HEIGHT) →
    ∀ r, (col_rows n c r).offset ≤ BOX_HEIGHT := by
  induction n with
  | zero => intro c h; exact h
  | succ n ih => intro c h; exact ih _ (col_step_offset (n + 1) c h)

theorem offset_ok_of_cells (f : Field)
    (h : ∀ y x, y < Y_FIELD_SIZE → x < X_FIELD_SIZE → (f.cell y x).offset ≤ BOX_HEIGHT) :
    offset_ok f := by
  intro i hi
  have := h (i / X_FIELD_SIZE) (i % X_FIELD_SIZE)
    (by simp only [X_FIELD_SIZE, Y_FIELD_SIZE] at *; omega)
    (by simp only [X_FIELD_SIZE, Y_FIELD_SIZE] at *; omega)
  simpa [Field.cell, Nat.div_add_mod'] using this

theorem drop_box_offset_ok (f : Field) (h : offset_ok f) : offset_ok (drop_box f) := by
  apply offset_ok_of_cells
  intro y x _ hx
  rw [drop_box_cell f y x hx]
  exact col_rows_offset Y_LAST _ (fun r => offset_ok_all f h _) y

theorem generate_box_offset_ok (fuel : Nat) (rand : Nat → Nat) (g g1 : GameState)
    (h : generate_box fuel rand g = .ok g1) (hf : offset_ok g.field) : offset_ok g1.field := by
  rcases generate_box_spec fuel rand g g1 h with ⟨_, rfl⟩ | ⟨_, x, pos, _, _, _, rfl⟩
  · exact hf
  · exact offset_ok_set _ _ _ hf (le_refl _)

theorem clear_rows_offset_ok (fuel : Nat) (f f1 : Field) (h : clear_rows fuel f = .ok f1)
    (hf : offset_ok f) : offset_ok f1 := by
  rw [clear_rows_ok fuel f f1 h]
  split
  · exact hf
  · apply offset_ok_of_cells
    intro y x _ hx
    rw [clear_floor_cell f y x hx]
    split
    · decide
    · exact offset_ok_all f hf _

/-! ## Counting occupied cells -/

theorem occupied_set (f : Field) (i : Nat) (b : Box) (hi : i < X_FIELD_SIZE * Y_FIELD_SIZE) :
    occupied (f.set i b) + (if (f.get i).exists_ then 1 else 0) =
      occupied f + (if b.exists_ then 1 else 0) := by
  have hl : i < f.cells.length := by rw [f.size_eq]; exact hi
  have hget : f.get i = f.cells[i] := by
    simp [Field.get, List.getD_eq_getElem?_getD, List.getElem?_eq_getElem hl]
  have hle := List.boole_getElem_le_countP (fun b : Box => b.exists_) f.cells i hl
  simp only [occupied, Field.set, List.countP_set _ _ _ _ hl, hget]
  omega

theorem occupied_set_same_flag (f : Field) (i : Nat) (b : Box)
    (hi : i < X_FIELD_SIZE * Y_FIELD_SIZE) (hb : b.exists_ = (f.get i).exists_) :
    occupied (f.set i b) = occupied f := by
  have := occupied_set f i b hi
  rw [hb] at this
  omega

theorem occupied_set_zero_le (f : Field) (i : Nat) (b : Box)
    (hi : i < X_FIELD_SIZE * Y_FIELD_SIZE) (hb : b.exists_ = false) :
    occupied (f.set i b) ≤ occupied f := by
  have := occupied_set f i b hi
  rw [hb] at this
  simp only [Bool.false_eq_true, if_false] at this
  omega

theorem occupied_move (f : Field) (i j : Nat) (b c : Box)
    (hi : i < X_FIELD_SIZE * Y_FIELD_SIZE) (hj : j < X_FIELD_SIZE * Y_FIELD_SIZE) (hij : i ≠ j)
    (hb : b.exists_ = (f.get j).exists_) (hc : c.exists_ = (f.get i).exists_) :
    occupied ((f.set i b).set j c) = occupied f := by
  have h1 := occupied_set f i b hi
  have h2 := occupied_set (f.set i b) j c hj
  rw [Field.get_set_ne f i j b hij] at h2
  rw [hb] at h1
  rw [hc] at h2
  omega

theorem drop_cell_occupied (f : Field) (y x : Nat) (hy0 : 0 < y) (hy : y < Y_FIELD_SIZE)
    (hx : x < X_FIELD_SIZE) : occupied (drop_cell y x f) = occupied f := by
  have hcur : y * X_FIELD_SIZE + x < X_FIELD_SIZE * Y_FIELD_SIZE := by
    simp only [X_FIELD_SIZE, Y_FIELD_SIZE] at *; omega
  have hup : (y - 1) * X_FIELD_SIZE + x < X_FIELD_SIZE * Y_FIELD_SIZE := by
    simp only [X_FIELD_SIZE, Y_FIELD_SIZE] at *; omega
  have hne : y * X_FIELD_SIZE + x ≠ (y - 1) * X_FIELD_SIZE + x := by
    simp only [X_FIELD_SIZE, Y_FIELD_SIZE] at *; omega
  have e1 : occupied (f.put y x (decrement_y_offset_to_zero (f.cell y x))) = occupied f :=
    occupied_set_same_flag f _ _ hcur (decrement_exists _)
  have e2 : ∀ g : Field, occupied (g.put (y - 1) x (decrement_y_offset_to_zero (g.cell (y - 1) x)))
      = occupied g := fun g => occupied_set_same_flag g _ _ hup (decrement_exists _)
  have e3 : ∀ g : Field, occupied (g.put (y - 1) x { g.cell (y - 1) x with offset := BOX_HEIGHT })
      = occupied g := fun g => occupied_set_same_flag g _ _ hup rfl
  have e4 : ∀ g : Field, occupied ((g.put y x (g.cell (y - 1) x)).put (y - 1) x (g.cell y x))
      = occupied g := fun g => occupied_move g _ _ _ _ hcur hup hne rfl rfl
  unfold drop_cell
  by_cases hl : y = Y_LAST
  · simp only [if_pos hl]
    split
    · rw [e4, e3, e2, e1]
    · rw [e2, e1]
  · simp only [if_neg hl]
    split
    · rw [e4, e3, e2]
    · rw [e2]

theorem foldl_range_inv (P : Field → Prop) (step : Field → Nat → Field) (n : Nat)
    (h : ∀ g x, x < n → P g → P (step g x)) (f : Field) (hf : P f) :
    P ((List.range n).foldl step f) := by
  induction n with
  | zero => exact hf
  | succ n ih =>
    rw [List.range_succ, List.foldl_append]
    exact h _ n (by omega) (ih (fun g x hx => h g x (by omega)))

theorem drop_row_occupied (f : Field) (y : Nat) (hy0 : 0 < y) (hy : y < Y_FIELD_SIZE) :
    occupied (drop_row y f) = occupied f := by
  unfold drop_row
  exact foldl_range_inv (fun g => occupied g = occupied f) _ X_FIELD_SIZE
    (fun g x hx hg => (drop_cell_occupied g y x hy0 hy hx).trans hg) f rfl

theorem drop_rows_occupied (n : Nat) (hn : n < Y_FIELD_SIZE) :
    ∀ f, occupied (drop_rows n f) = occupied f := by
  induction n with
  | zero => intro f; rfl
  | succ n ih =>
    intro f
    simp only [drop_rows]
    rw [ih (by omega), drop_row_occupied f (n + 1) (by omega) hn]

theorem drop_box_occupied (f : Field) : occupied (drop_box f) = occupied f :=
  drop_rows_occupied Y_LAST (by decide) f

theorem is_movable_true (f : Field) (pos : Position) (d : Int)
    (h : is_movable f pos d = .ok true) :
    2 ≤ pos.y ∧
    (∃ iu, cell_addr (pos.y - 1) pos.x = some iu ∧ (f.get iu).exists_ = false) ∧
    (∃ nx, cell_addr pos.y (pos.x + d) = some nx ∧ (f.get nx).exists_ = false) := by
  unfold is_movable at h
  by_cases hy : pos.y < 2
  · simp only [hy, if_true] at h
    cases hl : load f pos.y (pos.x + d) with
    | error e => rw [hl] at h; cases h
    | ok nb => rw [hl] at h; simp at h
  · simp only [hy, if_false] at h
    cases hu : load f (pos.y - 1) pos.x with
    | error e => rw [hu] at h; cases h
    | ok ub =>
      rw [hu] at h
      simp only at h
      cases hl : load f pos.y (pos.x + d) with
      | error e => rw [hl] at h; cases h
      | ok nb =>
        rw [hl] at h
        simp only [Except.ok.injEq, Bool.and_eq_true, Bool.not_eq_true'] at h
        obtain ⟨iu, hiu, rfl⟩ := load_ok _ _ _ _ hu
        obtain ⟨nx, hnx, rfl⟩ := load_ok _ _ _ _ hl
        exact ⟨by omega, ⟨iu, hiu, h.1⟩, ⟨nx, hnx, h.2⟩⟩

theorem horizontal_move_occupied (p : Person) (f : Field) (b : Bool) (p1 : Person)
    (f1 : Field) (h : horizontal_move p f = .ok (b, p1, f1)) : occupied f1 = occupied f := by
  rcases horizontal_move_cases p f b p1 f1 h with h1 | h1 | h1
  · rw [h1.2.2]
  · rw [h1.2.2.1]
  · obtain ⟨_, _, _, _, it, nx, hit, hnx, hne, hex, hm, rfl⟩ := h1
    obtain ⟨_, _, nx2, hnx2, hemp⟩ := is_movable_true f _ _ hm
    have : nx2 = nx := by
      simp only [target_position] at hnx hnx2
      rw [hnx] at hnx2
      exact (Option.some.inj hnx2).symm
    subst this
    exact occupied_move f nx2 it _ _ (cell_addr_some _ _ _ hnx).1 (cell_addr_some _ _ _ hit).1
      (Ne.symm hne) (by simp [hex, hemp]) (by simp [hex, hemp])

theorem generate_box_occupied (fuel : Nat) (rand : Nat → Nat) (g g1 : GameState)
    (h : generate_box fuel rand g = .ok g1) :
    occupied g1.field = occupied g.field ∨ occupied g1.field = occupied g.field + 1 := by
  rcases generate_box_spec fuel rand g g1 h with ⟨_, rfl⟩ | ⟨_, x, pos, _, hx, hemp, rfl⟩
  · exact Or.inl rfl
  · right
    have := occupied_set g.field (0 * X_FIELD_SIZE + x) ⟨BOX_HEIGHT, rand pos % 5, true⟩
      (by simp only [X_FIELD_SIZE, Y_FIELD_SIZE] at *; omega)
    simp only [Field.cell] at hemp
    rw [hemp] at this
    simpa [Field.put] using this

theorem clear_floor_occupied (f : Field) : occupied (clear_floor f) ≤ occupied f := by
  unfold clear_floor
  refine foldl_range_inv (fun g => occupied g ≤ occupied f) _ X_FIELD_SIZE ?_ f (le_refl _)
  intro g x hx hg
  exact le_trans (occupied_set_zero_le g _ Box.zero
    (by simp only [X_FIELD_SIZE, Y_FIELD_SIZE, Y_LAST] at *; omega) rfl) hg

theorem clear_rows_occupied (fuel : Nat) (f f1 : Field) (h : clear_rows fuel f = .ok f1) :
    occupied f1 ≤ occupied f := by
  rw [clear_rows_ok fuel f f1 h]
  split
  · exact le_refl _
  · exact clear_floor_occupied f

theorem person_move_clear_occupied (p : Person) (f f1 : Field)
    (h : person_move_clear p f = .ok f1) : occupied f1 ≤ occupied f := by
  rcases person_move_clear_ok p f f1 h with h1 | h1
  · rw [h1.2]
  · obtain ⟨_, i, j, hi, hj, rfl⟩ := h1
    exact le_trans (occupied_set_zero_le _ j Box.zero (cell_addr_some _ _ _ hj).1 rfl)
      (occupied_set_zero_le f i Box.zero (cell_addr_some _ _ _ hi).1 rfl)

theorem person_move_occupied (p : Person) (f : Field) (p2 : Person) (f2 : Field)
    (h : person_move p f = .ok (p2, f2)) : occupied f2 ≤ occupied f := by
  obtain ⟨p1, f1, h1, _, h3⟩ := person_move_ok p f p2 f2 h
  refine le_trans (person_move_clear_occupied p2 f1 f2 h3) ?_
  rcases person_move_horizontal_ok p f p1 f1 h1 with rfl | ⟨_, b, pm, hm⟩
  · exact le_refl _
  · exact le_of_eq (horizontal_move_occupied _ f b pm f1 hm)

/-! ## The death check -/

theorem is_person_dead_grid (p : Person) (f : Field) (hx : p.p.x ≤ X_LAST) (hy1 : 1 ≤ p.p.y)
    (hy : p.p.y ≤ Y_LAST) : is_person_dead p f = .ok (f.cell (p.p.y - 1) p.p.x).exists_ := by
  have h := load_grid f (p.p.y - 1) p.p.x (by simp only [Y_LAST, Y_FIELD_SIZE] at *; omega)
    (by simp only [X_LAST, X_FIELD_SIZE] at *; omega)
  have hc : ((p.p.y - 1 : Nat) : Int) = (p.p.y : Int) - 1 := by omega
  rw [hc] at h
  simp only [is_person_dead, h]

/-! ## The log of moves of one pass -/

theorem foldl_range_invariant {α : Type} (P : Nat → α → Prop) (step : α → Nat → α) (n : Nat)
    (h : ∀ k s, k < n → P k s → P (k + 1) (step s k)) (s : α) (hs : P 0 s) :
    P n ((List.range n).foldl step s) := by
  induction n with
  | zero => exact hs
  | succ n ih =>
    rw [List.range_succ, List.foldl_append]
    exact h n _ (by omega) (ih (fun k s hk => h k s (by omega)))

theorem foldl_fst {α β γ : Type} (g : α → γ → α) (h : α × β → γ → β) (l : List γ) :
    ∀ s : α × β, (l.foldl (fun t x => (g t.1 x, h t x)) s).1 = l.foldl g s.1 := by
  induction l with
  | nil => intro s; rfl
  | cons a l ih => intro s; simp only [List.foldl_cons]; rw [ih]

theorem drop_row_log_fst (y : Nat) (s : Field × List (Nat × Nat)) :
    (drop_row_log y s).1 = drop_row y s.1 := by
  unfold drop_row_log drop_row
  exact foldl_fst (fun g x => drop_cell y x g) _ _ s

theorem drop_rows_log_fst (n : Nat) : ∀ s : Field × List (Nat × Nat),
    (drop_rows_log n s).1 = drop_rows n s.1 := by
  induction n with
  | zero => intro s; rfl
  | succ n ih => intro s; simp only [drop_rows_log, drop_rows]; rw [ih, drop_row_log_fst]

theorem drop_box_log_fst (f : Field) : (drop_box_log f).1 = drop_box f :=
  drop_rows_log_fst Y_LAST (f, [])

theorem drop_row_log_inv (y : Nat) (s : Field × List (Nat × Nat)) (h : log_inv y 0 s.2) :
    log_inv y X_FIELD_SIZE (drop_row_log y s).2 := by
  unfold drop_row_log
  refine foldl_range_invariant (fun k t => log_inv y k t.2) _ X_FIELD_SIZE ?_ s h
  intro k t _ ht
  simp only
  split
  · refine ⟨?_, ?_⟩
    · rw [List.pairwise_append]
      refine ⟨ht.1, List.pairwise_singleton _ _, ?_⟩
      intro a ha b hb
      simp only [List.mem_singleton] at hb
      subst hb
      rcases ht.2 a ha with h1 | h1
      · exact Or.inl h1
      · exact Or.inr ⟨h1.1.symm, h1.2⟩
    · intro e he
      rw [List.mem_append, List.mem_singleton] at he
      rcases he with he | rfl
      · rcases ht.2 e he with h1 | h1
        · exact Or.inl h1
        · exact Or.inr ⟨h1.1, by omega⟩
      · exact Or.inr ⟨rfl, by simp⟩
  · refine ⟨ht.1, fun e he => ?_⟩
    rcases ht.2 e he with h1 | h1
    · exact Or.inl h1
    · exact Or.inr ⟨h1.1, by omega⟩

theorem drop_rows_log_inv (n : Nat) : ∀ s : Field × List (Nat × Nat),
    (s.2.Pairwise runs_before ∧ ∀ e ∈ s.2, n < e.1) →
      (drop_rows_log n s).2.Pairwise runs_before := by
  induction n with
  | zero => intro s h; exact h.1
  | succ n ih =>
    intro s h
    simp only [drop_rows_log]
    have h0 : log_inv (n + 1) 0 s.2 := ⟨h.1, fun e he => Or.inl (h.2 e he)⟩
    have h1 := drop_row_log_inv (n + 1) s h0
    refine ih _ ⟨h1.1, fun e he => ?_⟩
    rcases h1.2 e he with h2 | h2 <;> omega

theorem drop_box_log_ordered (f : Field) : (drop_box_log f).2.Pairwise runs_before :=
  drop_rows_log_inv Y_LAST (f, []) ⟨List.Pairwise.nil, fun e he => by cases he⟩

/-! ## Termination of the retry loop -/

theorem pick_column_total (rand : Nat → Nat) (f : Field) (fuel : Nat) :
    ∀ pos, (∃ k, k < fuel ∧ (f.cell 0 (rand (pos + k) % X_FIELD_SIZE)).exists_ = false) →
      ∃ r, pick_column rand f fuel pos = .ok r := by
  induction fuel with
  | zero => intro pos ⟨k, hk, _⟩; omega
  | succ n ih =>
    intro pos ⟨k, hk, hemp⟩
    simp only [pick_column]
    by_cases he : (f.cell 0 (rand pos % X_FIELD_SIZE)).exists_ = true
    · rw [if_pos he]
      cases k with
      | zero => simp only [Nat.add_zero] at hemp; rw [hemp] at he; cases he
      | succ j =>
        apply ih (pos + 1)
        exact ⟨j, by omega, by rw [show pos + 1 + j = pos + (j + 1) by omega]; exact hemp⟩
    · rw [if_neg he]
      exact ⟨_, rfl⟩

/-! ## When `horizontal_move` returns -/

theorem load_addr (f : Field) (r c : Int) (i : Nat) (h : cell_addr r c = some i) :
    load f r c = .ok (f.get i) := by
  simp only [load, h]

theorem store_addr (f : Field) (r c : Int) (b : Box) (i : Nat) (h : cell_addr r c = some i) :
    store f r c b = .ok (f.set i b) := by
  simp only [store, h]

theorem load_none (f : Field) (r c : Int) (h : cell_addr r c = none) :
    load f r c = .error .out_of_bounds := by
  simp only [load, h]

theorem is_movable_eval (f : Field) (pos : Position) (d : Int) (hy : pos.y < Y_FIELD_SIZE)
    (hx : pos.x < X_FIELD_SIZE) :
    is_movable f pos d =
      match cell_addr pos.y (pos.x + d) with
      | none => .error .out_of_bounds
      | some nx =>
        .ok (!(decide (pos.y < 2) || (f.cell (pos.y - 1) pos.x).exists_) &&
          !(f.get nx).exists_) := by
  unfold is_movable
  by_cases h2 : pos.y < 2
  · simp only [h2, if_true, decide_True, Bool.true_or]
    cases hn : cell_addr pos.y (pos.x + d) with
    | none => simp only [load, hn]
    | some nx => simp only [load, hn]
  · have hc : ((pos.y - 1 : Nat) : Int) = (pos.y : Int) - 1 := by omega
    simp only [h2, if_false, decide_False, Bool.false_or]
    rw [← hc, load_grid f (pos.y - 1) _ (by omega) hx]
    cases hn : cell_addr pos.y (pos.x + d) with
    | none => simp only [load, hn]
    | some nx => simp only [load, hn]

/-! ## The game status under the dispatch -/

theorem generate_box_status (fuel : Nat) (rand : Nat → Nat) (g g1 : GameState)
    (h : generate_box fuel rand g = .ok g1) :
    g1.game_status = g.game_status ∧ g1.animation = g.animation ∧ g1.person = g.person := by
  rcases generate_box_spec fuel rand g g1 h with ⟨_, rfl⟩ | ⟨_, x, pos, _, _, _, rfl⟩ <;>
    exact ⟨rfl, rfl, rfl⟩

theorem game_tick_status (fuel : Nat) (rand : Nat → Nat) (g g1 : GameState)
    (h : game_tick fuel rand g = .ok g1) :
    g1.game_status = .GameStatusOver ∨ g1.game_status = g.game_status := by
  unfold game_tick at h
  cases hd : is_person_dead g.person g.field with
  | error e => rw [hd] at h; cases h
  | ok dead =>
    rw [hd] at h
    simp only at h
    cases dead with
    | true =>
      simp only [if_true, Except.ok.injEq] at h
      left
      rw [← h]
      rfl
    | false =>
      simp only [Bool.false_eq_true, if_false] at h
      cases hg : generate_box fuel rand { g with field := drop_box g.field } with
      | error e => rw [hg] at h; cases h
      | ok g2 =>
        rw [hg] at h
        simp only at h
        cases hc : clear_rows fuel g2.field with
        | error e => rw [hc] at h; cases h
        | ok f2 =>
          rw [hc] at h
          simp only at h
          cases hp : person_move g2.person f2 with
          | error e => rw [hp] at h; cases h
          | ok r =>
            rw [hp] at h
            simp only [Except.ok.injEq] at h
            right
            rw [← h]
            exact (generate_box_status fuel rand _ g2 hg).1

theorem handle_key_presses_status (k : InputKey) (g : GameState) :
    (handle_key_presses k g).game_status =
      if k = .InputKeyBack then .GameStatusExit
      else if k = .InputKeyUp ∨ k = .InputKeyLeft ∨ k = .InputKeyRight then g.game_status
      else .GameStatusPause := by
  cases k <;> simp only [handle_key_presses] <;> (try split) <;> simp_all

theorem process_event_exit (fuel : Nat) (rand : Nat → Nat) (e : GameEvent) (g g1 : GameState)
    (h : process_event fuel rand e g = .ok g1) (hs : g.game_status ≠ .GameStatusExit)
    (h1 : g1.game_status = .GameStatusExit) : e = key_event .InputKeyBack := by
  unfold process_event at h
  by_cases hp : g.game_status ≠ .GameStatusInProgress
  · rw [if_pos hp] at h
    split at h
    · simp only [Except.ok.injEq] at h
      rw [← h] at h1
      cases h1
    · simp only [Except.ok.injEq] at h
      rw [← h] at h1
      exact absurd h1 hs
  · rw [if_neg hp] at h
    simp only [ne_eq, not_not] at hp
    by_cases ht : e.type = .EventGameTick
    · rw [if_pos ht] at h
      rcases game_tick_status fuel rand g g1 h with h2 | h2
      · rw [h2] at h1; cases h1
      · rw [h2, hp] at h1; cases h1
    · rw [if_neg ht] at h
      have hk : e.type = .EventKeyPress := by
        cases hty : e.type with
        | EventGameTick => exact absurd hty ht
        | EventKeyPress => rfl
      rw [if_pos hk] at h
      simp only [Except.ok.injEq] at h
      rw [← h, handle_key_presses_status, hp] at h1
      obtain ⟨ty, k⟩ := e
      simp only at hk h1
      subst hk
      cases k <;> simp at h1
      rfl

/-! ## The counters of the character -/

theorem i8_small (k : Int) (h1 : -128 ≤ k) (h2 : k ≤ 127) : i8 k = k := by
  unfold i8
  omega

theorem horizontal_move_person (p : Person) (f : Field) (b : Bool) (p1 : Person) (f1 : Field)
    (h : horizontal_move p f = .ok (b, p1, f1)) :
    p1.x_direction = p.x_direction ∧ p1.j_tick = p.j_tick ∧ p1.h_tick = p.h_tick ∧
      p1.right_frame = p.right_frame ∧ p1.p.y = p.p.y ∧
      (b = true → p.x_direction ≠ 0 ∧ p1.p = target_position p) ∧ (b = false → p1 = p) := by
  rcases horizontal_move_cases p f b p1 f1 h with ⟨hb, rfl, _⟩ | ⟨hb, rfl, _, hd, _⟩ |
    ⟨hb, rfl, hd, _⟩
  · subst hb; simp
  · subst hb; simp [hd, target_position]
  · subst hb; simp [hd, target_position]

theorem person_move_horizontal_counters (p : Person) (f : Field) (p1 : Person) (f1 : Field)
    (h : person_move_horizontal p f = .ok (p1, f1)) (hp : counters_ok p) :
    counters_ok p1 ∧ p1.j_tick = p.j_tick := by
  unfold counters_ok at hp ⊢
  unfold person_move_horizontal at h
  by_cases e0 : p.h_tick = 0
  · rw [if_pos e0] at h
    simp only [Except.ok.injEq, Prod.mk.injEq] at h
    rw [← h.1]
    exact ⟨hp, rfl⟩
  · rw [if_neg e0] at h
    by_cases e1 : p.h_tick = 1
    · rw [if_pos e1] at h
      simp only at h
      cases hm : horizontal_move { p with h_tick := i8 (p.h_tick + 1) } f with
      | error e => rw [hm] at h; cases h
      | ok r =>
        obtain ⟨b, pm, fm⟩ := r
        rw [hm] at h
        simp only at h
        obtain ⟨q1, q2, q3, _, _, q6, _⟩ := horizontal_move_person _ f b pm fm hm
        simp only at q1 q2 q3 q6
        have hi : i8 (p.h_tick + 1) = 2 := by rw [e1]; rfl
        rw [hi] at q3
        cases b with
        | false =>
          simp only [Bool.not_false, if_true, Except.ok.injEq, Prod.mk.injEq] at h
          rw [← h.1]
          dsimp only
          omega
        | true =>
          simp only [Bool.not_true, Bool.false_eq_true, if_false, Except.ok.injEq,
            Prod.mk.injEq] at h
          rw [← h.1]
          have hne := (q6 rfl).1
          omega
    · rw [if_neg e1] at h
      by_cases e5 : p.h_tick = 5
      · rw [if_pos e5] at h
        simp only [Except.ok.injEq, Prod.mk.injEq] at h
        rw [← h.1]
        dsimp only
        omega
      · rw [if_neg e5] at h
        simp only [Except.ok.injEq, Prod.mk.injEq] at h
        rw [← h.1]
        have hi : i8 (p.h_tick + 1) = p.h_tick + 1 := i8_small _ (by omega) (by omega)
        dsimp only
        rw [hi]
        omega

theorem person_move_vertical_counters (p : Person) (f : Field) (p1 : Person)
    (h : person_move_vertical p f = .ok p1) (hp : counters_ok p) :
    counters_ok p1 ∧ p1.h_tick = p.h_tick ∧ p1.x_direction = p.x_direction ∧
      p1.p.x = p.p.x := by
  unfold counters_ok at hp ⊢
  unfold person_move_vertical at h
  by_cases e0 : p.j_tick = 0
  · rw [if_pos e0] at h
    cases hg : on_ground p f with
    | error e => rw [hg] at h; cases h
    | ok g =>
      rw [hg] at h
      cases g <;> simp at h <;> rw [← h]
      · have hi : i8 (p.j_tick - 1) = -1 := by rw [e0]; rfl
        dsimp only
        rw [hi]
        omega
      · exact ⟨hp, rfl, rfl, rfl⟩
  · rw [if_neg e0] at h
    by_cases e1 : p.j_tick = 1
    · rw [if_pos e1] at h
      cases hg : on_ground p f with
      | error e => rw [hg] at h; cases h
      | ok g =>
        rw [hg] at h
        cases g <;> simp at h <;> rw [← h]
        · exact ⟨hp, rfl, rfl, rfl⟩
        · have hi : i8 (p.j_tick + 1) = 2 := by rw [e1]; rfl
          dsimp only
          rw [hi]
          omega
    · rw [if_neg e1] at h
      by_cases e6 : p.j_tick = 6
      · rw [if_pos e6] at h
        simp only [Except.ok.injEq] at h
        rw [← h]
        dsimp only
        omega
      · rw [if_neg e6] at h
        by_cases e7 : p.j_tick = -6
        · rw [if_pos e7] at h
          simp only [Except.ok.injEq] at h
          rw [← h]
          dsimp only
          omega
        · rw [if_neg e7] at h
          simp only [Except.ok.injEq] at h
          rw [← h]
          dsimp only
          by_cases hpos : p.j_tick > 0
          · rw [if_pos hpos, i8_small _ (by omega) (by omega)]
            omega
          · rw [if_neg hpos, i8_small _ (by omega) (by omega)]
            omega

theorem handle_key_presses_counters (k : InputKey) (g : GameState) (hp : counters_ok g.person) :
    counters_ok (handle_key_presses k g).person := by
  unfold counters_ok at hp ⊢
  cases k <;> simp only [handle_key_presses] <;> (try split) <;> (try dsimp only) <;> omega

/-! ## The walk -/

theorem load_at_grid (f : Field) (y x : Nat) (hy : y < Y_FIELD_SIZE) (hx : x < X_FIELD_SIZE) :
    load_at f ((y : Int) * X_FIELD_SIZE + x) = .ok (f.cell y x) := by
  unfold load_at
  simp only [X_FIELD_SIZE, Y_FIELD_SIZE] at hy hx ⊢
  rw [if_pos (by omega)]
  have hn : ((y : Int) * (12 : Nat) + (x : Int)).toNat = y * 12 + x := by omega
  rw [hn]
  rfl

/-- Above the floor row the ground check reads the cell below the target. -/
theorem ground_box_check_eval (f : Field) (pos : Position) (hy : pos.y < Y_LAST)
    (hx : pos.x ≤ X_LAST) :
    ground_box_check f pos =
      .ok (is_empty (f.cell (pos.y + 1) pos.x) || has_dropped (f.cell (pos.y + 1) pos.x)) := by
  have hr : row_ptr ((pos.y : Int) + 1) = .ok (((pos.y + 1 : Nat) : Int) * X_FIELD_SIZE) := by
    unfold row_ptr
    simp only [Y_LAST, Y_FIELD_SIZE] at hy ⊢
    rw [if_pos (by omega)]
    congr 1
  unfold ground_box_check get_lower_box
  rw [hr]
  simp only
  rw [if_neg (by omega), load_at_grid f (pos.y + 1) pos.x
    (by simp only [Y_LAST, Y_FIELD_SIZE] at *; omega)
    (by simp only [X_LAST, X_FIELD_SIZE] at *; omega)]

/-- On the floor row (and below it) the ground check faults: the row pointer
`field[pos.y + 1]` is loaded from outside the table before the row is tested. -/
theorem ground_box_check_floor (f : Field) (pos : Position) (hy : Y_LAST ≤ pos.y) :
    ground_box_check f pos = .error .out_of_bounds := by
  have hr : row_ptr ((pos.y : Int) + 1) = .error .out_of_bounds := by
    unfold row_ptr
    simp only [Y_LAST, Y_FIELD_SIZE] at hy ⊢
    rw [if_neg (by omega)]
  unfold ground_box_check get_lower_box
  rw [hr]

theorem person_move_vertical_frame (p : Person) (f : Field) (p1 : Person)
    (h : person_move_vertical p f = .ok p1) :
    p1.h_tick = p.h_tick ∧ p1.x_direction = p.x_direction ∧ p1.p.x = p.p.x ∧
      p1.right_frame = p.right_frame := by
  unfold person_move_vertical at h
  by_cases e0 : p.j_tick = 0
  · rw [if_pos e0] at h
    cases hg : on_ground p f with
    | error e => rw [hg] at h; cases h
    | ok g =>
      rw [hg] at h
      cases g <;> simp at h <;> rw [← h] <;> exact ⟨rfl, rfl, rfl, rfl⟩
  · rw [if_neg e0] at h
    by_cases e1 : p.j_tick = 1
    · rw [if_pos e1] at h
      cases hg : on_ground p f with
      | error e => rw [hg] at h; cases h
      | ok g =>
        rw [hg] at h
        cases g <;> simp at h <;> rw [← h] <;> exact ⟨rfl, rfl, rfl, rfl⟩
    · rw [if_neg e1] at h
      by_cases e6 : p.j_tick = 6
      · rw [if_pos e6] at h
        simp only [Except.ok.injEq] at h
        rw [← h]
        exact ⟨rfl, rfl, rfl, rfl⟩
      · rw [if_neg e6] at h
        by_cases e7 : p.j_tick = -6
        · rw [if_pos e7] at h
          simp only [Except.ok.injEq] at h
          rw [← h]
          exact ⟨rfl, rfl, rfl, rfl⟩
        · rw [if_neg e7] at h
          simp only [Except.ok.injEq] at h
          rw [← h]
          exact ⟨rfl, rfl, rfl, rfl⟩

/-- The walk above the floor row: with the target column inside the grid and the target
cell empty, `horizontal_move` is decided by the cell below the target alone. -/
theorem horizontal_move_walk (p : Person) (f : Field) (hd : p.x_direction ≠ 0)
    (hy : p.p.y < Y_LAST) (hx : (target_position p).x ≤ X_LAST)
    (hemp : (f.cell p.p.y (target_position p).x).exists_ = false) :
    horizontal_move p f =
      .ok (if (f.cell (p.p.y + 1) (target_position p).x).exists_ = false ∨
            (f.cell (p.p.y + 1) (target_position p).x).offset = 0
          then (true, { p with p := target_position p }, f) else (false, p, f)) := by
  unfold horizontal_move
  simp only [target_position] at hx hemp ⊢
  rw [if_neg hd]
  rw [if_neg (by omega)]
  rw [load_grid f _ _ (by simp only [Y_LAST, Y_FIELD_SIZE] at *; omega)
    (by simp only [X_LAST, X_FIELD_SIZE] at *; omega)]
  simp only [is_empty, hemp, Bool.not_false, if_true]
  rw [ground_box_check_eval f ⟨u8 (p.p.x + p.x_direction), p.p.y⟩ hy hx]
  simp only [is_empty, has_dropped]
  by_cases h1 : (f.cell (p.p.y + 1) (u8 (p.p.x + p.x_direction))).exists_ = false
  · simp [h1]
  · by_cases h2 : (f.cell (p.p.y + 1) (u8 (p.p.x + p.x_direction))).offset = 0
    · simp [h1, h2]
    · simp [h1, h2]

/-- The walk on the floor row: with the target column inside the grid and the target
cell empty, `horizontal_move` faults in the ground check. -/
theorem horizontal_move_walk_floor (p : Person) (f : Field) (hd : p.x_direction ≠ 0)
    (hy : p.p.y = Y_LAST) (hx : (target_position p).x ≤ X_LAST)
    (hemp : (f.cell p.p.y (target_position p).x).exists_ = false) :
    horizontal_move p f = .error .out_of_bounds := by
  unfold horizontal_move
  simp only [target_position] at hx hemp ⊢
  rw [if_neg hd]
  rw [if_neg (by omega)]
  rw [load_grid f _ _ (by rw [hy]; decide)
    (by simp only [X_LAST, X_FIELD_SIZE] at *; omega)]
  simp only [is_empty, hemp, Bool.not_false, if_true]
  rw [ground_box_check_floor f ⟨u8 (p.p.x + p.x_direction), p.p.y⟩ (by rw [hy])]

/-- With the character inside the grid, `horizontal_move` returns, with two exceptions.
When the cell it aims at holds a box and the cell after it, `field[y][x + x_direction]`,
lies outside the block, reading that cell is a memory fault. When the cell it aims at is
an empty cell of the floor row, the ground check loads a row pointer from outside the
table. -/
theorem horizontal_move_returns (p : Person) (f : Field) (hp : in_grid p.p) :
    (∃ r, horizontal_move p f = .ok r) ∨
    ((f.cell p.p.y (target_position p).x).exists_ = true ∧
      cell_addr p.p.y ((target_position p).x + p.x_direction) = none ∧
      horizontal_move p f = .error .out_of_bounds) ∨
    (p.x_direction ≠ 0 ∧ (target_position p).x ≤ X_LAST ∧
      (f.cell p.p.y (target_position p).x).exists_ = false ∧ p.p.y = Y_LAST ∧
      horizontal_move p f = .error .out_of_bounds) := by
  obtain ⟨_, hy⟩ := hp
  by_cases hd : p.x_direction = 0
  · unfold horizontal_move
    rw [if_pos hd]; exact Or.inl ⟨_, rfl⟩
  · by_cases he : ((u8 (p.p.x + p.x_direction) : Nat) : Int) < 0 ∨ u8 (p.p.x + p.x_direction) > X_LAST
    · unfold horizontal_move
      rw [if_neg hd]
      simp only
      rw [if_pos he]; exact Or.inl ⟨_, rfl⟩
    · have hx : (target_position p).x ≤ X_LAST := by
        have htx : (target_position p).x = u8 (p.p.x + p.x_direction) := rfl
        rw [htx]
        omega
      have hx1 : u8 (p.p.x + p.x_direction) < X_FIELD_SIZE := by
        simp only [X_LAST, X_FIELD_SIZE] at he ⊢
        omega
      have hy1 : p.p.y < Y_FIELD_SIZE := by
        simp only [Y_LAST, Y_FIELD_SIZE] at hy ⊢
        omega
      by_cases hemp : (f.cell p.p.y (target_position p).x).exists_ = false
      · by_cases hl : p.p.y = Y_LAST
        · exact Or.inr (Or.inr ⟨hd, hx, hemp, hl, horizontal_move_walk_floor p f hd hl hx hemp⟩)
        · left
          rw [horizontal_move_walk p f hd (lt_of_le_of_ne hy hl) hx hemp]
          exact ⟨_, rfl⟩
      · have hex : (f.cell p.p.y (u8 (p.p.x + p.x_direction))).exists_ = true := by
          simpa [target_position] using hemp
        have hemp2 : ¬ is_empty (f.cell p.p.y (u8 (p.p.x + p.x_direction))) = true := by
          simp only [is_empty, hex, Bool.not_true, Bool.false_eq_true, not_false_eq_true]
        unfold horizontal_move
        rw [if_neg hd]
        simp only
        rw [if_neg he, load_grid f _ _ hy1 hx1]
        simp only
        rw [if_neg hemp2]
        rw [is_movable_eval f ⟨u8 (p.p.x + p.x_direction), p.p.y⟩ p.x_direction hy1 hx1]
        simp only
        cases hn : cell_addr p.p.y ((u8 (p.p.x + p.x_direction) : Nat) + p.x_direction) with
        | none =>
          right
          left
          simp only [target_position]
          exact ⟨hex, hn, trivial⟩
        | some nx =>
          left
          simp only
          split
          · rw [store_addr _ _ _ _ nx hn]
            simp only
            rw [load_grid _ _ _ hy1 hx1]
            simp only
            rw [store_grid _ _ _ _ hy1 hx1]
            exact ⟨_, rfl⟩
          · exact ⟨_, rfl⟩


theorem u8_small (k : Int) (h0 : 0 ≤ k) (h1 : k ≤ 255) : ((u8 k : Nat) : Int) = k := by
  unfold u8
  omega

theorem person_move_horizontal_first (p : Person) (f : Field) (r : Bool × Person × Field)
    (h1 : p.h_tick = 1)
    (hm : horizontal_move { p with h_tick := 2 } f = .ok r) :
    person_move_horizontal p f =
      .ok (if r.1 then (r.2.1, r.2.2) else ({ r.2.1 with h_tick := 0, x_direction := 0 }, r.2.2)) := by
  unfold person_move_horizontal
  have hi : i8 (p.h_tick + 1) = 2 := by rw [h1]; rfl
  rw [if_neg (by omega), if_pos h1]
  simp only [hi, hm]
  obtain ⟨b, pm, fm⟩ := r
  cases b <;> simp

/-! ## Standing and falling -/

theorem on_ground_eval (p : Person) (f : Field) (hin : in_grid p.p) :
    on_ground p f = .ok (decide (p.p.y = Y_LAST) || (f.cell (p.p.y + 1) p.p.x).exists_) := by
  unfold on_ground
  by_cases hl : p.p.y = Y_LAST
  · simp [hl]
  · have hc : ((p.p.y + 1 : Nat) : Int) = (p.p.y : Int) + 1 := by omega
    have hy := hin.2
    have hx := hin.1
    rw [if_neg hl, ← hc, load_grid f (p.p.y + 1) p.p.x
      (by simp only [Y_LAST, Y_FIELD_SIZE] at *; omega)
      (by simp only [X_LAST, X_FIELD_SIZE] at *; omega)]
    have hl5 : ¬ p.p.y = 5 := hl
    simp [hl5]

/-! ## Where the boxes of a column go in one pass -/

theorem drop_pair_eq (l : Bool) (cur up : Box) :
    drop_pair l cur up =
      if drop_pair_moves l cur up then
        ({ decrement_y_offset_to_zero up with offset := BOX_HEIGHT },
          if l then decrement_y_offset_to_zero cur else cur)
      else (if l then decrement_y_offset_to_zero cur else cur, decrement_y_offset_to_zero up) := by
  rfl

theorem drop_pair_moves_iff (l : Bool) (cur up : Box) :
    drop_pair_moves l cur up = true ↔
      cur.exists_ = false ∧ up.exists_ = true ∧ up.offset ≤ 1 := by
  unfold drop_pair_moves
  cases l <;>
    simp only [Bool.and_eq_true, is_empty, has_dropped, decrement_exists, decrement_offset,
      Bool.not_eq_true', Bool.not_eq_false', beq_iff_eq, Bool.false_eq_true, if_false, if_true,
      Bool.not_not] <;>
    constructor
  · rintro ⟨⟨a, b⟩, c⟩; exact ⟨a, b, by omega⟩
  · rintro ⟨a, b, c⟩; exact ⟨⟨a, b⟩, by omega⟩
  · rintro ⟨⟨a, b⟩, c⟩; exact ⟨a, b, by omega⟩
  · rintro ⟨a, b, c⟩; exact ⟨⟨a, b⟩, by omega⟩

theorem drop_pair_fst_exists (l : Bool) (cur up : Box) :
    (drop_pair l cur up).1.exists_ =
      if drop_pair_moves l cur up then true else cur.exists_ := by
  rw [drop_pair_eq]
  by_cases hm : drop_pair_moves l cur up = true
  · rw [if_pos hm, if_pos hm]
    simp only [decrement_exists]
    exact ((drop_pair_moves_iff l cur up).mp hm).2.1
  · rw [if_neg hm, if_neg hm]
    cases l <;> simp [decrement_exists]

theorem drop_pair_snd_exists (l : Bool) (cur up : Box) :
    (drop_pair l cur up).2.exists_ =
      if drop_pair_moves l cur up then false else up.exists_ := by
  rw [drop_pair_eq]
  by_cases hm : drop_pair_moves l cur up = true
  · rw [if_pos hm, if_pos hm]
    have := ((drop_pair_moves_iff l cur up).mp hm).1
    cases l <;> simp [decrement_exists, this]
  · rw [if_neg hm, if_neg hm]
    simp [decrement_exists]

theorem drop_pair_fst_offset (l : Bool) (cur up : Box) (hm : drop_pair_moves l cur up = true) :
    (drop_pair l cur up).1.offset = BOX_HEIGHT := by
  rw [drop_pair_eq, if_pos hm]

theorem col_rows_above (n : Nat) : ∀ (c : Nat → Box) (r : Nat), n < r → col_rows n c r = c r := by
  induction n with
  | zero => intro c r _; rfl
  | succ n ih =>
    intro c r hr
    simp only [col_rows]
    rw [ih _ r (by omega)]
    unfold col_step
    rw [if_neg (by omega), if_neg (by omega)]

theorem col_step_at (y : Nat) (c : Nat → Box) :
    col_step (y + 1) c (y + 1) = (drop_pair (decide (y + 1 = Y_LAST)) (c (y + 1)) (c y)).1 ∧
    col_step (y + 1) c y = (drop_pair (decide (y + 1 = Y_LAST)) (c (y + 1)) (c y)).2 ∧
    ∀ r, r ≠ y + 1 → r ≠ y → col_step (y + 1) c r = c r := by
  unfold col_step
  refine ⟨by simp, by simp, fun r h1 h2 => ?_⟩
  simp only [Nat.add_sub_cancel]
  rw [if_neg h1, if_neg h2]

/-- Where the boxes of a column are after the rows `n, n - 1, ..., 1` have been processed:
an occupied cell was occupied before or the cell above it was, and a box in a cell that
was empty before has a fresh fall offset. -/
theorem col_rows_origin (n : Nat) : ∀ (c : Nat → Box) (r : Nat),
    ((col_rows n c r).exists_ = true →
      (c r).exists_ = true ∨ (1 ≤ r ∧ (c (r - 1)).exists_ = true)) ∧
    ((col_rows n c r).exists_ = true → (c r).exists_ = false →
      (col_rows n c r).offset = BOX_HEIGHT) := by
  induction n with
  | zero =>
    intro c r
    refine ⟨fun h => Or.inl h, fun h1 h2 => ?_⟩
    simp only [col_rows] at h1
    rw [h1] at h2
    cases h2
  | succ n ih =>
    intro c r
    obtain ⟨s1, s2, s3⟩ := col_step_at n c
    have e1 := drop_pair_fst_exists (decide (n + 1 = Y_LAST)) (c (n + 1)) (c n)
    have e2 := drop_pair_snd_exists (decide (n + 1 = Y_LAST)) (c (n + 1)) (c n)
    simp only [col_rows]
    obtain ⟨i1, i2⟩ := ih (col_step (n + 1) c) r
    by_cases hm : drop_pair_moves (decide (n + 1 = Y_LAST)) (c (n + 1)) (c n) = true
    · have hup := ((drop_pair_moves_iff _ _ _).mp hm).2.1
      rw [if_pos hm] at e1 e2
      rcases Nat.lt_trichotomy r n with hr | hr | hr
      · have q1 : col_step (n + 1) c r = c r := s3 r (by omega) (by omega)
        have q2 : col_step (n + 1) c (r - 1) = c (r - 1) := s3 _ (by omega) (by omega)
        rw [q1, q2] at i1
        rw [q1] at i2
        exact ⟨i1, i2⟩
      · subst hr
        have q1 : (col_step (r + 1) c r).exists_ = false := by rw [s2, e2]
        constructor
        · intro h
          rcases i1 h with h3 | ⟨h3, h4⟩
          · rw [q1] at h3; cases h3
          · have q2 : col_step (r + 1) c (r - 1) = c (r - 1) := s3 _ (by omega) (by omega)
            rw [q2] at h4
            exact Or.inr ⟨h3, h4⟩
        · intro h _
          exact i2 h q1
      · rw [col_rows_above n _ r hr]
        by_cases hr1 : r = n + 1
        · subst hr1
          rw [s1]
          refine ⟨fun _ => Or.inr ⟨by omega, by simpa using hup⟩, fun _ _ => ?_⟩
          exact drop_pair_fst_offset _ _ _ hm
        · rw [s3 r hr1 (by omega)]
          refine ⟨fun h => Or.inl h, fun h1 h2 => ?_⟩
          rw [h1] at h2
          cases h2
    · rw [if_neg hm] at e1 e2
      rcases Nat.lt_trichotomy r n with hr | hr | hr
      · have q1 : col_step (n + 1) c r = c r := s3 r (by omega) (by omega)
        have q2 : col_step (n + 1) c (r - 1) = c (r - 1) := s3 _ (by omega) (by omega)
        rw [q1, q2] at i1
        rw [q1] at i2
        exact ⟨i1, i2⟩
      · subst hr
        have q1 : (col_step (r + 1) c r).exists_ = (c r).exists_ := by rw [s2, e2]
        constructor
        · intro h
          rcases i1 h with h3 | ⟨h3, h4⟩
          · rw [q1] at h3; exact Or.inl h3
          · have q2 : col_step (r + 1) c (r - 1) = c (r - 1) := s3 _ (by omega) (by omega)
            rw [q2] at h4
            exact Or.inr ⟨h3, h4⟩
        · intro h h2
          exact i2 h (by rw [q1]; exact h2)
      · rw [col_rows_above n _ r hr]
        by_cases hr1 : r = n + 1
        · subst hr1
          rw [s1, e1]
          refine ⟨fun h => Or.inl h, fun h1 h2 => ?_⟩
          rw [h1] at h2
          cases h2
        · rw [s3 r hr1 (by omega)]
          refine ⟨fun h => Or.inl h, fun h1 h2 => ?_⟩
          rw [h1] at h2
          cases h2

/-! ## The cells of the logged moves -/

theorem drop_cell_moves_eq (f : Field) (y x : Nat) (hy0 : 0 < y) (hy : y < Y_FIELD_SIZE)
    (hx : x < X_FIELD_SIZE) :
    drop_cell_moves y x f =
      drop_pair_moves (decide (y = Y_LAST)) (f.cell y x) (f.cell (y - 1) x) := by
  have hy1 : y - 1 < Y_FIELD_SIZE := by omega
  have hne : y - 1 ≠ y := by omega
  have hne2 : y ≠ y - 1 := by omega
  have same : ∀ (g : Field) (r : Nat) (b : Box), r < Y_FIELD_SIZE →
      (g.put r x b).cell r x = b := fun g r b hr => Field.cell_put_same g r x b hr hx
  have other : ∀ (g : Field) (r r1 : Nat) (b : Box), r < Y_FIELD_SIZE → r1 ≠ r →
      (g.put r x b).cell r1 x = g.cell r1 x :=
    fun g r r1 b hr hn => Field.cell_put_row g r x r1 b hr hx hn
  unfold drop_cell_moves drop_pair_moves
  by_cases hl : y = Y_LAST
  · simp only [if_pos hl, decide_eq_true hl, if_true]
    rw [other _ _ _ _ hy1 hne2, same _ _ _ hy, same _ _ _ hy1, other _ _ _ _ hy hne]
  · simp only [if_neg hl, decide_eq_false hl, Bool.false_eq_true, if_false]
    rw [other _ _ _ _ hy1 hne2, same _ _ _ hy1]

/-- One more column of row `y` done: the log stays ordered. -/
theorem log_inv_step (y k : Nat) (log : List (Nat × Nat)) (b : Bool) (h : log_inv y k log) :
    log_inv y (k + 1) (if b then log ++ [(y, k)] else log) := by
  cases b
  · refine ⟨h.1, fun e he => ?_⟩
    rcases h.2 e he with h1 | h1
    · exact Or.inl h1
    · exact Or.inr ⟨h1.1, by omega⟩
  · simp only [if_true]
    refine ⟨?_, ?_⟩
    · rw [List.pairwise_append]
      refine ⟨h.1, List.pairwise_singleton _ _, ?_⟩
      intro a ha c hc
      simp only [List.mem_singleton] at hc
      subst hc
      rcases h.2 a ha with h1 | h1
      · exact Or.inl h1
      · exact Or.inr ⟨h1.1.symm, h1.2⟩
    · intro e he
      rw [List.mem_append, List.mem_singleton] at he
      rcases he with he | rfl
      · rcases h.2 e he with h1 | h1
        · exact Or.inl h1
        · exact Or.inr ⟨h1.1, by omega⟩
      · exact Or.inr ⟨rfl, by simp⟩

theorem drop_row_log_cells (y : Nat) (hy0 : 0 < y) (hy : y < Y_FIELD_SIZE)
    (s : Field × List (Nat × Nat)) (h : log_inv y 0 s.2) (hc : log_cells s) :
    log_inv y X_FIELD_SIZE (drop_row_log y s).2 ∧ log_cells (drop_row_log y s) := by
  unfold drop_row_log
  refine foldl_range_invariant (fun k t => log_inv y k t.2 ∧ log_cells t) _ X_FIELD_SIZE ?_ s
    ⟨h, hc⟩
  intro k t hk ⟨hi, hcell⟩
  refine ⟨log_inv_step y k t.2 _ hi, ?_⟩
  have hmv := drop_cell_moves_eq t.1 y k hy0 hy hk
  have old : ∀ e ∈ t.2, e.2 < X_FIELD_SIZE ∧ ((drop_cell y k t.1).cell e.1 e.2).exists_ = true ∧
      ((drop_cell y k t.1).cell e.1 e.2).offset = BOX_HEIGHT := by
    intro e he
    obtain ⟨hx, h1, h2⟩ := hcell e he
    rw [drop_cell_cell t.1 y k e.1 e.2 hy0 hy hk hx]
    by_cases hek : e.2 = k
    · rw [if_pos hek]
      have hrow : y < e.1 := by
        rcases hi.2 e he with h3 | h3
        · exact h3
        · omega
      unfold col_step
      rw [if_neg (by omega), if_neg (by omega)]
      exact ⟨hx, h1, h2⟩
    · rw [if_neg hek]
      exact ⟨hx, h1, h2⟩
  intro e he
  simp only at he ⊢
  by_cases hm : drop_cell_moves y k t.1 = true
  · rw [if_pos hm, List.mem_append, List.mem_singleton] at he
    rcases he with he | rfl
    · exact old e he
    · simp only
      rw [drop_cell_same_col t.1 y k y hy0 hy hk]
      unfold col_step
      rw [if_pos rfl]
      rw [hmv] at hm
      refine ⟨hk, ?_, drop_pair_fst_offset _ _ _ hm⟩
      rw [drop_pair_fst_exists, if_pos hm]
  · rw [if_neg hm] at he
    exact old e he

theorem drop_rows_log_cells (n : Nat) (hn : n < Y_FIELD_SIZE) :
    ∀ s : Field × List (Nat × Nat),
      (s.2.Pairwise runs_before ∧ ∀ e ∈ s.2, n < e.1) → log_cells s →
        log_cells (drop_rows_log n s) := by
  induction n with
  | zero => intro s _ hc; exact hc
  | succ n ih =>
    intro s h hc
    simp only [drop_rows_log]
    have h0 : log_inv (n + 1) 0 s.2 := ⟨h.1, fun e he => Or.inl (h.2 e he)⟩
    obtain ⟨h1, h2⟩ := drop_row_log_cells (n + 1) (by omega) hn s h0 hc
    refine ih (by omega) _ ⟨h1.1, fun e he => ?_⟩ h2
    rcases h1.2 e he with h3 | h3 <;> omega

theorem drop_box_log_cells (f : Field) : log_cells (drop_box_log f) :=
  drop_rows_log_cells Y_LAST (by decide) (f, [])
    ⟨List.Pairwise.nil, fun e he => by cases he⟩ (fun e he => by cases he)

/-! ## The mid-jump clear -/

theorem game_tick_alive (fuel : Nat) (rand : Nat → Nat) (g g1 : GameState)
    (hd : is_person_dead g.person g.field = .ok false)
    (h : game_tick fuel rand g = .ok g1) : g1.game_status = g.game_status := by
  unfold game_tick at h
  rw [hd] at h
  simp only [Bool.false_eq_true, if_false] at h
  cases hg : generate_box fuel rand { g with field := drop_box g.field } with
  | error e => rw [hg] at h; cases h
  | ok g2 =>
    rw [hg] at h
    simp only at h
    cases hc : clear_rows fuel g2.field with
    | error e => rw [hc] at h; cases h
    | ok f2 =>
      rw [hc] at h
      simp only at h
      cases hp : person_move g2.person f2 with
      | error e => rw [hp] at h; cases h
      | ok r =>
        rw [hp] at h
        simp only [Except.ok.injEq] at h
        rw [← h]
        exact (generate_box_status fuel rand _ g2 hg).1

/-- The mid-jump clear, when it runs and returns, leaves the cell of the character and
the cell above it zeroed; both lie in the block, the upper one in a row `≥ 0`. -/
theorem person_move_clear_cells (p : Person) (f f1 : Field) (hj : 0 < p.j_tick)
    (h : person_move_clear p f = .ok f1) :
    1 ≤ p.p.y ∧ p.p.y ≤ Y_LAST ∧ load f1 p.p.y p.p.x = .ok Box.zero ∧
      load f1 (p.p.y - 1) p.p.x = .ok Box.zero ∧ is_person_dead p f1 = .ok false := by
  rcases person_move_clear_ok p f f1 h with h1 | h1
  · exact absurd hj h1.1
  · obtain ⟨_, i, j, hi, hj2, rfl⟩ := h1
    obtain ⟨hi72, hie, _, hi6⟩ := cell_addr_some _ _ _ hi
    obtain ⟨hj72, hje, hj0, _⟩ := cell_addr_some _ _ _ hj2
    have hne : i ≠ j := by
      intro he
      rw [he] at hie
      simp only [X_FIELD_SIZE] at hie hje
      omega
    have l2 : load ((f.set i Box.zero).set j Box.zero) (p.p.y - 1) p.p.x = .ok Box.zero := by
      rw [load_addr _ _ _ j hj2, Field.get_set_eq _ _ _ hj72]
    refine ⟨by omega, by simp only [Y_LAST, Y_FIELD_SIZE] at hi6 ⊢; omega, ?_, l2, ?_⟩
    · rw [load_addr _ _ _ i hi, Field.get_set_ne _ _ _ _ (Ne.symm hne),
        Field.get_set_eq _ _ _ hi72]
    · unfold is_person_dead
      rw [l2]
      rfl

theorem person_move_clear_returns (p : Person) (f : Field) (hin : in_grid p.p)
    (hy : 1 ≤ p.p.y) : ∃ f1, person_move_clear p f = .ok f1 := by
  unfold person_move_clear
  have hy6 : p.p.y < Y_FIELD_SIZE := by
    have := hin.2
    simp only [Y_LAST, Y_FIELD_SIZE] at this ⊢
    omega
  have hx12 : p.p.x < X_FIELD_SIZE := by
    have := hin.1
    simp only [X_LAST, X_FIELD_SIZE] at this ⊢
    omega
  by_cases hj : p.j_tick > 0
  · rw [if_pos hj, store_grid f _ _ _ hy6 hx12]
    simp only
    have hc : ((p.p.y - 1 : Nat) : Int) = (p.p.y : Int) - 1 := by omega
    rw [← hc, store_grid _ _ _ _ (by omega) hx12]
    exact ⟨_, rfl⟩
  · rw [if_neg hj]
    exact ⟨_, rfl⟩

/-! ## The push branch of the horizontal move -/

/-- The push: with the target holding a box in row 2 or below, the cell above the target
empty and the next cell `field[y][x + x_direction]` a cell of the block and empty,
`horizontal_move` copies the box to that cell and clears the `exists` flag of the target. -/
theorem horizontal_move_push (p : Person) (f : Field) (nx : Nat) (hd : p.x_direction ≠ 0)
    (hy : p.p.y ≤ Y_LAST) (hx : (target_position p).x ≤ X_LAST)
    (hbox : (f.cell p.p.y (target_position p).x).exists_ = true) (h2 : 2 ≤ p.p.y)
    (hup : (f.cell (p.p.y - 1) (target_position p).x).exists_ = false)
    (hnx : cell_addr p.p.y ((target_position p).x + p.x_direction) = some nx)
    (hemp : (f.get nx).exists_ = false) :
    horizontal_move p f =
      .ok (true, { p with p := target_position p },
        (f.set nx (f.cell p.p.y (target_position p).x)).put p.p.y (target_position p).x
          { f.cell p.p.y (target_position p).x with exists_ := false }) := by
  have hy1 : p.p.y < Y_FIELD_SIZE := by
    simp only [Y_LAST, Y_FIELD_SIZE] at hy ⊢
    omega
  have htx : (target_position p).x = u8 (p.p.x + p.x_direction) := rfl
  rw [htx] at hx hbox hup hnx ⊢
  have hx1 : u8 (p.p.x + p.x_direction) < X_FIELD_SIZE := by
    simp only [X_LAST, X_FIELD_SIZE] at hx ⊢
    omega
  have hne : nx ≠ p.p.y * X_FIELD_SIZE + u8 (p.p.x + p.x_direction) := by
    have := (cell_addr_some _ _ _ hnx).2.1
    simp only [X_FIELD_SIZE] at this ⊢
    omega
  have he : ¬ (((u8 (p.p.x + p.x_direction) : Nat) : Int) < 0 ∨
      u8 (p.p.x + p.x_direction) > X_LAST) := by omega
  have hemp2 : ¬ is_empty (f.cell p.p.y (u8 (p.p.x + p.x_direction))) = true := by
    simp only [is_empty, hbox, Bool.not_true, Bool.false_eq_true, not_false_eq_true]
  unfold horizontal_move
  rw [if_neg hd]
  simp only
  rw [if_neg he, load_grid f _ _ hy1 hx1]
  simp only
  rw [if_neg hemp2, is_movable_eval f ⟨u8 (p.p.x + p.x_direction), p.p.y⟩ p.x_direction hy1 hx1]
  simp only [hnx, hup, hemp, decide_eq_false (by omega : ¬ p.p.y < 2), Bool.or_false,
    Bool.not_false, Bool.and_self, if_true]
  rw [store_addr _ _ _ _ nx hnx]
  simp only
  rw [load_grid _ _ _ hy1 hx1]
  simp only
  rw [store_grid _ _ _ _ hy1 hx1]
  have hread : (f.set nx (f.cell p.p.y (u8 (p.p.x + p.x_direction)))).cell p.p.y
      (u8 (p.p.x + p.x_direction)) = f.cell p.p.y (u8 (p.p.x + p.x_direction)) := by
    simp only [Field.cell]
    exact Field.get_set_ne _ _ _ _ hne
  rw [hread]
  rfl

/-! ## Which boxes a pass moves -/

theorem col_moves_outside (n : Nat) : ∀ (c : Nat → Box) (y : Nat), (y = 0 ∨ n < y) →
    col_moves n c y = false := by
  induction n with
  | zero => intro c y _; rfl
  | succ n ih =>
    intro c y hy
    simp only [col_moves]
    rw [if_neg (by omega)]
    exact ih _ y (by omega)

/-- The body of row `y` moves the box of row `y - 1` exactly when that box exists, its
fall offset is at most 1 before the pass, and the cell of row `y` was empty before the
pass or its box has been moved down by the body of row `y + 1`. -/
theorem col_moves_iff (n : Nat) : ∀ (c : Nat → Box) (y : Nat), 1 ≤ y → y ≤ n →
    (col_moves n c y = true ↔
      (c (y - 1)).exists_ = true ∧ (c (y - 1)).offset ≤ 1 ∧
        ((c y).exists_ = false ∨ col_moves n c (y + 1) = true)) := by
  induction n with
  | zero => intro c y h1 h2; omega
  | succ n ih =>
    intro c y h1 h2
    obtain ⟨s1, s2, s3⟩ := col_step_at n c
    by_cases hy : y = n + 1
    · subst hy
      have hout : col_moves (n + 1) c (n + 1 + 1) = false :=
        col_moves_outside (n + 1) c _ (Or.inr (by omega))
      have hcur : col_moves (n + 1) c (n + 1) =
          drop_pair_moves (decide (n + 1 = Y_LAST)) (c (n + 1)) (c n) := by
        simp only [col_moves, if_true]
      rw [hcur, hout, drop_pair_moves_iff, Nat.add_sub_cancel]
      constructor
      · rintro ⟨a, b, d⟩
        exact ⟨b, d, Or.inl a⟩
      · rintro ⟨b, d, a⟩
        rcases a with a | a
        · exact ⟨a, b, d⟩
        · cases a
    · have hle : y ≤ n := by omega
      have hstep : col_moves (n + 1) c y = col_moves n (col_step (n + 1) c) y := by
        simp only [col_moves]
        rw [if_neg hy]
      rw [hstep, ih (col_step (n + 1) c) y h1 hle]
      have hup : col_step (n + 1) c (y - 1) = c (y - 1) := s3 _ (by omega) (by omega)
      rw [hup]
      by_cases hyn : y = n
      · subst hyn
        have hnext : col_moves (y + 1) c (y + 1) =
            drop_pair_moves (decide (y + 1 = Y_LAST)) (c (y + 1)) (c y) := by
          simp only [col_moves, if_true]
        have hout : col_moves y (col_step (y + 1) c) (y + 1) = false :=
          col_moves_outside y _ _ (Or.inr (by omega))
        have hex : (col_step (y + 1) c y).exists_ =
            if drop_pair_moves (decide (y + 1 = Y_LAST)) (c (y + 1)) (c y) then false
            else (c y).exists_ := by
          rw [s2, drop_pair_snd_exists]
        rw [hout, hex, hnext]
        generalize drop_pair_moves (decide (y + 1 = Y_LAST)) (c (y + 1)) (c y) = m
        cases m <;> simp
      · have hcur : col_step (n + 1) c y = c y := s3 _ (by omega) (by omega)
        have hnext : col_moves (n + 1) c (y + 1) = col_moves n (col_step (n + 1) c) (y + 1) := by
          simp only [col_moves]
          rw [if_neg (by omega)]
        rw [hcur, hnext]

/-- A box that the body of row `y` has moved is, at the end of the pass, in row `y`: one
row below the row it was in, with a fresh fall offset. -/
theorem col_rows_moved (n : Nat) : ∀ (c : Nat → Box) (y : Nat), col_moves n c y = true →
    col_rows n c y = ⟨BOX_HEIGHT, (c (y - 1)).box_id, true⟩ := by
  induction n with
  | zero => intro c y h; cases h
  | succ n ih =>
    intro c y h
    obtain ⟨s1, s2, s3⟩ := col_step_at n c
    simp only [col_moves] at h
    simp only [col_rows]
    by_cases hy : y = n + 1
    · subst hy
      rw [if_pos rfl] at h
      rw [col_rows_above n _ _ (by omega), s1, drop_pair_eq, if_pos h]
      have hex := ((drop_pair_moves_iff _ _ _).mp h).2.1
      simp only [Nat.add_sub_cancel, decrement_exists, decrement_box_id, hex]
    · rw [if_neg hy] at h
      have hle : y ≤ n := by
        by_contra hgt
        rw [col_moves_outside n _ y (Or.inr (by omega))] at h
        cases h
      have h1 : 1 ≤ y := by
        by_contra h0
        rw [col_moves_outside n _ y (Or.inl (by omega))] at h
        cases h
      rw [ih _ y h, s3 _ (by omega) (by omega)]

theorem drop_row_log_mem (y : Nat) (hy0 : 0 < y) (hy : y < Y_FIELD_SIZE)
    (s : Field × List (Nat × Nat)) (e : Nat × Nat) :
    e ∈ (drop_row_log y s).2 ↔
      e ∈ s.2 ∨ (e.1 = y ∧ e.2 < X_FIELD_SIZE ∧
        drop_pair_moves (decide (y = Y_LAST)) (s.1.cell y e.2) (s.1.cell (y - 1) e.2) = true) := by
  unfold drop_row_log
  have key := foldl_range_invariant
    (fun k (t : Field × List (Nat × Nat)) =>
      (∀ y1 x1, x1 < X_FIELD_SIZE → t.1.cell y1 x1 =
        if x1 < k then col_step y (fun r => s.1.cell r x1) y1 else s.1.cell y1 x1) ∧
      (e ∈ t.2 ↔ e ∈ s.2 ∨ (e.1 = y ∧ e.2 < k ∧
        drop_pair_moves (decide (y = Y_LAST)) (s.1.cell y e.2) (s.1.cell (y - 1) e.2) = true)))
    (fun t x => (drop_cell y x t.1, if drop_cell_moves y x t.1 then t.2 ++ [(y, x)] else t.2))
    X_FIELD_SIZE ?_ s ?_
  · exact key.2
  · intro k t hk ⟨hc, hl⟩
    refine ⟨?_, ?_⟩
    · intro y1 x1 hx1
      simp only
      rw [drop_cell_cell t.1 y k y1 x1 hy0 hy hk hx1]
      by_cases hxk : x1 = k
      · subst hxk
        rw [if_pos rfl, if_pos (by omega)]
        congr 1
        funext r
        rw [hc r x1 hx1, if_neg (by omega)]
      · rw [if_neg hxk, hc y1 x1 hx1]
        by_cases hlt : x1 < k
        · rw [if_pos hlt, if_pos (by omega)]
        · rw [if_neg hlt, if_neg (by omega)]
    · simp only
      have hmv := drop_cell_moves_eq t.1 y k hy0 hy hk
      rw [hc y k hk, if_neg (by omega), hc (y - 1) k hk, if_neg (by omega)] at hmv
      by_cases hm : drop_cell_moves y k t.1 = true
      · rw [if_pos hm, List.mem_append, List.mem_singleton, hl]
        rw [hmv] at hm
        constructor
        · rintro (h | h)
          · rcases h with h | ⟨h1, h2, h3⟩
            · exact Or.inl h
            · exact Or.inr ⟨h1, by omega, h3⟩
          · subst h
            exact Or.inr ⟨rfl, by simp, hm⟩
        · rintro (h | ⟨h1, h2, h3⟩)
          · exact Or.inl (Or.inl h)
          · by_cases hek : e.2 = k
            · right
              exact Prod.ext h1 hek
            · exact Or.inl (Or.inr ⟨h1, by omega, h3⟩)
      · rw [if_neg hm, hl]
        rw [hmv] at hm
        constructor
        · rintro (h | ⟨h1, h2, h3⟩)
          · exact Or.inl h
          · exact Or.inr ⟨h1, by omega, h3⟩
        · rintro (h | ⟨h1, h2, h3⟩)
          · exact Or.inl h
          · by_cases hek : e.2 = k
            · rw [hek] at h3
              exact absurd h3 hm
            · exact Or.inr ⟨h1, by omega, h3⟩
  · refine ⟨fun y1 x1 _ => by simp, ?_⟩
    constructor
    · intro h; exact Or.inl h
    · rintro (h | ⟨_, h2, _⟩)
      · exact h
      · omega

theorem drop_rows_log_mem (n : Nat) (hn : n < Y_FIELD_SIZE) :
    ∀ (s : Field × List (Nat × Nat)) (e : Nat × Nat),
      e ∈ (drop_rows_log n s).2 ↔
        e ∈ s.2 ∨ (e.2 < X_FIELD_SIZE ∧ col_moves n (fun r => s.1.cell r e.2) e.1 = true) := by
  induction n with
  | zero =>
    intro s e
    simp only [drop_rows_log, col_moves]
    constructor
    · intro h; exact Or.inl h
    · rintro (h | ⟨_, h⟩)
      · exact h
      · cases h
  | succ n ih =>
    intro s e
    simp only [drop_rows_log]
    rw [ih (by omega) _ e, drop_row_log_mem (n + 1) (by omega) hn s e, drop_row_log_fst]
    have hcol : ∀ x, x < X_FIELD_SIZE →
        (fun r => (drop_row (n + 1) s.1).cell r x) = col_step (n + 1) (fun r => s.1.cell r x) := by
      intro x hx
      funext r
      exact drop_row_cell s.1 (n + 1) r x (by omega) hn hx
    by_cases he : e.1 = n + 1
    · have hnew : col_moves (n + 1) (fun r => s.1.cell r e.2) e.1 =
          drop_pair_moves (decide (n + 1 = Y_LAST)) (s.1.cell (n + 1) e.2) (s.1.cell n e.2) := by
        simp only [col_moves]
        rw [if_pos he]
      rw [hnew]
      constructor
      · rintro ((h | ⟨_, h2, h3⟩) | ⟨h2, h3⟩)
        · exact Or.inl h
        · exact Or.inr ⟨h2, h3⟩
        · rw [col_moves_outside n _ _ (Or.inr (by omega))] at h3
          cases h3
      · rintro (h | ⟨h2, h3⟩)
        · exact Or.inl (Or.inl h)
        · exact Or.inl (Or.inr ⟨he, h2, h3⟩)
    · have hnew : col_moves (n + 1) (fun r => s.1.cell r e.2) e.1 =
          col_moves n (col_step (n + 1) (fun r => s.1.cell r e.2)) e.1 := by
        simp only [col_moves]
        rw [if_neg he]
      rw [hnew]
      constructor
      · rintro ((h | ⟨h1, _, _⟩) | ⟨h2, h3⟩)
        · exact Or.inl h
        · exact absurd h1 he
        · rw [hcol e.2 h2] at h3
          exact Or.inr ⟨h2, h3⟩
      · rintro (h | ⟨h2, h3⟩)
        · exact Or.inl (Or.inl h)
        · rw [← hcol e.2 h2] at h3
          exact Or.inr ⟨h2, h3⟩

/-- The moves that a pass of `drop_box` logs are the moves of its columns. -/
theorem drop_box_log_mem (f : Field) (y x : Nat) :
    (y, x) ∈ (drop_box_log f).2 ↔
      (x < X_FIELD_SIZE ∧ col_moves Y_LAST (fun r => f.cell r x) y = true) := by
  unfold drop_box_log
  rw [drop_rows_log_mem Y_LAST (by decide) (f, []) (y, x)]
  simp

/-- Occupancy of a column after the pass: a cell is occupied when the pass has moved a box
into it, empty when the pass has moved its box out and none in, and as before otherwise. -/
theorem col_rows_exists (n : Nat) : ∀ (c : Nat → Box) (y : Nat),
    (col_rows n c y).exists_ =
      if col_moves n c y = true then true
      else if col_moves n c (y + 1) = true then false else (c y).exists_ := by
  induction n with
  | zero => intro c y; simp [col_rows, col_moves]
  | succ n ih =>
    intro c y
    obtain ⟨s1, s2, s3⟩ := col_step_at n c
    simp only [col_rows]
    rw [ih (col_step (n + 1) c) y]
    have hm1 : col_moves (n + 1) c (n + 1) =
        drop_pair_moves (decide (n + 1 = Y_LAST)) (c (n + 1)) (c n) := by
      simp only [col_moves, if_true]
    have hstep : ∀ r, r ≠ n + 1 → col_moves (n + 1) c r = col_moves n (col_step (n + 1) c) r := by
      intro r hr
      simp only [col_moves]
      rw [if_neg hr]
    rcases Nat.lt_trichotomy y n with hy | hy | hy
    · rw [hstep y (by omega), hstep (y + 1) (by omega), s3 y (by omega) (by omega)]
    · subst hy
      rw [hstep y (by omega), hm1, col_moves_outside y _ (y + 1) (Or.inr (by omega)), s2,
        drop_pair_snd_exists]
      generalize drop_pair_moves (decide (y + 1 = Y_LAST)) (c (y + 1)) (c y) = m
      cases m <;> simp
    · by_cases hy1 : y = n + 1
      · subst hy1
        rw [hm1, col_moves_outside n _ (n + 1) (Or.inr (by omega)),
          col_moves_outside n _ (n + 1 + 1) (Or.inr (by omega)),
          col_moves_outside (n + 1) _ (n + 1 + 1) (Or.inr (by omega)), s1,
          drop_pair_fst_exists]
        generalize drop_pair_moves (decide (n + 1 = Y_LAST)) (c (n + 1)) (c n) = m
        cases m <;> simp
      · rw [col_moves_outside n _ y (Or.inr (by omega)),
          col_moves_outside n _ (y + 1) (Or.inr (by omega)),
          col_moves_outside (n + 1) _ y (Or.inr (by omega)),
          col_moves_outside (n + 1) _ (y + 1) (Or.inr (by omega)), s3 y hy1 (by omega)]

/-! ## The position of the character stays inside the grid -/

theorem horizontal_move_in_grid (p : Person) (f : Field) (b : Bool) (p1 : Person) (f1 : Field)
    (h : horizontal_move p f = .ok (b, p1, f1)) (hin : in_grid p.p) : in_grid p1.p := by
  rcases horizontal_move_cases p f b p1 f1 h with ⟨_, rfl, _⟩ | ⟨_, rfl, _, _, hx, _⟩ |
    ⟨_, rfl, _, hx, _⟩
  · exact hin
  · exact ⟨hx, hin.2⟩
  · exact ⟨hx, hin.2⟩

theorem person_move_horizontal_in_grid (p : Person) (f : Field) (p1 : Person) (f1 : Field)
    (h : person_move_horizontal p f = .ok (p1, f1)) (hin : in_grid p.p) : in_grid p1.p := by
  unfold person_move_horizontal at h
  by_cases h0 : p.h_tick = 0
  · rw [if_pos h0] at h
    simp only [Except.ok.injEq, Prod.mk.injEq] at h
    rw [← h.1]
    exact hin
  · rw [if_neg h0] at h
    by_cases h1 : p.h_tick = 1
    · rw [if_pos h1] at h
      simp only at h
      cases hm : horizontal_move { p with h_tick := i8 (p.h_tick + 1) } f with
      | error e => rw [hm] at h; cases h
      | ok r =>
        obtain ⟨b, pm, fm⟩ := r
        rw [hm] at h
        simp only at h
        have hg := horizontal_move_in_grid _ f b pm fm hm hin
        cases b <;> simp at h <;> rw [← h.1] <;> exact hg
    · rw [if_neg h1] at h
      by_cases h5 : p.h_tick = 5
      · rw [if_pos h5] at h
        simp only [Except.ok.injEq, Prod.mk.injEq] at h
        rw [← h.1]
        exact hin
      · rw [if_neg h5] at h
        simp only [Except.ok.injEq, Prod.mk.injEq] at h
        rw [← h.1]
        exact hin

/-- The vertical switch keeps the character inside the grid, except that the jump step
taken in row 0 leaves it, mid-jump, in a row outside the grid. -/
theorem person_move_vertical_in_grid (p : Person) (f : Field) (p1 : Person)
    (h : person_move_vertical p f = .ok p1) (hin : in_grid p.p) :
    in_grid p1.p ∨ (0 < p1.j_tick ∧ Y_LAST < p1.p.y) := by
  have hx := hin.1
  have hy := hin.2
  have hg := on_ground_eval p f hin
  unfold person_move_vertical at h
  by_cases e0 : p.j_tick = 0
  · rw [if_pos e0, hg] at h
    simp only at h
    by_cases hl : p.p.y = Y_LAST
    · simp only [hl, decide_True, Bool.true_or, Bool.not_true, Bool.false_eq_true, if_false,
        Except.ok.injEq] at h
      rw [← h]
      exact Or.inl hin
    · have hl5 : ¬ p.p.y = 5 := hl
      cases hb : (f.cell (p.p.y + 1) p.p.x).exists_ with
      | true =>
        simp only [hb, Bool.or_true, Bool.not_true, Bool.false_eq_true, if_false,
          Except.ok.injEq] at h
        rw [← h]
        exact Or.inl hin
      | false =>
        simp only [hb, decide_eq_false hl, Bool.or_false, Bool.not_false, if_true,
          Except.ok.injEq] at h
        rw [← h]
        left
        refine ⟨hx, ?_⟩
        simp only [Y_LAST, Y_FIELD_SIZE, u8] at hy hl5 ⊢
        omega
  · rw [if_neg e0] at h
    by_cases e1 : p.j_tick = 1
    · rw [if_pos e1, hg] at h
      simp only at h
      split at h
      · simp only [Except.ok.injEq] at h
        rw [← h]
        by_cases hz : p.p.y = 0
        · right
          simp only [hz, e1, Y_LAST, Y_FIELD_SIZE]
          decide
        · left
          refine ⟨hx, ?_⟩
          simp only [Y_LAST, Y_FIELD_SIZE, u8] at hy ⊢
          omega
      · simp only [Except.ok.injEq] at h
        rw [← h]
        exact Or.inl hin
    · rw [if_neg e1] at h
      by_cases e6 : p.j_tick = 6
      · rw [if_pos e6] at h
        simp only [Except.ok.injEq] at h
        rw [← h]
        exact Or.inl hin
      · rw [if_neg e6] at h
        by_cases e7 : p.j_tick = -6
        · rw [if_pos e7] at h
          simp only [Except.ok.injEq] at h
          rw [← h]
          exact Or.inl hin
        · rw [if_neg e7] at h
          simp only [Except.ok.injEq] at h
          rw [← h]
          exact Or.inl hin

theorem person_move_in_grid (p : Person) (f : Field) (p2 : Person) (f2 : Field)
    (h : person_move p f = .ok (p2, f2)) (hin : in_grid p.p) : in_grid p2.p := by
  obtain ⟨p1, f1, h1, hv, hc⟩ := person_move_ok p f p2 f2 h
  have hin1 := person_move_horizontal_in_grid p f p1 f1 h1 hin
  rcases person_move_vertical_in_grid p1 f1 p2 hv hin1 with hg | ⟨hj, hy⟩
  · exact hg
  · have := (person_move_clear_cells p2 f1 f2 hj hc).2.1
    omega

theorem reset_in_grid : in_grid Person.reset.p := by decide

theorem handle_key_presses_position (k : InputKey) (g : GameState) :
    (handle_key_presses k g).person.p = g.person.p := by
  cases k <;> simp only [handle_key_presses] <;> (try split) <;> rfl

theorem game_tick_in_grid (fuel : Nat) (rand : Nat → Nat) (g g1 : GameState)
    (h : game_tick fuel rand g = .ok g1) (hin : in_grid g.person.p) : in_grid g1.person.p := by
  unfold game_tick at h
  cases hd : is_person_dead g.person g.field with
  | error e => rw [hd] at h; cases h
  | ok dead =>
    rw [hd] at h
    simp only at h
    cases dead with
    | true =>
      simp only [if_true, Except.ok.injEq] at h
      rw [← h]
      exact reset_in_grid
    | false =>
      simp only [Bool.false_eq_true, if_false] at h
      cases hg : generate_box fuel rand { g with field := drop_box g.field } with
      | error e => rw [hg] at h; cases h
      | ok g2 =>
        rw [hg] at h
        simp only at h
        cases hc : clear_rows fuel g2.field with
        | error e => rw [hc] at h; cases h
        | ok f2 =>
          rw [hc] at h
          simp only at h
          cases hp : person_move g2.person f2 with
          | error e => rw [hp] at h; cases h
          | ok r =>
            obtain ⟨p3, f3⟩ := r
            rw [hp] at h
            simp only [Except.ok.injEq] at h
            rw [← h]
            have hper := (generate_box_status fuel rand _ g2 hg).2.2
            refine person_move_in_grid g2.person f2 p3 f3 hp ?_
            rw [hper]
            exact hin

theorem process_event_in_grid (fuel : Nat) (rand : Nat → Nat) (e : GameEvent)
    (g g1 : GameState) (h : process_event fuel rand e g = .ok g1) (hin : in_grid g.person.p) :
    in_grid g1.person.p := by
  unfold process_event at h
  by_cases hp : g.game_status ≠ .GameStatusInProgress
  · rw [if_pos hp] at h
    split at h <;> simp only [Except.ok.injEq] at h <;> rw [← h] <;> exact hin
  · rw [if_neg hp] at h
    by_cases ht : e.type = .EventGameTick
    · rw [if_pos ht] at h
      exact game_tick_in_grid fuel rand g g1 h hin
    · rw [if_neg ht] at h
      split at h
      · simp only [Except.ok.injEq] at h
        rw [← h, handle_key_presses_position]
        exact hin
      · simp only [Except.ok.injEq] at h
        rw [← h]
        exact hin

/-! ## Scenario B: a lone box falling from the spawn row -/

/-- C1, as stated, fails: with the only box at column 0 of row 0 and
`fall_offset = BOX_HEIGHT`, after `BOX_HEIGHT` passes of `drop_box` the floor cell
`(0, Y_LAST)` does not hold a landed box (it is still empty). -/
theorem C1_counterexample :
    ¬ (((drop_box^[BOX_HEIGHT] (lone_box 0 0 BOX_HEIGHT 0)).cell Y_LAST 0).exists_ = true ∧
      ((drop_box^[BOX_HEIGHT] (lone_box 0 0 BOX_HEIGHT 0)).cell Y_LAST 0).offset = 0) := by
  rw [drop_box_lone_iterate 0 0 (by decide) BOX_HEIGHT (0, BOX_HEIGHT) (by decide), lone_next_ten,
    lone_box_cell _ _ _ _ _ _ (by decide) (by decide) (by decide)]
  simp [Box.zero]

/-- C1, amended: for every column `col` and box variant `id`, starting from the grid
whose only box is at `(col, 0)` with `fall_offset = BOX_HEIGHT`, `BOX_HEIGHT` passes of
`drop_box` bring the box one row down, to `(col, 1)` with `fall_offset = BOX_HEIGHT`, and
`BOX_HEIGHT * Y_FIELD_SIZE` passes bring it to the floor: the grid is then the one whose
only box is at `(col, Y_LAST)` with `fall_offset = 0`. -/
theorem C1_lone_box_fall (col id : Nat) (hc : col < X_FIELD_SIZE) :
    drop_box^[BOX_HEIGHT] (lone_box col 0 BOX_HEIGHT id) = lone_box col 1 BOX_HEIGHT id ∧
    drop_box^[BOX_HEIGHT * Y_FIELD_SIZE] (lone_box col 0 BOX_HEIGHT id) =
      lone_box col Y_LAST 0 id := by
  constructor
  · rw [drop_box_lone_iterate col id hc BOX_HEIGHT (0, BOX_HEIGHT) (by decide), lone_next_ten]
  · rw [drop_box_lone_iterate col id hc (BOX_HEIGHT * Y_FIELD_SIZE) (0, BOX_HEIGHT) (by decide),
      lone_next_full]

theorem C1_lone_box_fall_witness :
    3 < X_FIELD_SIZE ∧
    drop_box^[BOX_HEIGHT] (lone_box 3 0 BOX_HEIGHT 2) = lone_box 3 1 BOX_HEIGHT 2 ∧
    drop_box^[BOX_HEIGHT * Y_FIELD_SIZE] (lone_box 3 0 BOX_HEIGHT 2) = lone_box 3 Y_LAST 0 2 :=
  ⟨by decide, C1_lone_box_fall 3 2 (by decide)⟩

/-! ## Scenario A: the spawn counter -/

/-- C2: the generator does not spawn on tick `BOX_GENERATION_RATE` but one tick later.
From the freshly allocated world, for every outcome of the random source,
`BOX_GENERATION_RATE` tick events leave the whole grid empty with the spawn counter at
`BOX_GENERATION_RATE`; the first box appears with tick number `BOX_GENERATION_RATE + 1`,
after which exactly one cell of row 0 has `exists = true` and `fall_offset = BOX_HEIGHT`
and the counter is back at 0: one spawn every `BOX_GENERATION_RATE + 1` ticks. -/
theorem C2_first_spawn_on_tick_sixteen (fuel : Nat) (rand : Nat → Nat) (a : Animations)
    (k : InputKey) (hf : 0 < fuel) :
    (∃ g, process_events fuel rand (List.replicate BOX_GENERATION_RATE (tick_event k))
          (allocGameState a) = .ok g ∧
        g.field = Field.zero ∧ g.tick_count = BOX_GENERATION_RATE) ∧
    (∃ g, process_events fuel rand (List.replicate (BOX_GENERATION_RATE + 1) (tick_event k))
          (allocGameState a) = .ok g ∧
        g.tick_count = 0 ∧
        ∃! x, x < X_FIELD_SIZE ∧ (g.field.cell 0 x).exists_ = true ∧
          (g.field.cell 0 x).offset = BOX_HEIGHT) := by
  obtain ⟨n, rfl⟩ : ∃ n, fuel = n + 1 := ⟨fuel - 1, by omega⟩
  have h15 := process_events_idle n rand a k BOX_GENERATION_RATE 0 (by decide)
  have h0 : idle_world a 0 = allocGameState a := rfl
  rw [h0] at h15
  refine ⟨⟨_, h15, rfl, rfl⟩, ?_⟩
  have hx : rand 0 % X_FIELD_SIZE < X_FIELD_SIZE := Nat.mod_lt _ (by decide)
  have h16 : process_events (n + 1) rand
      (List.replicate (BOX_GENERATION_RATE + 1) (tick_event k)) (allocGameState a) =
      .ok { idle_world a 0 with
        field := Field.zero.put 0 (rand 0 % X_FIELD_SIZE) ⟨BOX_HEIGHT, rand 1 % 5, true⟩,
        rand_pos := 2 } := by
    rw [List.replicate_succ', process_events_append _ _ _ _ _ _ h15]
    simp only [process_events]
    have hstep : process_event (n + 1) rand (tick_event k) (idle_world a (0 + BOX_GENERATION_RATE)) =
        game_tick (n + 1) rand (idle_world a BOX_GENERATION_RATE) := by
      simp [process_event, tick_event, idle_world, allocGameState, game_reset_field_and_player]
    rw [hstep, game_tick_spawn]
  refine ⟨_, h16, rfl, rand 0 % X_FIELD_SIZE, ?_, ?_⟩
  · simp only
    rw [Field.cell_put_same _ _ _ _ (by decide) hx]
    exact ⟨hx, rfl, rfl⟩
  · intro x hxx
    simp only at hxx
    obtain ⟨hx12, he, _⟩ := hxx
    rw [Field.cell_put _ _ _ _ _ _ (by decide) hx hx12] at he
    by_contra hne
    rw [if_neg (by simp [hne]), Field.cell_zero] at he
    simp [Box.zero] at he

theorem C2_first_spawn_on_tick_sixteen_witness :
    (0 < 1) ∧
    (∃ g, process_events 1 (fun _ => 7) (List.replicate BOX_GENERATION_RATE (tick_event .InputKeyUp))
          (allocGameState .AnimationGameOver) = .ok g ∧
        g.field = Field.zero ∧ g.tick_count = BOX_GENERATION_RATE) ∧
    (∃ g, process_events 1 (fun _ => 7)
          (List.replicate (BOX_GENERATION_RATE + 1) (tick_event .InputKeyUp))
          (allocGameState .AnimationGameOver) = .ok g ∧
        g.tick_count = 0 ∧
        ∃! x, x < X_FIELD_SIZE ∧ (g.field.cell 0 x).exists_ = true ∧
          (g.field.cell 0 x).offset = BOX_HEIGHT) :=
  ⟨by decide, C2_first_spawn_on_tick_sixteen 1 (fun _ => 7) .AnimationGameOver .InputKeyUp
    (by decide)⟩

/-! ## The cell predicate -/

/-- C3, as stated, fails for the push: the grid with one box still falling
(`fall_offset = 4`) at `(7, Y_LAST)` satisfies the cell predicate; the character at
`(6, Y_LAST)` moving right pushes it to column 8, and the vacated cell `(7, Y_LAST)` is
left with `exists = false` and `fall_offset = 4`. -/
theorem C3_counterexample :
    grid_ok (lone_box 7 Y_LAST 4 0) ∧
    horizontal_move ⟨⟨6, Y_LAST⟩, 1, 0, 1, true⟩ (lone_box 7 Y_LAST 4 0) =
      .ok (true, ⟨⟨7, Y_LAST⟩, 1, 0, 1, true⟩, (lone_box 8 Y_LAST 4 0).put Y_LAST 7 ⟨4, 0, false⟩) ∧
    ¬ grid_ok ((lone_box 8 Y_LAST 4 0).put Y_LAST 7 ⟨4, 0, false⟩) := by
  decide

/-- C3, amended. The range half of the cell predicate (`fall_offset ≤ BOX_HEIGHT` in every
cell) holds for the reset grid and is preserved by `drop_box`, `generate_box`, `clear_rows`,
`horizontal_move` and `person_move`. The full predicate (also: an empty cell has
`fall_offset = 0`) holds for the reset grid and is preserved by `drop_box`, `generate_box`
and `clear_rows`, and by `horizontal_move` and `person_move` whenever the cell the move
aims at has `fall_offset = 0` (it is empty, or the box pushed has landed); a push only
clears the `exists` flag of the vacated cell and keeps its `fall_offset`. -/
theorem C3_cell_predicate_preserved (f : Field) (ho : offset_ok f) :
    (grid_ok Field.zero ∧ offset_ok (drop_box f) ∧
      (∀ fuel rand g g1, g.field = f → generate_box fuel rand g = .ok g1 →
        offset_ok g1.field) ∧
      (∀ fuel f1, clear_rows fuel f = .ok f1 → offset_ok f1) ∧
      (∀ p b p1 f1, horizontal_move p f = .ok (b, p1, f1) → offset_ok f1) ∧
      (∀ p p1 f1, person_move p f = .ok (p1, f1) → offset_ok f1)) ∧
    (grid_ok f →
      grid_ok (drop_box f) ∧
      (∀ fuel rand g g1, g.field = f → generate_box fuel rand g = .ok g1 →
        grid_ok g1.field) ∧
      (∀ fuel f1, clear_rows fuel f = .ok f1 → grid_ok f1) ∧
      (∀ p b p1 f1, horizontal_move p f = .ok (b, p1, f1) →
        (f.cell p.p.y (target_position p).x).offset = 0 → grid_ok f1) ∧
      (∀ p p1 f1, person_move p f = .ok (p1, f1) →
        (p.h_tick = 1 → (f.cell p.p.y (target_position p).x).offset = 0) → grid_ok f1)) := by
  refine ⟨⟨by decide, drop_box_offset_ok f ho, ?_, ?_, ?_, ?_⟩, fun hf => ⟨drop_box_grid_ok f hf,
    ?_, ?_, ?_, ?_⟩⟩
  · intro fuel rand g g1 hg h
    exact generate_box_offset_ok fuel rand g g1 h (hg ▸ ho)
  · intro fuel f1 h
    exact clear_rows_offset_ok fuel f f1 h ho
  · intro p b p1 f1 h
    exact horizontal_move_offset_ok p f b p1 f1 h ho
  · intro p p1 f1 h
    exact person_move_offset_ok p f p1 f1 h ho
  · intro fuel rand g g1 hg h
    exact generate_box_grid_ok fuel rand g g1 h (hg ▸ hf)
  · intro fuel f1 h
    exact clear_rows_grid_ok fuel f f1 h hf
  · intro p b p1 f1 h hl
    exact horizontal_move_grid_ok p f b p1 f1 h hf hl
  · intro p p1 f1 h hl
    exact person_move_grid_ok p f p1 f1 h hf hl

theorem C3_cell_predicate_preserved_witness :
    offset_ok (lone_box 7 Y_LAST 0 0) ∧
    grid_ok (drop_box (lone_box 7 Y_LAST 0 0)) ∧
    grid_ok ((lone_box 8 Y_LAST 0 0).put Y_LAST 7 ⟨0, 0, false⟩) :=
  ⟨by decide,
    ((C3_cell_predicate_preserved (lone_box 7 Y_LAST 0 0) (by decide)).2 (by decide)).1,
    ((C3_cell_predicate_preserved (lone_box 7 Y_LAST 0 0) (by decide)).2 (by decide)).2.2.2.1
      ⟨⟨6, Y_LAST⟩, 1, 0, 1, true⟩ true ⟨⟨7, Y_LAST⟩, 1, 0, 1, true⟩
      ((lone_box 8 Y_LAST 0 0).put Y_LAST 7 ⟨0, 0, false⟩) (by decide) (by decide)⟩

/-! ## The number of occupied cells -/

set_option maxRecDepth 100000 in
/-- C4: for every grid and every character state, a pass of `drop_box` leaves the number
of occupied cells unchanged, and so does every call of `horizontal_move` that returns,
whether it walks, pushes or is rejected; a call of `generate_box` leaves the number
unchanged or raises it by one, and `clear_rows` and `person_move` (whose only loss is the
mid-jump clear) never raise it. But with the character inside the grid `horizontal_move`
does not always return, and then no count is kept. It ends in a memory fault in exactly
two cases: the cell it aims at holds a box and the cell after it,
`field[y][x + x_direction]`, lies outside the block; or the cell it aims at is an empty
cell of the floor row, where the ground check loads the row pointer `field[Y_LAST + 1]`.
With the character at `(10, 5)` moving right against the box at `(11, 5)` the push reads
`field[5][12]`, the cell after the last cell of the block, and the tick ends in the
fault. -/
theorem C4_occupied_cells (f : Field) (p : Person) :
    occupied (drop_box f) = occupied f ∧
    (∀ b p1 f1, horizontal_move p f = .ok (b, p1, f1) → occupied f1 = occupied f) ∧
    (∀ fuel rand g g1, g.field = f → generate_box fuel rand g = .ok g1 →
      occupied g1.field = occupied f ∨ occupied g1.field = occupied f + 1) ∧
    (∀ fuel f1, clear_rows fuel f = .ok f1 → occupied f1 ≤ occupied f) ∧
    (∀ p1 f1, person_move p f = .ok (p1, f1) → occupied f1 ≤ occupied f) ∧
    (in_grid p.p →
      (∃ r, horizontal_move p f = .ok r) ∨
      ((f.cell p.p.y (target_position p).x).exists_ = true ∧
        cell_addr p.p.y ((target_position p).x + p.x_direction) = none ∧
        horizontal_move p f = .error .out_of_bounds) ∨
      (p.x_direction ≠ 0 ∧ (target_position p).x ≤ X_LAST ∧
        (f.cell p.p.y (target_position p).x).exists_ = false ∧ p.p.y = Y_LAST ∧
        horizontal_move p f = .error .out_of_bounds)) ∧
    (in_grid (⟨10, 5⟩ : Position) ∧ occupied (lone_box 11 5 0 1) = 1 ∧
      cell_addr 5 (11 + 1) = none ∧
      horizontal_move ⟨⟨10, 5⟩, 1, 0, 2, true⟩ (lone_box 11 5 0 1) = .error .out_of_bounds ∧
      person_move ⟨⟨10, 5⟩, 1, 0, 1, true⟩ (lone_box 11 5 0 1) = .error .out_of_bounds ∧
      process_event 1 (fun _ => 0) (tick_event .InputKeyRight)
          ⟨lone_box 11 5 0 1, ⟨⟨10, 5⟩, 1, 0, 1, true⟩, .AnimationPause,
            .GameStatusInProgress, 0, 0⟩ = .error .out_of_bounds) := by
  refine ⟨drop_box_occupied f, fun b p1 f1 h => horizontal_move_occupied p f b p1 f1 h, ?_,
    fun fuel f1 h => clear_rows_occupied fuel f f1 h,
    fun p1 f1 h => person_move_occupied p f p1 f1 h,
    fun hp => horizontal_move_returns p f hp, by decide⟩
  intro fuel rand g g1 hg h
  subst hg
  exact generate_box_occupied fuel rand g g1 h

/-! ## The crush rule -/

/-- C5 (crush rule): for every world with status `InProgress` whose character is inside
the grid, below row 0, with the cell directly above it occupied, a tick event yields status
`Over` with the game-over overlay selected, the zeroed grid and the character reset to
`(X_FIELD_SIZE / 2, Y_LAST)` with all counters 0; nothing else changes, so no physics or
character step has run (spawn counter and random source are untouched). -/
theorem C5_crush_resets (fuel : Nat) (rand : Nat → Nat) (k : InputKey) (g : GameState)
    (hs : g.game_status = .GameStatusInProgress) (hx : g.person.p.x ≤ X_LAST)
    (hy1 : 1 ≤ g.person.p.y) (hy : g.person.p.y ≤ Y_LAST)
    (hocc : (g.field.cell (g.person.p.y - 1) g.person.p.x).exists_ = true) :
    process_event fuel rand (tick_event k) g =
      .ok { g with game_status := .GameStatusOver, animation := .AnimationGameOver,
                   field := Field.zero,
                   person := ⟨⟨X_FIELD_SIZE / 2, Y_LAST⟩, 0, 0, 0, false⟩ } ∧
    ∀ i, Field.zero.get i = ⟨0, 0, false⟩ := by
  refine ⟨?_, fun i => Field.get_zero i⟩
  simp [process_event, tick_event, hs, game_tick, is_person_dead_grid g.person g.field hx hy1 hy,
    hocc, game_reset_field_and_player, Person.reset]

theorem C5_crush_resets_witness :
    process_event 0 (fun _ => 0) (tick_event .InputKeyUp)
        ⟨lone_box 6 4 0 0, Person.reset, .AnimationPause, .GameStatusInProgress, 3, 0⟩ =
      .ok ⟨Field.zero, ⟨⟨6, 5⟩, 0, 0, 0, false⟩, .AnimationGameOver, .GameStatusOver, 3, 0⟩ ∧
    ∀ i, Field.zero.get i = ⟨0, 0, false⟩ :=
  C5_crush_resets 0 (fun _ => 0) .InputKeyUp
    ⟨lone_box 6 4 0 0, Person.reset, .AnimationPause, .GameStatusInProgress, 3, 0⟩
    rfl (by decide) (by decide) (by decide) (by decide)

/-! ## The position of the character -/

/-- C6: the character's position is inside the grid (`0 ≤ x ≤ X_LAST`, `0 ≤ y ≤ Y_LAST`,
the coordinates being `uint8_t`) in the reset state and in the freshly allocated game, and
it stays inside the grid: for every world whose character is inside the grid, every event
(a tick or a key press, in every status) that the consumer loop processes to its end
leaves the character inside the grid. So does every returning call of `person_move` for
every grid, the jump step that decrements the row and the fall step that increments it
included, and `handle_key_presses` for every key, which does not touch the position. -/
theorem C6_position_in_grid (fuel : Nat) (rand : Nat → Nat) (e : GameEvent)
    (g g1 : GameState) (hin : in_grid g.person.p)
    (h : process_event fuel rand e g = .ok g1) :
    in_grid g1.person.p ∧
    in_grid Person.reset.p ∧ (∀ a, in_grid (allocGameState a).person.p) ∧
    in_grid (game_reset_field_and_player g).person.p ∧
    (∀ f p1 f1, person_move g.person f = .ok (p1, f1) → in_grid p1.p) ∧
    (∀ k, (handle_key_presses k g).person.p = g.person.p) := by
  refine ⟨process_event_in_grid fuel rand e g g1 h hin, reset_in_grid, fun _ => reset_in_grid,
    reset_in_grid, fun f p1 f1 hm => person_move_in_grid _ f p1 f1 hm hin,
    fun k => handle_key_presses_position k g⟩

set_option maxRecDepth 100000 in
theorem C6_position_in_grid_witness :
    in_grid (⟨6, 4⟩ : Position) ∧
    process_event 1 (fun _ => 0) (tick_event .InputKeyUp)
        ⟨Field.zero, ⟨⟨6, 5⟩, 0, 1, 0, false⟩, .AnimationPause, .GameStatusInProgress, 0, 0⟩ =
      .ok ⟨Field.zero, ⟨⟨6, 4⟩, 0, 2, 0, false⟩, .AnimationPause, .GameStatusInProgress, 1, 0⟩ :=
  ⟨(C6_position_in_grid 1 (fun _ => 0) (tick_event .InputKeyUp)
      ⟨Field.zero, ⟨⟨6, 5⟩, 0, 1, 0, false⟩, .AnimationPause, .GameStatusInProgress, 0, 0⟩
      ⟨Field.zero, ⟨⟨6, 4⟩, 0, 2, 0, false⟩, .AnimationPause, .GameStatusInProgress, 1, 0⟩
      (by decide) (by decide)).1, by decide⟩

/-! ## The conditions of a push -/

/-- C7, as stated, fails: the target `(7, Y_LAST)` holds a box, the cell two rows above
the target, `(7, Y_LAST - 2)`, is occupied, and the push still succeeds (the box moves to
column 8), because the code looks at the cell one row above the target. -/
theorem C7_counterexample :
    (((lone_box 7 Y_LAST 0 0).put (Y_LAST - 2) 7 ⟨0, 0, true⟩).cell Y_LAST 7).exists_ = true ∧
    (((lone_box 7 Y_LAST 0 0).put (Y_LAST - 2) 7 ⟨0, 0, true⟩).cell (Y_LAST - 2) 7).exists_ = true ∧
    horizontal_move ⟨⟨6, Y_LAST⟩, 1, 0, 1, true⟩
        ((lone_box 7 Y_LAST 0 0).put (Y_LAST - 2) 7 ⟨0, 0, true⟩) =
      .ok (true, ⟨⟨7, Y_LAST⟩, 1, 0, 1, true⟩,
        (lone_box 8 Y_LAST 0 0).put (Y_LAST - 2) 7 ⟨0, 0, true⟩) := by
  decide

/-- C7, amended: when the cell `horizontal_move` aims at holds a box, the move succeeds
only if (a) the target is in row 2 or below and the cell directly above the target (one
row up, where the character's upper half goes) is not occupied, and (b) the next cell
beyond the target in the push direction, `field[y][x + x_direction]`, is a cell of the
block and is empty. -/
theorem C7_push_conditions (p : Person) (f : Field) (p1 : Person) (f1 : Field)
    (hbox : (f.cell p.p.y (target_position p).x).exists_ = true)
    (h : horizontal_move p f = .ok (true, p1, f1)) :
    2 ≤ p.p.y ∧
    (f.cell (p.p.y - 1) (target_position p).x).exists_ = false ∧
    ∃ nx, cell_addr p.p.y ((target_position p).x + p.x_direction) = some nx ∧
      (f.get nx).exists_ = false := by
  rcases horizontal_move_cases p f true p1 f1 h with h1 | h1 | h1
  · exact absurd h1.1 (by decide)
  · obtain ⟨_, _, _, _, hle, it, hit, hemp, _⟩ := h1
    have hidx : it = p.p.y * X_FIELD_SIZE + (target_position p).x := by
      have := (cell_addr_some _ _ _ hit).2.1
      simp only [X_FIELD_SIZE] at this ⊢
      omega
    rw [hidx] at hemp
    simp only [Field.cell] at hbox
    rw [hbox] at hemp
    cases hemp
  · obtain ⟨_, _, _, hle, it, nx, _, _, _, _, hm, _⟩ := h1
    obtain ⟨h2, ⟨iu, hiu, hue⟩, hn⟩ := is_movable_true f _ _ hm
    simp only [target_position] at h2 hiu hn hle ⊢
    refine ⟨h2, ?_, hn⟩
    have hidx : iu = (p.p.y - 1) * X_FIELD_SIZE + u8 (↑p.p.x + p.x_direction) := by
      have := (cell_addr_some _ _ _ hiu).2.1
      simp only [X_FIELD_SIZE] at this ⊢
      omega
    rw [hidx] at hue
    exact hue

theorem C7_push_conditions_witness :
    2 ≤ Y_LAST ∧
    ((lone_box 7 Y_LAST 0 0).cell (Y_LAST - 1) 7).exists_ = false ∧
    ∃ nx, cell_addr (Y_LAST : Nat) (((7 : Nat) : Int) + 1) = some nx ∧
      ((lone_box 7 Y_LAST 0 0).get nx).exists_ = false :=
  C7_push_conditions ⟨⟨6, Y_LAST⟩, 1, 0, 1, true⟩ (lone_box 7 Y_LAST 0 0)
    ⟨⟨7, Y_LAST⟩, 1, 0, 1, true⟩ ((lone_box 8 Y_LAST 0 0).put Y_LAST 7 ⟨0, 0, false⟩)
    (by decide) (by decide)

/-! ## The order of the moves of one pass -/

set_option maxRecDepth 100000 in
/-- C8, as stated, fails: with landed boxes at rows 2 and 3 of column 0 and row 4 empty,
one pass of `drop_box` moves the box of row 3 down (the body at `(4, 0)` moves it) and, in
the same pass, also moves the box of row 2 (the body at `(3, 0)` moves it into the cell
just vacated). -/
theorem C8_counterexample :
    (stacked_pair.cell 3 0).exists_ = true ∧ (stacked_pair.cell 2 0).exists_ = true ∧
    (drop_box_log stacked_pair).2 = [(4, 0), (3, 0)] ∧
    (drop_box_log stacked_pair).1 = (lone_box 0 4 BOX_HEIGHT 1).put 3 0 ⟨BOX_HEIGHT, 2, true⟩ := by
  decide

/-- C8, amended: in one pass of `drop_box` the loop body at `(y, x)` moves the box of
`(y - 1, x)` down into `(y, x)` exactly when `1 ≤ y ≤ Y_LAST`, that box exists, its fall
offset before the pass is at most 1 (it has landed once the pass has decremented it), and
the cell `(y, x)` was empty before the pass or its own box has been moved down in the same
pass. So the box of row `y - 1` does follow the box of row `y` into the vacated cell in
the same pass when it has landed. The moves are made in the order of the loops, from the
floor row upward and left to right within a row, so the row a box has been moved into is
never the upper row of a later move of the pass: after the pass the cell `(y, x)` of every
move holds the box that was in `(y - 1, x)` (same variant) with `fall_offset = BOX_HEIGHT`,
exactly one row below where it was. A cell into which no box has been moved is empty after
the pass if its box has been moved out, and is occupied as before otherwise. -/
theorem C8_moves_bottom_to_top (f : Field) :
    (drop_box_log f).1 = drop_box f ∧
    (drop_box_log f).2.Pairwise (fun a b => b.1 < a.1 ∨ (b.1 = a.1 ∧ a.2 < b.2)) ∧
    (∀ y x l1 l2, (drop_box_log f).2 = l1 ++ (y + 1, x) :: l2 → (y + 2, x) ∉ l2) ∧
    (∀ y x, (y, x) ∈ (drop_box_log f).2 ↔
      (1 ≤ y ∧ y ≤ Y_LAST ∧ x < X_FIELD_SIZE ∧
        (f.cell (y - 1) x).exists_ = true ∧ (f.cell (y - 1) x).offset ≤ 1 ∧
        ((f.cell y x).exists_ = false ∨ (y + 1, x) ∈ (drop_box_log f).2))) ∧
    (∀ y x, (y, x) ∈ (drop_box_log f).2 →
      (drop_box f).cell y x = ⟨BOX_HEIGHT, (f.cell (y - 1) x).box_id, true⟩) ∧
    (∀ y x, x < X_FIELD_SIZE → (y, x) ∉ (drop_box_log f).2 →
      ((y + 1, x) ∈ (drop_box_log f).2 → ((drop_box f).cell y x).exists_ = false) ∧
      ((y + 1, x) ∉ (drop_box_log f).2 →
        ((drop_box f).cell y x).exists_ = (f.cell y x).exists_)) := by
  refine ⟨drop_box_log_fst f, drop_box_log_ordered f, ?_, ?_, ?_, ?_⟩
  · intro y x l1 l2 hl hmem
    have hp := drop_box_log_ordered f
    rw [hl, List.pairwise_append] at hp
    have := (List.pairwise_cons.mp hp.2.1).1 _ hmem
    simp only [runs_before] at this
    omega
  · intro y x
    rw [drop_box_log_mem f y x, drop_box_log_mem f (y + 1) x]
    constructor
    · rintro ⟨hx, hm⟩
      have h1 : 1 ≤ y := by
        by_contra h0
        rw [col_moves_outside Y_LAST _ y (Or.inl (by omega))] at hm
        cases hm
      have h2 : y ≤ Y_LAST := by
        by_contra h0
        rw [col_moves_outside Y_LAST _ y (Or.inr (by omega))] at hm
        cases hm
      obtain ⟨a, b, d⟩ := (col_moves_iff Y_LAST (fun r => f.cell r x) y h1 h2).mp hm
      refine ⟨h1, h2, hx, a, b, ?_⟩
      rcases d with d | d
      · exact Or.inl d
      · exact Or.inr ⟨hx, d⟩
    · rintro ⟨h1, h2, hx, a, b, d⟩
      refine ⟨hx, (col_moves_iff Y_LAST (fun r => f.cell r x) y h1 h2).mpr ⟨a, b, ?_⟩⟩
      rcases d with d | d
      · exact Or.inl d
      · exact Or.inr d.2
  · intro y x hm
    obtain ⟨hx, hm⟩ := (drop_box_log_mem f y x).mp hm
    rw [drop_box_cell f y x hx]
    exact col_rows_moved Y_LAST (fun r => f.cell r x) y hm
  · intro y x hx hn
    rw [drop_box_log_mem f y x] at hn
    rw [drop_box_log_mem f (y + 1) x, drop_box_cell f y x hx,
      col_rows_exists Y_LAST (fun r => f.cell r x) y]
    have hn1 : ¬ col_moves Y_LAST (fun r => f.cell r x) y = true := fun h => hn ⟨hx, h⟩
    rw [if_neg hn1]
    refine ⟨fun h => ?_, fun h => ?_⟩
    · rw [if_pos h.2]
    · rw [if_neg (fun h2 => h ⟨hx, h2⟩)]

/-! ## The frame of `generate_box` -/

/-- C9: a call of `generate_box` whose counter is not at the threshold returns with the
grid unchanged. A call whose counter is at the threshold returns as soon as one of the
draws the fuel allows hits an empty column of row 0, and whenever it returns it has
written one cell of row 0: that cell was empty before the call and afterwards has
`exists = true`, `fall_offset = BOX_HEIGHT` and a variant in `0..4`, and every other cell
of the grid is unchanged. -/
theorem C9_generate_box_frame (fuel : Nat) (rand : Nat → Nat) (g : GameState) :
    (g.tick_count ≠ BOX_GENERATION_RATE →
      ∃ g1, generate_box fuel rand g = .ok g1 ∧ g1.field = g.field) ∧
    (g.tick_count = BOX_GENERATION_RATE →
      (∃ k, k < fuel ∧
        (g.field.cell 0 (rand (g.rand_pos + k) % X_FIELD_SIZE)).exists_ = false) →
      ∃ g1, generate_box fuel rand g = .ok g1) ∧
    (g.tick_count = BOX_GENERATION_RATE →
      ∀ g1, generate_box fuel rand g = .ok g1 →
        ∃ x, x < X_FIELD_SIZE ∧ (g.field.cell 0 x).exists_ = false ∧
          (g1.field.cell 0 x).exists_ = true ∧ (g1.field.cell 0 x).offset = BOX_HEIGHT ∧
          (g1.field.cell 0 x).box_id < 5 ∧
          ∀ y1 x1, y1 < Y_FIELD_SIZE → x1 < X_FIELD_SIZE → ¬ (y1 = 0 ∧ x1 = x) →
            g1.field.cell y1 x1 = g.field.cell y1 x1) := by
  refine ⟨?_, ?_, ?_⟩
  · intro hc
    refine ⟨{ g with tick_count := (g.tick_count + 1) % 256 }, ?_, rfl⟩
    simp [generate_box, hc]
  · intro hc hk
    obtain ⟨r, hr⟩ := pick_column_total rand g.field fuel g.rand_pos hk
    simp only [generate_box, hc, ne_eq, not_true_eq_false, if_false, hr]
    exact ⟨_, rfl⟩
  · intro hc g1 h
    rcases generate_box_spec fuel rand g g1 h with ⟨hne, _⟩ | ⟨_, x, pos, _, hx, hemp, rfl⟩
    · exact absurd hc hne
    · refine ⟨x, hx, hemp, ?_, ?_, ?_, ?_⟩
      · simp only [Field.cell_put_same _ _ _ _ (by decide : 0 < Y_FIELD_SIZE) hx]
      · simp only [Field.cell_put_same _ _ _ _ (by decide : 0 < Y_FIELD_SIZE) hx]
      · simp only [Field.cell_put_same _ _ _ _ (by decide : 0 < Y_FIELD_SIZE) hx]
        exact Nat.mod_lt _ (by decide)
      · intro y1 x1 _ hx1 hne
        simp only
        rw [Field.cell_put _ _ _ _ _ _ (by decide) hx hx1, if_neg hne]

/-! ## The row clearing -/

/-- C10: for every grid, `clear_rows` returns as soon as it has fuel for two calls
(it recurses at most once); afterwards the floor row is not full and landed (some floor
cell is empty or has `fall_offset > 0`), rows `0..Y_LAST - 1` are unchanged, and a grid
whose floor row was not full and landed is returned unchanged. -/
theorem C10_clear_rows (fuel : Nat) (f : Field) :
    ∃ f1, clear_rows (fuel + 2) f = .ok f1 ∧
      (∃ x, x < X_FIELD_SIZE ∧
        ((f1.cell Y_LAST x).exists_ = false ∨ (f1.cell Y_LAST x).offset ≠ 0)) ∧
      (∀ y x, y < Y_LAST → x < X_FIELD_SIZE → f1.cell y x = f.cell y x) ∧
      ((∃ x, x < X_FIELD_SIZE ∧
        ((f.cell Y_LAST x).exists_ = false ∨ (f.cell Y_LAST x).offset ≠ 0)) → f1 = f) := by
  refine ⟨_, clear_rows_eq fuel f, ?_, ?_, ?_⟩
  · rw [← floor_incomplete_iff]
    by_cases h : floor_incomplete f = true
    · rw [if_pos h]; exact h
    · rw [if_neg h]; exact floor_incomplete_clear_floor f
  · intro y x hy hx
    by_cases h : floor_incomplete f = true
    · rw [if_pos h]
    · rw [if_neg h, clear_floor_cell f y x hx, if_neg (by omega)]
  · intro h
    rw [← floor_incomplete_iff] at h
    rw [if_pos h]

/-! ## The Back key and the status `Exit` -/

/-- C11, as stated, fails: in a paused world a press of Back leaves the status `Paused`
(only the loop ends), and from status `Exit` the dispatch returns to `InProgress` on a
press of Ok. -/
theorem C11_counterexample :
    process_event 0 (fun _ => 0) (key_event .InputKeyBack)
        ⟨Field.zero, Person.reset, .AnimationPause, .GameStatusPause, 0, 0⟩ =
      .ok ⟨Field.zero, Person.reset, .AnimationPause, .GameStatusPause, 0, 0⟩ ∧
    process_event 0 (fun _ => 0) (key_event .InputKeyOk)
        ⟨Field.zero, Person.reset, .AnimationPause, .GameStatusExit, 0, 0⟩ =
      .ok ⟨Field.zero, Person.reset, .AnimationPause, .GameStatusInProgress, 0, 0⟩ := by
  decide

/-- C11, amended: in every status a press of Back is the last event the consumer loop
processes, whatever events follow it. It sets the status to `Exit` when the status was
`InProgress` and leaves the world as it is when the status was `Paused` or `Over`. The
status `Exit` is entered by no other event, so the loop never processes an event in it. -/
theorem C11_back_ends_the_loop (fuel : Nat) (rand : Nat → Nat) (g : GameState) :
    (∀ es, consumer_loop fuel rand (key_event .InputKeyBack :: es) g =
      process_event fuel rand (key_event .InputKeyBack) g) ∧
    (g.game_status = .GameStatusInProgress →
      process_event fuel rand (key_event .InputKeyBack) g =
        .ok { g with game_status := .GameStatusExit }) ∧
    (g.game_status ≠ .GameStatusInProgress →
      process_event fuel rand (key_event .InputKeyBack) g = .ok g) ∧
    (g.game_status ≠ .GameStatusExit →
      ∀ e g1, process_event fuel rand e g = .ok g1 → g1.game_status = .GameStatusExit →
        e = key_event .InputKeyBack) := by
  refine ⟨?_, ?_, ?_, fun hs e g1 h h1 => process_event_exit fuel rand e g g1 h hs h1⟩
  · intro es
    simp only [consumer_loop, key_event]
    cases process_event fuel rand ⟨.EventKeyPress, .InputKeyBack⟩ g <;> simp
  · intro hs
    simp [process_event, key_event, hs, handle_key_presses]
  · intro hs
    simp [process_event, key_event, hs]

/-! ## Scenario D: pause and resume -/

/-- C12: for every world with status `InProgress`, a press of a key other than Up, Left,
Right and Back sets the status to `Paused` (pause overlay selected) and leaves grid,
character and spawn counter unchanged; any number of tick events after it change nothing,
and a press of Ok then returns the status to `InProgress` with grid, character, spawn
counter and random source as they were before pausing. -/
theorem C12_pause_and_resume (fuel : Nat) (rand : Nat → Nat) (g : GameState) (key k : InputKey)
    (n : Nat) (hs : g.game_status = .GameStatusInProgress)
    (hk : key ≠ .InputKeyUp ∧ key ≠ .InputKeyLeft ∧ key ≠ .InputKeyRight ∧
      key ≠ .InputKeyBack) :
    process_event fuel rand (key_event key) g =
      .ok { g with game_status := .GameStatusPause, animation := .AnimationPause } ∧
    process_events fuel rand (key_event key :: List.replicate n (tick_event k)) g =
      .ok { g with game_status := .GameStatusPause, animation := .AnimationPause } ∧
    process_events fuel rand
        (key_event key :: (List.replicate n (tick_event k) ++ [key_event .InputKeyOk])) g =
      .ok { g with animation := .AnimationPause } := by
  have h1 : process_event fuel rand (key_event key) g =
      .ok { g with game_status := .GameStatusPause, animation := .AnimationPause } := by
    obtain ⟨h1, h2, h3, h4⟩ := hk
    cases key <;> simp_all [process_event, key_event, handle_key_presses]
  have h2 : ∀ m, process_events fuel rand (List.replicate m (tick_event k))
      { g with game_status := .GameStatusPause, animation := .AnimationPause } =
      .ok { g with game_status := .GameStatusPause, animation := .AnimationPause } := by
    intro m
    induction m with
    | zero => rfl
    | succ m ih =>
      simp only [List.replicate_succ, process_events]
      have : process_event fuel rand (tick_event k)
          { g with game_status := .GameStatusPause, animation := .AnimationPause } =
          .ok { g with game_status := .GameStatusPause, animation := .AnimationPause } := by
        simp [process_event, tick_event]
      rw [this]
      exact ih
  refine ⟨h1, ?_, ?_⟩
  · simp only [process_events, h1]
    exact h2 n
  · simp only [process_events, h1]
    rw [process_events_append fuel rand _ _ _ _ (h2 n)]
    simp [process_events, process_event, key_event, hs]

theorem C12_pause_and_resume_witness :
    process_event 1 (fun _ => 0) (key_event .InputKeyDown)
        ⟨lone_box 3 2 4 1, Person.reset, .AnimationGameOver, .GameStatusInProgress, 7, 0⟩ =
      .ok ⟨lone_box 3 2 4 1, Person.reset, .AnimationPause, .GameStatusPause, 7, 0⟩ ∧
    process_events 1 (fun _ => 0)
        (key_event .InputKeyDown :: List.replicate 2 (tick_event .InputKeyUp))
        ⟨lone_box 3 2 4 1, Person.reset, .AnimationGameOver, .GameStatusInProgress, 7, 0⟩ =
      .ok ⟨lone_box 3 2 4 1, Person.reset, .AnimationPause, .GameStatusPause, 7, 0⟩ ∧
    process_events 1 (fun _ => 0)
        (key_event .InputKeyDown ::
          (List.replicate 2 (tick_event .InputKeyUp) ++ [key_event .InputKeyOk]))
        ⟨lone_box 3 2 4 1, Person.reset, .AnimationGameOver, .GameStatusInProgress, 7, 0⟩ =
      .ok ⟨lone_box 3 2 4 1, Person.reset, .AnimationPause, .GameStatusInProgress, 7, 0⟩ :=
  C12_pause_and_resume 1 (fun _ => 0)
    ⟨lone_box 3 2 4 1, Person.reset, .AnimationGameOver, .GameStatusInProgress, 7, 0⟩
    .InputKeyDown .InputKeyUp 2 rfl (by decide)

/-! ## The counters of the character -/

/-- C13: the counter predicate (`h_tick` in 0..5, `x_direction` in {-1, 0, 1}, `j_tick`
in -6..6, `h_tick = 0` exactly when `x_direction = 0`) holds for the reset character and is
preserved by `handle_key_presses` for every key and, for every grid, by every returning
call of `person_move` and of each of its two switches. -/
theorem C13_counters_preserved (p : Person) (hp : counters_ok p) :
    counters_ok Person.reset ∧
    (∀ key g, g.person = p → counters_ok (handle_key_presses key g).person) ∧
    (∀ f p1 f1, person_move_horizontal p f = .ok (p1, f1) → counters_ok p1) ∧
    (∀ f p1, person_move_vertical p f = .ok p1 → counters_ok p1) ∧
    (∀ f p1 f1, person_move p f = .ok (p1, f1) → counters_ok p1) := by
  refine ⟨by decide, ?_, ?_, ?_, ?_⟩
  · intro key g hg
    exact handle_key_presses_counters key g (hg ▸ hp)
  · intro f p1 f1 h
    exact (person_move_horizontal_counters p f p1 f1 h hp).1
  · intro f p1 h
    exact (person_move_vertical_counters p f p1 h hp).1
  · intro f p2 f2 h
    obtain ⟨p1, f1, h1, h2, _⟩ := person_move_ok p f p2 f2 h
    exact (person_move_vertical_counters p1 f1 p2 h2
      (person_move_horizontal_counters p f p1 f1 h1 hp).1).1

theorem C13_counters_preserved_witness :
    counters_ok ⟨⟨5, 3⟩, 1, 0, 1, true⟩ ∧ counters_ok ⟨⟨6, 3⟩, 1, 0, 2, true⟩ :=
  ⟨by decide, (C13_counters_preserved ⟨⟨5, 3⟩, 1, 0, 1, true⟩ (by decide)).2.2.2.2
    (lone_box 6 4 0 0) ⟨⟨6, 3⟩, 1, 0, 2, true⟩ (lone_box 6 4 0 0) (by decide)⟩

/-! ## The walk into an empty cell -/

set_option maxRecDepth 100000 in
/-- C14: for every character inside the grid with `x_direction ≠ 0` whose target cell
(same row, column `x + x_direction`) is inside the grid and empty: above the floor row
`horizontal_move` returns true with the position moved to the target and the grid
unchanged if the cell below the target is empty or holds a landed box, and returns false
with position and grid unchanged otherwise; when it succeeds at `h_tick = 1`, the
horizontal switch of that same `person_move` call leaves the character on the target with
`h_tick = 2`, and so does every returning `person_move` (column and `h_tick`). On the
floor row the target is grounded, yet `horizontal_move` does not return true:
`ground_box_check` first takes `get_lower_box`, which loads the row pointer
`field[Y_LAST + 1]` from outside the table of `Y_FIELD_SIZE` row pointers, a memory fault,
and `person_move` at `h_tick = 1` ends in that fault. The first walk of a game does so:
from the freshly allocated game, a press of Left followed by a tick faults. -/
theorem C14_walk_needs_ground (p : Person) (f : Field) (hd : p.x_direction ≠ 0)
    (hin : in_grid p.p) (h0 : 0 ≤ (p.p.x : Int) + p.x_direction)
    (h1 : (p.p.x : Int) + p.x_direction ≤ X_LAST)
    (hemp : (f.cell p.p.y (target_position p).x).exists_ = false) :
    (((target_position p).x : Int) = p.p.x + p.x_direction ∧
      (target_position p).y = p.p.y ∧ (p.p.y < Y_LAST ∨ p.p.y = Y_LAST)) ∧
    (p.p.y < Y_LAST →
      horizontal_move p f =
        .ok (if grounded f (target_position p) then
            (true, { p with p := target_position p }, f) else (false, p, f)) ∧
      (p.h_tick = 1 → grounded f (target_position p) →
        person_move_horizontal p f =
          .ok ({ p with p := target_position p, h_tick := 2 }, f) ∧
        ∀ p1 f1, person_move p f = .ok (p1, f1) →
          p1.p.x = (target_position p).x ∧ p1.h_tick = 2)) ∧
    (p.p.y = Y_LAST →
      grounded f (target_position p) ∧
      get_lower_box (target_position p) = .error .out_of_bounds ∧
      horizontal_move p f = .error .out_of_bounds ∧
      (p.h_tick = 1 → person_move p f = .error .out_of_bounds)) ∧
    process_events 1 (fun _ => 0) [key_event .InputKeyLeft, tick_event .InputKeyLeft]
      (allocGameState .AnimationPause) = .error .out_of_bounds := by
  have htx : ((target_position p).x : Int) = p.p.x + p.x_direction := by
    simp only [target_position]
    exact u8_small _ h0 (by simp only [X_LAST, X_FIELD_SIZE] at h1; omega)
  have hx : (target_position p).x ≤ X_LAST := by
    simp only [X_LAST, X_FIELD_SIZE] at h1 ⊢
    omega
  refine ⟨⟨htx, rfl, lt_or_eq_of_le hin.2⟩, ?_, ?_, ?_⟩
  · intro hy
    have hne : ¬ p.p.y = Y_LAST := Nat.ne_of_lt hy
    have hgr : grounded f (target_position p) ↔
        ((f.cell (p.p.y + 1) (target_position p).x).exists_ = false ∨
          (f.cell (p.p.y + 1) (target_position p).x).offset = 0) := by
      constructor
      · intro hg
        rcases hg with hg | hg
        · exact absurd hg hne
        · exact hg
      · intro hg
        exact Or.inr hg
    have hw : horizontal_move p f =
        .ok (if grounded f (target_position p) then
            (true, { p with p := target_position p }, f) else (false, p, f)) := by
      rw [horizontal_move_walk p f hd hy hx hemp]
      by_cases hg : grounded f (target_position p)
      · rw [if_pos hg, if_pos (hgr.mp hg)]
      · rw [if_neg hg, if_neg (fun h => hg (hgr.mpr h))]
    refine ⟨hw, ?_⟩
    intro ht hg
    have hw2 := horizontal_move_walk { p with h_tick := 2 } f hd hy hx hemp
    have hg2 := hgr.mp hg
    have hstep : person_move_horizontal p f =
        .ok ({ p with p := target_position p, h_tick := 2 }, f) := by
      rw [person_move_horizontal_first p f _ ht hw2]
      simp only [target_position] at hg2 ⊢
      rw [if_pos hg2]
      rfl
    refine ⟨hstep, ?_⟩
    intro p2 f2 h
    obtain ⟨pa, fa, ha, hv, _⟩ := person_move_ok p f p2 f2 h
    rw [hstep] at ha
    simp only [Except.ok.injEq, Prod.mk.injEq] at ha
    obtain ⟨q1, _, q3, _⟩ := person_move_vertical_frame pa fa p2 hv
    rw [q1, q3, ← ha.1]
    exact ⟨rfl, rfl⟩
  · intro hy
    refine ⟨Or.inl hy, ?_, horizontal_move_walk_floor p f hd hy hx hemp, ?_⟩
    · unfold get_lower_box row_ptr
      have hty : (target_position p).y = Y_LAST := hy
      rw [hty]
      rfl
    · intro ht
      have hf := horizontal_move_walk_floor { p with h_tick := i8 (p.h_tick + 1) } f hd hy hx hemp
      unfold person_move person_move_horizontal
      rw [if_neg (by omega), if_pos ht]
      simp only
      rw [hf]
  · decide

theorem C14_walk_needs_ground_witness :
    horizontal_move ⟨⟨5, 3⟩, 1, 0, 1, true⟩ (lone_box 6 4 0 0) =
      .ok (true, ⟨⟨6, 3⟩, 1, 0, 1, true⟩, lone_box 6 4 0 0) ∧
    person_move_horizontal ⟨⟨5, 3⟩, 1, 0, 1, true⟩ (lone_box 6 4 0 0) =
      .ok (⟨⟨6, 3⟩, 1, 0, 2, true⟩, lone_box 6 4 0 0) ∧
    horizontal_move ⟨⟨5, 3⟩, 1, 0, 1, true⟩ (lone_box 6 4 7 0) =
      .ok (false, ⟨⟨5, 3⟩, 1, 0, 1, true⟩, lone_box 6 4 7 0) ∧
    horizontal_move ⟨⟨6, Y_LAST⟩, -1, 0, 2, false⟩ Field.zero = .error .out_of_bounds :=
  ⟨((C14_walk_needs_ground ⟨⟨5, 3⟩, 1, 0, 1, true⟩ (lone_box 6 4 0 0) (by decide) (by decide)
      (by decide) (by decide) (by decide)).2.1 (by decide)).1,
   (((C14_walk_needs_ground ⟨⟨5, 3⟩, 1, 0, 1, true⟩ (lone_box 6 4 0 0) (by decide) (by decide)
      (by decide) (by decide) (by decide)).2.1 (by decide)).2 rfl (by decide)).1,
   ((C14_walk_needs_ground ⟨⟨5, 3⟩, 1, 0, 1, true⟩ (lone_box 6 4 7 0) (by decide) (by decide)
      (by decide) (by decide) (by decide)).2.1 (by decide)).1,
   ((C14_walk_needs_ground ⟨⟨6, Y_LAST⟩, -1, 0, 2, false⟩ Field.zero (by decide) (by decide)
      (by decide) (by decide) (by decide)).2.2.1 rfl).2.2.1⟩

/-! ## A target column outside the grid -/

/-- C16: for every character inside the grid whose target column `x + x_direction` falls
outside `0..X_LAST` (at `x = 0` moving left the `uint8_t` column wraps to 255, at
`x = X_LAST` moving right it is `X_LAST + 1`), `horizontal_move` returns false with
position and grid unchanged; at `h_tick = 1` the horizontal switch of `person_move` then
resets `h_tick` and `x_direction` to 0, and every returning `person_move` has them at 0
with the column unchanged. -/
theorem C16_off_grid_target_rejected (p : Person) (f : Field) (hin : in_grid p.p)
    (hr : -128 ≤ p.x_direction ∧ p.x_direction ≤ 127)
    (hout : (p.p.x : Int) + p.x_direction < 0 ∨ (X_LAST : Int) < (p.p.x : Int) + p.x_direction) :
    horizontal_move p f = .ok (false, p, f) ∧
    (p.h_tick = 1 →
      person_move_horizontal p f = .ok ({ p with h_tick := 0, x_direction := 0 }, f) ∧
      ∀ p1 f1, person_move p f = .ok (p1, f1) →
        p1.h_tick = 0 ∧ p1.x_direction = 0 ∧ p1.p.x = p.p.x) := by
  have hx := hin.1
  have hrej : ∀ q : Person, q.p = p.p → q.x_direction = p.x_direction →
      horizontal_move q f = .ok (false, q, f) := by
    intro q hq1 hq2
    unfold horizontal_move
    by_cases hd : q.x_direction = 0
    · rw [if_pos hd]
    · rw [if_neg hd, if_pos]
      right
      rw [hq1, hq2]
      unfold u8
      simp only [X_LAST, X_FIELD_SIZE] at hx hout ⊢
      omega
  refine ⟨hrej p rfl rfl, ?_⟩
  intro ht
  have hstep : person_move_horizontal p f = .ok ({ p with h_tick := 0, x_direction := 0 }, f) := by
    rw [person_move_horizontal_first p f _ ht (hrej { p with h_tick := 2 } rfl rfl)]
    rfl
  refine ⟨hstep, ?_⟩
  intro p2 f2 h
  obtain ⟨pa, fa, ha, hv, _⟩ := person_move_ok p f p2 f2 h
  rw [hstep] at ha
  simp only [Except.ok.injEq, Prod.mk.injEq] at ha
  obtain ⟨q1, q2, q3, _⟩ := person_move_vertical_frame pa fa p2 hv
  rw [q1, q2, q3, ← ha.1]
  exact ⟨rfl, rfl, rfl⟩

theorem C16_off_grid_target_rejected_witness :
    horizontal_move ⟨⟨0, 5⟩, -1, 0, 1, false⟩ Field.zero =
      .ok (false, ⟨⟨0, 5⟩, -1, 0, 1, false⟩, Field.zero) ∧
    ((1 : Int) = 1 →
      person_move_horizontal ⟨⟨0, 5⟩, -1, 0, 1, false⟩ Field.zero =
        .ok (⟨⟨0, 5⟩, 0, 0, 0, false⟩, Field.zero) ∧
      ∀ p1 f1, person_move ⟨⟨0, 5⟩, -1, 0, 1, false⟩ Field.zero = .ok (p1, f1) →
        p1.h_tick = 0 ∧ p1.x_direction = 0 ∧ p1.p.x = 0) :=
  C16_off_grid_target_rejected ⟨⟨0, 5⟩, -1, 0, 1, false⟩ Field.zero (by decide) (by decide)
    (by decide)

/-! ## The effect of a push -/

/-- C15: whenever `horizontal_move` succeeds as a push (it returns true and the target
cell held a box), the character's position is the target; the cell the code takes for the
cell beyond the target, `field[y][x + x_direction]`, was empty before the call and
afterwards holds the pushed box, with the same variant and the same fall offset; the
target cell is empty; every other cell is unchanged. When the column `x + x_direction` is
inside `0..X_LAST` that cell is the cell of the same row in that column, one step beyond
the target. When it is not, the push succeeds all the same and the cell that receives the
box is not a cell of the character's row: a box pushed left out of column 0 of row 4 lands
in the last column of row 3, and a box pushed right out of column `X_LAST` of row 2 lands
in column 0 of row 3. -/
theorem C15_push_moves_the_box (p : Person) (f : Field) (p1 : Person) (f1 : Field)
    (hbox : (f.cell p.p.y (target_position p).x).exists_ = true)
    (h : horizontal_move p f = .ok (true, p1, f1)) :
    (p1.p = target_position p ∧
    ∃ nx, cell_addr p.p.y ((target_position p).x + p.x_direction) = some nx ∧
      (f.get nx).exists_ = false ∧
      f1.get nx = f.cell p.p.y (target_position p).x ∧
      (f1.cell p.p.y (target_position p).x).exists_ = false ∧
      (∀ i, i ≠ nx → i ≠ p.p.y * X_FIELD_SIZE + (target_position p).x → f1.get i = f.get i) ∧
      (∀ c : Nat, (c : Int) = (target_position p).x + p.x_direction → c ≤ X_LAST →
        nx = p.p.y * X_FIELD_SIZE + c) ∧
      ((((target_position p).x : Int) + p.x_direction < 0 ∨
          (X_LAST : Int) < (target_position p).x + p.x_direction) →
        ∀ c : Nat, c ≤ X_LAST → nx ≠ p.p.y * X_FIELD_SIZE + c)) ∧
    (horizontal_move ⟨⟨1, 4⟩, -1, 0, 2, false⟩ (lone_box 0 4 3 1) =
        .ok (true, ⟨⟨0, 4⟩, -1, 0, 2, false⟩, (lone_box 11 3 3 1).put 4 0 ⟨3, 1, false⟩) ∧
      cell_addr 4 (0 + -1) = some (3 * X_FIELD_SIZE + X_LAST)) ∧
    (horizontal_move ⟨⟨10, 2⟩, 1, 0, 2, true⟩ (lone_box 11 2 0 4) =
        .ok (true, ⟨⟨11, 2⟩, 1, 0, 2, true⟩, (lone_box 0 3 0 4).put 2 11 ⟨0, 4, false⟩) ∧
      cell_addr 2 (11 + 1) = some (3 * X_FIELD_SIZE + 0)) := by
  refine ⟨?_, by decide, by decide⟩
  rcases horizontal_move_cases p f true p1 f1 h with h1 | h1 | h1
  · exact absurd h1.1 (by decide)
  · obtain ⟨_, _, _, _, hle, it, hit, hemp, _⟩ := h1
    have hidx : it = p.p.y * X_FIELD_SIZE + (target_position p).x := by
      have := (cell_addr_some _ _ _ hit).2.1
      simp only [X_FIELD_SIZE] at this ⊢
      omega
    rw [hidx] at hemp
    simp only [Field.cell] at hbox
    rw [hbox] at hemp
    cases hemp
  · obtain ⟨_, hp1, _, hle, it, nx, hit, hnx, hne, hex, hm, rfl⟩ := h1
    have hidx : it = p.p.y * X_FIELD_SIZE + (target_position p).x := by
      have := (cell_addr_some _ _ _ hit).2.1
      simp only [X_FIELD_SIZE] at this ⊢
      omega
    obtain ⟨_, _, nx2, hnx2, hemp⟩ := is_movable_true f _ _ hm
    have hsame : nx2 = nx := by
      simp only [target_position] at hnx hnx2
      rw [hnx] at hnx2
      exact (Option.some.inj hnx2).symm
    subst hsame
    have hit72 := (cell_addr_some _ _ _ hit).1
    have hnx72 := (cell_addr_some _ _ _ hnx).1
    refine ⟨by rw [hp1], nx2, hnx, hemp, ?_, ?_, ?_, ?_, ?_⟩
    · rw [Field.get_set_ne _ _ _ _ hne, Field.get_set_eq _ _ _ hnx72, Field.cell, ← hidx]
    · rw [Field.cell, ← hidx, Field.get_set_eq _ _ _ hit72]
    · intro i hi1 hi2
      rw [← hidx] at hi2
      rw [Field.get_set_ne _ _ _ _ (Ne.symm hi2), Field.get_set_ne _ _ _ _ (Ne.symm hi1)]
    · intro c hc _
      have := (cell_addr_some _ _ _ hnx).2.1
      simp only [X_FIELD_SIZE] at this ⊢
      omega
    · intro hout c hc
      have := (cell_addr_some _ _ _ hnx).2.1
      simp only [X_FIELD_SIZE, X_LAST] at this hout hc ⊢
      omega

theorem C15_push_moves_the_box_witness :
    (⟨⟨7, Y_LAST⟩, 1, 0, 1, true⟩ : Person).p = target_position ⟨⟨6, Y_LAST⟩, 1, 0, 1, true⟩ ∧
    ∃ nx, cell_addr (Y_LAST : Nat)
        (((target_position ⟨⟨6, Y_LAST⟩, 1, 0, 1, true⟩).x : Nat) + (1 : Int)) = some nx ∧
      ((lone_box 7 Y_LAST 3 2).get nx).exists_ = false ∧
      ((lone_box 8 Y_LAST 3 2).put Y_LAST 7 ⟨3, 2, false⟩).get nx =
        (lone_box 7 Y_LAST 3 2).cell Y_LAST (target_position ⟨⟨6, Y_LAST⟩, 1, 0, 1, true⟩).x ∧
      (((lone_box 8 Y_LAST 3 2).put Y_LAST 7 ⟨3, 2, false⟩).cell Y_LAST
        (target_position ⟨⟨6, Y_LAST⟩, 1, 0, 1, true⟩).x).exists_ = false ∧
      (∀ i, i ≠ nx →
        i ≠ Y_LAST * X_FIELD_SIZE + (target_position ⟨⟨6, Y_LAST⟩, 1, 0, 1, true⟩).x →
        ((lone_box 8 Y_LAST 3 2).put Y_LAST 7 ⟨3, 2, false⟩).get i =
          (lone_box 7 Y_LAST 3 2).get i) ∧
      (∀ c : Nat, (c : Int) =
          ((target_position ⟨⟨6, Y_LAST⟩, 1, 0, 1, true⟩).x : Nat) + (1 : Int) →
        c ≤ X_LAST → nx = Y_LAST * X_FIELD_SIZE + c) ∧
      (((((target_position ⟨⟨6, Y_LAST⟩, 1, 0, 1, true⟩).x : Nat) : Int) + 1 < 0 ∨
          ((X_LAST : Nat) : Int) <
            ((target_position ⟨⟨6, Y_LAST⟩, 1, 0, 1, true⟩).x : Nat) + (1 : Int)) →
        ∀ c : Nat, c ≤ X_LAST → nx ≠ Y_LAST * X_FIELD_SIZE + c) :=
  (C15_push_moves_the_box ⟨⟨6, Y_LAST⟩, 1, 0, 1, true⟩ (lone_box 7 Y_LAST 3 2)
    ⟨⟨7, Y_LAST⟩, 1, 0, 1, true⟩ ((lone_box 8 Y_LAST 3 2).put Y_LAST 7 ⟨3, 2, false⟩)
    (by decide) (by decide)).1

/-! ## Falling -/

/-- C17, as stated, fails: the character at `(6, 3)` with `j_tick = 0` above a box at
`(6, 4)` that has not landed (`fall_offset = 5`) does not fall; `person_move` leaves it in
row 3. -/
theorem C17_counterexample :
    ((lone_box 6 4 5 0).cell 4 6).exists_ = true ∧ ((lone_box 6 4 5 0).cell 4 6).offset = 5 ∧
    person_move ⟨⟨6, 3⟩, 0, 0, 0, false⟩ (lone_box 6 4 5 0) =
      .ok (⟨⟨6, 3⟩, 0, 0, 0, false⟩, lone_box 6 4 5 0) := by
  decide

/-- C17, amended: in `person_move` with `j_tick = 0` and the character inside the grid,
the character falls one row in that tick (row index plus one, `j_tick` becomes -1) exactly
when it is not on the floor row and the cell directly below is empty; on the floor row, or
with a box in the cell below, landed or still falling, its row is unchanged. With
`h_tick = 0` that is all `person_move` does. -/
theorem C17_fall_when_nothing_below (p : Person) (f : Field) (hin : in_grid p.p)
    (hj : p.j_tick = 0) :
    person_move_vertical p f =
      .ok (if p.p.y ≠ Y_LAST ∧ (f.cell (p.p.y + 1) p.p.x).exists_ = false then
          { p with p := ⟨p.p.x, p.p.y + 1⟩, j_tick := -1 } else p) ∧
    (p.h_tick = 0 →
      person_move p f =
        .ok (if p.p.y ≠ Y_LAST ∧ (f.cell (p.p.y + 1) p.p.x).exists_ = false then
          { p with p := ⟨p.p.x, p.p.y + 1⟩, j_tick := -1 } else p, f)) := by
  have hv : person_move_vertical p f =
      .ok (if p.p.y ≠ Y_LAST ∧ (f.cell (p.p.y + 1) p.p.x).exists_ = false then
          { p with p := ⟨p.p.x, p.p.y + 1⟩, j_tick := -1 } else p) := by
    unfold person_move_vertical
    rw [if_pos hj, on_ground_eval p f hin]
    have hy := hin.2
    have hu : u8 ((p.p.y : Int) + 1) = p.p.y + 1 := by
      unfold u8
      simp only [Y_LAST, Y_FIELD_SIZE] at hy
      omega
    have hi : i8 (p.j_tick - 1) = -1 := by rw [hj]; rfl
    by_cases hl : p.p.y = 5
    · simp [hl]
    · cases hb : (f.cell (p.p.y + 1) p.p.x).exists_
      · simp [hl, hb, hu, hi]
      · simp [hl, hb]
  refine ⟨hv, ?_⟩
  intro ht
  unfold person_move
  have hh : person_move_horizontal p f = .ok (p, f) := by
    unfold person_move_horizontal
    rw [if_pos ht]
  rw [hh]
  simp only [hv]
  by_cases hc : p.p.y ≠ Y_LAST ∧ (f.cell (p.p.y + 1) p.p.x).exists_ = false
  · simp only [if_pos hc, person_move_clear]
    simp
  · simp only [if_neg hc, person_move_clear, hj]
    simp

theorem C17_fall_when_nothing_below_witness :
    person_move_vertical ⟨⟨6, 3⟩, 0, 0, 0, false⟩ Field.zero =
      .ok (if (3 : Nat) ≠ Y_LAST ∧ (Field.zero.cell (3 + 1) 6).exists_ = false then
          ⟨⟨6, 3 + 1⟩, 0, -1, 0, false⟩ else ⟨⟨6, 3⟩, 0, 0, 0, false⟩) ∧
    ((0 : Int) = 0 →
      person_move ⟨⟨6, 3⟩, 0, 0, 0, false⟩ Field.zero =
        .ok (if (3 : Nat) ≠ Y_LAST ∧ (Field.zero.cell (3 + 1) 6).exists_ = false then
          ⟨⟨6, 3 + 1⟩, 0, -1, 0, false⟩ else ⟨⟨6, 3⟩, 0, 0, 0, false⟩, Field.zero)) :=
  C17_fall_when_nothing_below ⟨⟨6, 3⟩, 0, 0, 0, false⟩ Field.zero (by decide) rfl

/-! ## One row per pass -/

/-- C18: one pass of `drop_box` moves no box by more than one row. For every grid, every
cell `(y, x)` that is occupied after the pass was occupied before the pass at `(y, x)`
itself or at `(y - 1, x)`; a box found after the pass in a cell that was empty before it
has `fall_offset = BOX_HEIGHT`; and every cell into which the pass has moved a box holds,
after the pass, a box with `fall_offset = BOX_HEIGHT`. -/
theorem C18_one_row_per_pass (f : Field) :
    (∀ y x, y < Y_FIELD_SIZE → x < X_FIELD_SIZE → ((drop_box f).cell y x).exists_ = true →
      (f.cell y x).exists_ = true ∨ (1 ≤ y ∧ (f.cell (y - 1) x).exists_ = true)) ∧
    (∀ y x, y < Y_FIELD_SIZE → x < X_FIELD_SIZE → ((drop_box f).cell y x).exists_ = true →
      (f.cell y x).exists_ = false → ((drop_box f).cell y x).offset = BOX_HEIGHT) ∧
    (∀ e ∈ (drop_box_log f).2, ((drop_box f).cell e.1 e.2).exists_ = true ∧
      ((drop_box f).cell e.1 e.2).offset = BOX_HEIGHT) := by
  refine ⟨?_, ?_, ?_⟩
  · intro y x _ hx h
    rw [drop_box_cell f y x hx] at h
    exact (col_rows_origin Y_LAST (fun r => f.cell r x) y).1 h
  · intro y x _ hx h he
    rw [drop_box_cell f y x hx] at h ⊢
    exact (col_rows_origin Y_LAST (fun r => f.cell r x) y).2 h he
  · intro e he
    have := drop_box_log_cells f e he
    rw [drop_box_log_fst] at this
    exact this.2

/-! ## The mid-jump clear -/

/-- C19: whenever `person_move` returns with `j_tick > 0`, the character is in a row
`≥ 1` of the grid and the cell at its position and the cell directly above it are both
zeroed (empty); so the death check on that state does not fire and the next tick leaves
the game status as it is: a character that is mid-jump is not crushed. For a character
inside the grid in a row `≥ 1` the mid-jump clear always returns. -/
theorem C19_mid_jump_not_crushed (p0 : Person) (f0 : Field) (p1 : Person) (f1 : Field)
    (h : person_move p0 f0 = .ok (p1, f1)) (hj : 0 < p1.j_tick) :
    (1 ≤ p1.p.y ∧ p1.p.y ≤ Y_LAST) ∧
    load f1 p1.p.y p1.p.x = .ok Box.zero ∧
    load f1 (p1.p.y - 1) p1.p.x = .ok Box.zero ∧
    is_person_dead p1 f1 = .ok false ∧
    (∀ fuel rand g g2, g.person = p1 → g.field = f1 →
      game_tick fuel rand g = .ok g2 → g2.game_status = g.game_status) ∧
    (∀ p f, in_grid p.p → 1 ≤ p.p.y → ∃ f2, person_move_clear p f = .ok f2) := by
  obtain ⟨pa, fa, _, _, hc⟩ := person_move_ok p0 f0 p1 f1 h
  obtain ⟨h1, h2, h3, h4, h5⟩ := person_move_clear_cells p1 fa f1 hj hc
  refine ⟨⟨h1, h2⟩, h3, h4, h5, ?_, fun p f hin hy => person_move_clear_returns p f hin hy⟩
  intro fuel rand g g2 hp hf ht
  exact game_tick_alive fuel rand g g2 (by rw [hp, hf]; exact h5) ht

theorem C19_mid_jump_not_crushed_witness :
    (1 ≤ (4 : Nat) ∧ (4 : Nat) ≤ Y_LAST) ∧
    load Field.zero (4 : Nat) (6 : Nat) = .ok Box.zero ∧
    load Field.zero (((4 : Nat) : Int) - 1) (6 : Nat) = .ok Box.zero ∧
    is_person_dead ⟨⟨6, 4⟩, 0, 4, 0, false⟩ Field.zero = .ok false ∧
    (∀ fuel rand g g2, g.person = ⟨⟨6, 4⟩, 0, 4, 0, false⟩ → g.field = Field.zero →
      game_tick fuel rand g = .ok g2 → g2.game_status = g.game_status) ∧
    (∀ p f, in_grid p.p → 1 ≤ p.p.y → ∃ f2, person_move_clear p f = .ok f2) :=
  C19_mid_jump_not_crushed ⟨⟨6, 4⟩, 0, 3, 0, false⟩
    ((lone_box 6 4 0 0).put 3 6 ⟨0, 1, true⟩) ⟨⟨6, 4⟩, 0, 4, 0, false⟩ Field.zero
    (by decide) (by decide)

/-! ## The row above row 0 -/

/-- C20: the accesses to the cell above the character do index row -1. For a character
in row 0 (inside the grid) the death check `is_person_dead` dereferences `field[-1][x]`,
a memory fault for every grid; and for the character at `(6, 1)` standing on a box with
`j_tick = 1`, the jump step moves it to row 0 and the mid-jump clear that follows
dereferences `field[-1][6]`, so `person_move` ends in a memory fault. -/
theorem C20_row_minus_one :
    (∀ (p : Person) (f : Field), p.p.y = 0 →
      cell_addr ((p.p.y : Int) - 1) p.p.x = none ∧
      is_person_dead p f = .error .out_of_bounds ∧
      (0 < p.j_tick → person_move_clear p f = .error .out_of_bounds)) ∧
    in_grid (⟨6, 0⟩ : Position) ∧
    is_person_dead ⟨⟨6, 0⟩, 0, 0, 0, false⟩ Field.zero = .error .out_of_bounds ∧
    in_grid (⟨6, 1⟩ : Position) ∧
    person_move_vertical ⟨⟨6, 1⟩, 0, 1, 0, false⟩ (lone_box 6 2 0 0) =
      .ok ⟨⟨6, 0⟩, 0, 2, 0, false⟩ ∧
    person_move ⟨⟨6, 1⟩, 0, 1, 0, false⟩ (lone_box 6 2 0 0) = .error .out_of_bounds := by
  refine ⟨?_, by decide, by decide, by decide, by decide, by decide⟩
  intro p f hy
  have hnone : cell_addr ((p.p.y : Int) - 1) p.p.x = none := by
    unfold cell_addr
    rw [if_neg]
    omega
  refine ⟨hnone, ?_, ?_⟩
  · unfold is_person_dead
    rw [load_none f _ _ hnone]
  · intro hj
    unfold person_move_clear
    rw [if_pos hj]
    cases hs : store f p.p.y p.p.x Box.zero with
    | error e =>
      simp only
      unfold store at hs
      cases hc : cell_addr p.p.y p.p.x with
      | none => rw [hc] at hs; simp only [Except.error.injEq] at hs; rw [hs]
      | some i => rw [hc] at hs; cases hs
    | ok fa =>
      simp only [store, hnone]

/-! ## A push against the edge of a row -/

/-- C21: `horizontal_move` does push a box off the edge of its row. For every character
in column 1 of a row `y ≥ 2` moving left, with a box in column 0 of its row, the cell above
that box empty and the last cell of the row above, `(X_LAST, y - 1)`, empty, the push is
not rejected: the box is written to `(X_LAST, y - 1)`, which is what `field[y][-1]`
denotes, and the target is cleared. For every character in column `X_LAST - 1` of a row
`2 ≤ y < Y_LAST` moving right against a box in column `X_LAST`, the box is written to
`(0, y + 1)`. On the floor row the same push reads `field[Y_LAST][X_FIELD_SIZE]`, the cell
after the last cell of the block: a memory fault. -/
theorem C21_push_off_the_edge :
    (∀ (p : Person) (f : Field), p.p.x = 1 → p.x_direction = -1 → 2 ≤ p.p.y →
      p.p.y ≤ Y_LAST → (f.cell p.p.y 0).exists_ = true →
      (f.cell (p.p.y - 1) 0).exists_ = false → (f.cell (p.p.y - 1) X_LAST).exists_ = false →
      horizontal_move p f =
        .ok (true, { p with p := ⟨0, p.p.y⟩ },
          (f.put (p.p.y - 1) X_LAST (f.cell p.p.y 0)).put p.p.y 0
            { f.cell p.p.y 0 with exists_ := false })) ∧
    (∀ (p : Person) (f : Field), p.p.x = X_LAST - 1 → p.x_direction = 1 → 2 ≤ p.p.y →
      p.p.y < Y_LAST → (f.cell p.p.y X_LAST).exists_ = true →
      (f.cell (p.p.y - 1) X_LAST).exists_ = false → (f.cell (p.p.y + 1) 0).exists_ = false →
      horizontal_move p f =
        .ok (true, { p with p := ⟨X_LAST, p.p.y⟩ },
          (f.put (p.p.y + 1) 0 (f.cell p.p.y X_LAST)).put p.p.y X_LAST
            { f.cell p.p.y X_LAST with exists_ := false })) ∧
    (∀ (p : Person) (f : Field), p.p.x = X_LAST - 1 → p.x_direction = 1 → p.p.y = Y_LAST →
      (f.cell Y_LAST X_LAST).exists_ = true →
      horizontal_move p f = .error .out_of_bounds) ∧
    in_grid ⟨1, 3⟩ ∧ in_grid ⟨10, 3⟩ ∧ in_grid ⟨10, 5⟩ ∧
    horizontal_move ⟨⟨1, 3⟩, -1, 0, 1, false⟩ (lone_box 0 3 0 2) =
      .ok (true, ⟨⟨0, 3⟩, -1, 0, 1, false⟩, (lone_box 11 2 0 2).put 3 0 ⟨0, 2, false⟩) ∧
    horizontal_move ⟨⟨10, 3⟩, 1, 0, 1, true⟩ (lone_box 11 3 0 2) =
      .ok (true, ⟨⟨11, 3⟩, 1, 0, 1, true⟩, (lone_box 0 4 0 2).put 3 11 ⟨0, 2, false⟩) ∧
    horizontal_move ⟨⟨10, 5⟩, 1, 0, 1, true⟩ (lone_box 11 5 0 2) = .error .out_of_bounds := by
  refine ⟨?_, ?_, ?_, by decide, by decide, by decide, by decide, by decide, by decide⟩
  · intro p f hx hd h2 hy hbox hup hnext
    have ht : target_position p = ⟨0, p.p.y⟩ := by
      simp only [target_position, hx, hd]
      rfl
    have hnx : cell_addr p.p.y ((target_position p).x + p.x_direction) =
        some ((p.p.y - 1) * X_FIELD_SIZE + X_LAST) := by
      rw [ht, hd]
      unfold cell_addr
      simp only [Y_LAST, X_LAST, X_FIELD_SIZE, Y_FIELD_SIZE] at hy ⊢
      rw [if_pos (by omega)]
      congr 1
      omega
    have := horizontal_move_push p f _ (by rw [hd]; decide) hy (by rw [ht]; exact Nat.zero_le _)
      (by rw [ht]; exact hbox) h2 (by rw [ht]; exact hup) hnx hnext
    rw [this, ht]
    rfl
  · intro p f hx hd h2 hy hbox hup hnext
    have ht : target_position p = ⟨X_LAST, p.p.y⟩ := by
      simp only [target_position, hx, hd]
      rfl
    have hnx : cell_addr p.p.y ((target_position p).x + p.x_direction) =
        some ((p.p.y + 1) * X_FIELD_SIZE + 0) := by
      rw [ht, hd]
      unfold cell_addr
      simp only [Y_LAST, X_LAST, X_FIELD_SIZE, Y_FIELD_SIZE] at hy ⊢
      rw [if_pos (by omega)]
      congr 1
      omega
    have := horizontal_move_push p f _ (by rw [hd]; decide) (le_of_lt hy) (by rw [ht])
      (by rw [ht]; exact hbox) h2 (by rw [ht]; exact hup) hnx hnext
    rw [this, ht]
    rfl
  · intro p f hx hd hy hbox
    have htx : u8 (p.p.x + p.x_direction) = X_LAST := by
      rw [hx, hd]
      rfl
    have hy6 : p.p.y < Y_FIELD_SIZE := by rw [hy]; decide
    have hx12 : X_LAST < X_FIELD_SIZE := by decide
    have hnone : cell_addr p.p.y ((X_LAST : Nat) + p.x_direction) = none := by
      rw [hd, hy]
      decide
    have hm := is_movable_eval f ⟨X_LAST, p.p.y⟩ p.x_direction hy6 hx12
    rw [hnone] at hm
    have hb2 : (f.cell p.p.y X_LAST).exists_ = true := by
      rw [hy]
      exact hbox
    have he : ¬ (((u8 (p.p.x + p.x_direction) : Nat) : Int) < 0 ∨
        u8 (p.p.x + p.x_direction) > X_LAST) := by
      rw [htx]
      decide
    have hemp2 : ¬ is_empty (f.cell p.p.y (u8 (p.p.x + p.x_direction))) = true := by
      rw [htx]
      simp only [is_empty, hb2, Bool.not_true, Bool.false_eq_true, not_false_eq_true]
    unfold horizontal_move
    rw [if_neg (by rw [hd]; decide)]
    simp only
    rw [if_neg he, load_grid f _ _ hy6 (by rw [htx]; exact hx12)]
    simp only
    rw [if_neg hemp2]
    simp only [htx]
    rw [hm]

end HeapDefence
